import Mathlib

/-!
# SpoToMusic: markup extractor, query builder, match selector and transfer orchestrator

A shallow embedding of the core of `internal/transfer/service.go`,
`internal/spotify/client.go` and `internal/youtube/client.go`.

Go `string` values are modelled as `List Char`: sequences of Unicode code
points, i.e. valid UTF-8 text.  The functions of Go's standard library that
the program calls are modelled after their documented behaviour in the
namespaces `strings`, `strconv` and `regexp`; the JSON decoder and the HTML
entity decoder are parameters (`Lib`), as is the order in which a `range`
loop visits a map (`MapOrder`).  The remote YouTube service (`Api`) and the
other collaborators of a transfer (`Env`) are parameters too: each call
answers as a function of a state of the outside world, and the calls made
are logged (`World`).  A field that the client reads through a pointer of a
reply is optional, and the playlists of the user are listed page by page.  A
run-time panic is modelled by `none`, with the world and the log as they are
at the moment of the panic.
-/

set_option maxRecDepth 100000

namespace SpoToMusic

/-! ## Data model -/

/-- The `Track` struct of `internal/spotify/client.go`. -/
structure Track where
  ID : List Char := []
  Name : List Char := []
  Artist : List Char := []
  Album : List Char := []
  Duration : Int := 0
  URI : List Char := []
  deriving DecidableEq, Repr

/-- The `YouTubeVideo` struct of `internal/youtube/client.go`. -/
structure YouTubeVideo where
  ID : List Char := []
  Title : List Char := []
  ChannelName : List Char := []
  Duration : List Char := []
  URL : List Char := []
  deriving DecidableEq, Repr

/-! ## Standard-library string functions -/

namespace strings

/-- Go's `unicode.IsSpace`: the Latin-1 spaces `\t \n \v \f \r`, space, U+0085, U+00A0,
and the code points with the Unicode White_Space property. -/
def isSpace (c : Char) : Bool :=
  let n := c.toNat
  n == 0x20 || (0x09 ≤ n && n ≤ 0x0D) || n == 0x85 || n == 0xA0 || n == 0x1680 ||
  (0x2000 ≤ n && n ≤ 0x200A) || n == 0x2028 || n == 0x2029 || n == 0x202F ||
  n == 0x205F || n == 0x3000

/-- The scanning loop of `strings.Replace` for a non-empty `old`: `skip` counts the
characters of a matched instance of `old` still to be passed over; outside an instance the
next instance is looked for at the current position (leftmost, non-overlapping). -/
def replaceFrom (old new : List Char) : Nat → List Char → List Char
  | _, [] => []
  | k + 1, _ :: cs => replaceFrom old new k cs
  | 0, c :: cs =>
    if old.isPrefixOf (c :: cs) then new ++ replaceFrom old new (old.length - 1) cs
    else c :: replaceFrom old new 0 cs

/-- Go's `strings.ReplaceAll(s, old, new)`: every non-overlapping instance of `old`, found
left to right, is replaced by `new`; an empty `old` matches before every code point and at
the end. -/
def ReplaceAll (s old new : List Char) : List Char :=
  if old.isEmpty then new ++ s.flatMap (fun c => c :: new)
  else replaceFrom old new 0 s

/-- The scanning loop of `strings.Fields`: `cur` is the field being read. -/
def fieldsFrom : List Char → List Char → List (List Char)
  | cur, [] => if cur.isEmpty then [] else [cur]
  | cur, c :: cs =>
    if isSpace c then (if cur.isEmpty then fieldsFrom [] cs else cur :: fieldsFrom [] cs)
    else fieldsFrom (cur ++ [c]) cs

/-- Go's `strings.Fields`: the maximal runs of non-space characters, in order. -/
def Fields (s : List Char) : List (List Char) := fieldsFrom [] s

/-- Go's `strings.Join`: the first element, then each further element preceded by `sep`. -/
def Join (elems : List (List Char)) (sep : List Char) : List Char :=
  match elems with
  | [] => []
  | e :: rest => rest.foldl (fun b s => b ++ sep ++ s) e

/-- Go's `strings.Contains(s, substr)`: `substr` starts at some position of `s`. -/
def Contains : List Char → List Char → Bool
  | [], substr => substr.isEmpty
  | c :: cs, substr => substr.isPrefixOf (c :: cs) || Contains cs substr

/-- Go's `unicode.ToLower` on one code point.  On ASCII it shifts `A`..`Z` to `a`..`z`; the
case table for the code points above U+007F is not part of the program and is the parameter
`tbl`. -/
def toLowerRune (tbl : Char → Char) (c : Char) : Char :=
  if c.toNat < 128 then
    (if 65 ≤ c.toNat ∧ c.toNat ≤ 90 then Char.ofNat (c.toNat + 32) else c)
  else tbl c

/-- Go's `strings.ToLower`: every code point mapped by `unicode.ToLower`. -/
def ToLower (tbl : Char → Char) (s : List Char) : List Char := s.map (toLowerRune tbl)

end strings

/-! ## Query builder (`internal/transfer/service.go`) -/

/-- The method `Service.buildSearchQuery`: artist and name joined by one space, the three
"featuring" markers removed, whitespace runs collapsed. -/
def buildSearchQuery (track : Track) : List Char :=
  let query := track.Artist ++ " ".toList ++ track.Name
  let query := strings.ReplaceAll query "ft.".toList []
  let query := strings.ReplaceAll query "feat.".toList []
  let query := strings.ReplaceAll query "featuring".toList []
  strings.Join (strings.Fields query) " ".toList

/-! ## Match selector (`internal/transfer/service.go`) -/

/-- The `for _, video := range videos` loop of `findBestMatch`; `none` when the loop ends
without returning. -/
def findBestMatchLoop (tbl : Char → Char) (trackTitle trackArtist : List Char) :
    List YouTubeVideo → Option YouTubeVideo
  | [] => none
  | video :: rest =>
    let videoTitle := strings.ToLower tbl video.Title
    if strings.Contains videoTitle trackTitle && strings.Contains videoTitle trackArtist then
      some video
    else if strings.Contains videoTitle trackTitle then
      some video
    else findBestMatchLoop tbl trackTitle trackArtist rest

/-- The method `Service.findBestMatch`; the returned pointer is modelled by the video it
points to, `nil` by `none`. -/
def findBestMatch (tbl : Char → Char) (track : Track) (videos : List YouTubeVideo) :
    Option YouTubeVideo :=
  if videos.length = 0 then none
  else
    let trackTitle := strings.ToLower tbl track.Name
    let trackArtist := strings.ToLower tbl track.Artist
    match findBestMatchLoop tbl trackTitle trackArtist videos with
    | some video => some video
    | none => videos.head?

/-! ## Further standard-library functions used by the extractor -/

namespace strings

/-- Go's `len(s)`: the number of bytes of the UTF-8 encoding. -/
def byteLen (s : List Char) : Nat := (s.map Char.utf8Size).sum

/-- Go's `strings.TrimSpace`: leading and trailing whitespace removed. -/
def TrimSpace (s : List Char) : List Char :=
  ((s.dropWhile isSpace).reverse.dropWhile isSpace).reverse

/-- The scanning loop of `strings.Split` for a non-empty `sep`: `skip` counts the characters
of a matched separator still to be passed over, `cur` is the piece being read. -/
def splitFrom (sep : List Char) : Nat → List Char → List Char → List (List Char)
  | _, cur, [] => [cur]
  | k + 1, cur, _ :: cs => splitFrom sep k cur cs
  | 0, cur, c :: cs =>
    if sep.isPrefixOf (c :: cs) then cur :: splitFrom sep (sep.length - 1) [] cs
    else splitFrom sep 0 (cur ++ [c]) cs

/-- Go's `strings.Split(s, sep)`: the pieces between the non-overlapping instances of `sep`,
found left to right; an empty `sep` splits after each code point. -/
def Split (s sep : List Char) : List (List Char) :=
  if sep.isEmpty then s.map (fun c => [c]) else splitFrom sep 0 [] s

end strings

namespace strconv

/-- The value of a string of ASCII decimal digits, `none` when it is empty or holds another
character. -/
def digitsValue : List Char → Option Nat
  | [] => none
  | ds =>
    if ds.all (fun c => 48 ≤ c.toNat && c.toNat ≤ 57) then
      some (ds.foldl (fun acc c => 10 * acc + (c.toNat - 48)) 0)
    else none

/-- Go's `strconv.Atoi` on a 64-bit platform, as the pair of its results (value, error
present): an optional sign and decimal digits; on a syntax error the value is 0, on a range
error it is the nearest representable value. -/
def Atoi (s : List Char) : Int × Bool :=
  let (neg, ds) :=
    match s with
    | '-' :: ds => (true, ds)
    | '+' :: ds => (false, ds)
    | ds => (false, ds)
  match digitsValue ds with
  | none => (0, true)
  | some n =>
    if neg then (if n ≤ 2 ^ 63 then (-(n : Int), false) else (-(2 ^ 63 : Int), true))
    else (if n < 2 ^ 63 then ((n : Int), false) else ((2 ^ 63 - 1 : Int), true))

end strconv

/-- Go's `int` arithmetic on a 64-bit platform: results wrap around modulo `2 ^ 64` into the
range `-2 ^ 63 .. 2 ^ 63 - 1`. -/
def wrapInt (x : Int) : Int := (x + 2 ^ 63) % 2 ^ 64 - 2 ^ 63

/-! ## Regular expressions

The patterns of the program are sequences of single-character atoms, repetitions of a
single-character class and one capture group.  `matchAtoms` is a backtracking matcher that
tries the alternatives in the priority order of Go's `regexp` package (leftmost-first:
a greedy repetition prefers more iterations, a lazy one fewer). -/

namespace regexp

/-- One element of a pattern. -/
inductive Atom where
  /-- One character satisfying `p`: a literal, `.`, or a character class. -/
  | one (p : Char → Bool)
  /-- The pattern `x*`, greedy. -/
  | star (p : Char → Bool)
  /-- The pattern `x+`, greedy. -/
  | plus (p : Char → Bool)
  /-- The pattern `x*?`, lazy. -/
  | lazyStar (p : Char → Bool)
  /-- The opening bracket of the capture group. -/
  | openGroup
  /-- The closing bracket of the capture group. -/
  | closeGroup

/-- A consumed character is recorded while inside the capture group. -/
def push (g : Bool) (cap : List Char) (c : Char) : List Char :=
  if g then cap ++ [c] else cap

/-- Greedy repetition: first as many characters satisfying `p` as possible, then fewer, each
time followed by the rest of the pattern `k`. -/
def greedyStar (p : Char → Bool) (k : List Char → List Char → Option (List Char × List Char))
    (g : Bool) : List Char → List Char → Option (List Char × List Char)
  | cap, [] => k cap []
  | cap, c :: cs =>
    if p c then
      match greedyStar p k g (push g cap c) cs with
      | some r => some r
      | none => k cap (c :: cs)
    else k cap (c :: cs)

/-- Lazy repetition: first no character, then one more at a time, each time followed by the
rest of the pattern `k`. -/
def lazyStar (p : Char → Bool) (k : List Char → List Char → Option (List Char × List Char))
    (g : Bool) : List Char → List Char → Option (List Char × List Char)
  | cap, [] => k cap []
  | cap, c :: cs =>
    match k cap (c :: cs) with
    | some r => some r
    | none => if p c then lazyStar p k g (push g cap c) cs else none

/-- Match the pattern at the start of the input: the text of the capture group and the
input left after the match, or `none`.  `g` tells whether the capture group is open, `cap`
is the text captured so far. -/
def matchAtoms : List Atom → Bool → List Char → List Char → Option (List Char × List Char)
  | [], _, cap, s => some (cap, s)
  | Atom.one p :: rest, g, cap, s =>
    match s with
    | [] => none
    | c :: cs => if p c then matchAtoms rest g (push g cap c) cs else none
  | Atom.star p :: rest, g, cap, s =>
    greedyStar p (fun cap1 s1 => matchAtoms rest g cap1 s1) g cap s
  | Atom.plus p :: rest, g, cap, s =>
    match s with
    | [] => none
    | c :: cs =>
      if p c then greedyStar p (fun cap1 s1 => matchAtoms rest g cap1 s1) g (push g cap c) cs
      else none
  | Atom.lazyStar p :: rest, g, cap, s =>
    lazyStar p (fun cap1 s1 => matchAtoms rest g cap1 s1) g cap s
  | Atom.openGroup :: rest, _, cap, s => matchAtoms rest true cap s
  | Atom.closeGroup :: rest, _, cap, s => matchAtoms rest false cap s

/-- Go's `FindStringSubmatch` for a pattern with one capture group: the capture of the
leftmost match (the element `matches[1]`), or `none` when there is no match (`matches` is
`nil`). -/
def FindStringSubmatch (re : List Atom) : List Char → Option (List Char)
  | [] => (matchAtoms re false [] []).map Prod.fst
  | c :: cs =>
    match matchAtoms re false [] (c :: cs) with
    | some r => some r.1
    | none => FindStringSubmatch re cs

/-- The scanning loop of `FindAllStringSubmatch`: `skip` counts the characters of the last
match still to be passed over. -/
def findAllFrom (re : List Atom) : Nat → List Char → List (List Char)
  | _, [] => []
  | k + 1, _ :: cs => findAllFrom re k cs
  | 0, c :: cs =>
    match matchAtoms re false [] (c :: cs) with
    | some r => r.1 :: findAllFrom re ((c :: cs).length - r.2.length - 1) cs
    | none => findAllFrom re 0 cs

/-- Go's `FindAllStringSubmatch(s, -1)` for a pattern with one capture group that matches no
empty text: the captures (the elements `row[1]`) of the successive non-overlapping leftmost
matches. -/
def FindAllStringSubmatch (re : List Atom) (s : List Char) : List (List Char) :=
  findAllFrom re 0 s

/-- The text recorded for a run of consumed characters. -/
def pushAll (g : Bool) (cap run : List Char) : List Char :=
  if g then cap ++ run else cap

/-- Whether an atom is a bracket of the capture group. -/
def Atom.isBracket : Atom → Bool
  | Atom.openGroup => true
  | Atom.closeGroup => true
  | _ => false

/-- Declarative reading of a pattern: `Captures re g cap out` holds when some text matched
by `re`, read with the capture group open or not (`g`) and `cap` captured so far, leaves the
capture `out`. -/
def Captures : List Atom → Bool → List Char → List Char → Prop
  | [], _, cap, out => out = cap
  | Atom.one p :: rest, g, cap, out => ∃ c, p c = true ∧ Captures rest g (push g cap c) out
  | Atom.star p :: rest, g, cap, out =>
    ∃ run, (∀ c ∈ run, p c = true) ∧ Captures rest g (pushAll g cap run) out
  | Atom.plus p :: rest, g, cap, out =>
    ∃ c run, p c = true ∧ (∀ x ∈ run, p x = true) ∧ Captures rest g (pushAll g cap (c :: run)) out
  | Atom.lazyStar p :: rest, g, cap, out =>
    ∃ run, (∀ c ∈ run, p c = true) ∧ Captures rest g (pushAll g cap run) out
  | Atom.openGroup :: rest, _, cap, out => Captures rest true cap out
  | Atom.closeGroup :: rest, _, cap, out => Captures rest false cap out

/-- The atoms of a literal text. -/
def lit (s : String) : List Atom := s.toList.map fun c => Atom.one (fun x => x == c)

/-- The class `.`: any character but a line feed. -/
def dot (c : Char) : Bool := c != '\n'

/-- The class `[^x]`. -/
def notChar (x : Char) (c : Char) : Bool := c != x

/-- The class `\d`: an ASCII digit. -/
def digit (c : Char) : Bool := 48 ≤ c.toNat && c.toNat ≤ 57

end regexp

/-! ## Markup extractor (`internal/spotify/client.go`) -/

/-- One value of the map `Entities.Tracks.Data` decoded from the page's initial state. -/
structure TrackData where
  Name : List Char := []
  Artists : List (List Char) := []
  Album : List Char := []
  Duration : Int := 0
  URI : List Char := []
  deriving DecidableEq, Repr

/-- A decoded JSON value (`interface{}` as filled by `encoding/json`). -/
inductive Json where
  | null
  | bool (b : Bool)
  | number (text : List Char)
  | str (s : List Char)
  | arr (items : List Json)
  | obj (fields : List (List Char × Json))

/-- The library functions whose behaviour is not part of the program: the JSON decoder and
the HTML entity decoder. -/
structure Lib where
  /-- The call `json.Unmarshal` into the initial-state struct: the entries of
  `Entities.Tracks.Data`, or `none` when the decoder reports an error. -/
  unmarshalInitialState : List Char → Option (List (List Char × TrackData))
  /-- The call `json.Unmarshal` into a `map[string]interface{}`: the fields of the object,
  or `none` when the decoder reports an error. -/
  unmarshalObject : List Char → Option (List (List Char × Json))
  /-- Go's `html.UnescapeString`. -/
  UnescapeString : List Char → List Char

/-- The order in which one `range` loop visits the entries of a Go map: some permutation of
the entries, chosen by the runtime. -/
structure MapOrder where
  iter : List (List Char × TrackData) → List (List Char × TrackData)
  perm : ∀ l, (iter l).Perm l

/-- The pattern `window.__spotify_initial_state = ([^;]+);`. -/
def scriptRegex : List regexp.Atom :=
  regexp.lit "window" ++ [regexp.Atom.one regexp.dot]
    ++ regexp.lit "__spotify_initial_state = "
    ++ [regexp.Atom.openGroup, regexp.Atom.plus (regexp.notChar ';'), regexp.Atom.closeGroup]
    ++ regexp.lit ";"

/-- The artist text of `extractTracksFromScriptTags`: the first name, followed by ` ft. `
and the second name when there is one. -/
def artistOf (artistNames : List (List Char)) : List Char :=
  match artistNames with
  | [] => []
  | first :: rest =>
    match rest with
    | [] => first
    | second :: _ => first ++ " ft. ".toList ++ second

/-- The method `Client.extractTracksFromScriptTags`; `order` is the order in which the loop
over the map `Data` visits its entries. -/
def extractTracksFromScriptTags (lib : Lib) (order : MapOrder) (htmlContent : List Char) :
    List Track :=
  match regexp.FindStringSubmatch scriptRegex htmlContent with
  | none => []
  | some jsonData =>
    match lib.unmarshalInitialState jsonData with
    | none => []
    | some data =>
      (order.iter data).map fun entry =>
        { Name := entry.2.Name
          Artist := artistOf entry.2.Artists
          Album := entry.2.Album
          Duration := entry.2.Duration
          URI := entry.2.URI }

/-- The pattern `<li[^>]*data-testid="tracklist-row-\d+"[^>]*>(.*?)</li>`. -/
def trackRowRegex : List regexp.Atom :=
  regexp.lit "<li" ++ [regexp.Atom.star (regexp.notChar '>')]
    ++ regexp.lit "data-testid=\"tracklist-row-"
    ++ [regexp.Atom.plus regexp.digit] ++ regexp.lit "\""
    ++ [regexp.Atom.star (regexp.notChar '>')] ++ regexp.lit ">"
    ++ [regexp.Atom.openGroup, regexp.Atom.lazyStar regexp.dot, regexp.Atom.closeGroup]
    ++ regexp.lit "</li>"

/-- The patterns `<h3[^>]*data-encore-id="text"[^>]*>([^<]+)</h3>` (`tag` is `h3`) and
`<h4[^>]*data-encore-id="text"[^>]*>([^<]+)</h4>` (`tag` is `h4`). -/
def encoreTextRegex (tag : String) : List regexp.Atom :=
  regexp.lit "<" ++ regexp.lit tag ++ [regexp.Atom.star (regexp.notChar '>')]
    ++ regexp.lit "data-encore-id=\"text\""
    ++ [regexp.Atom.star (regexp.notChar '>')] ++ regexp.lit ">"
    ++ [regexp.Atom.openGroup, regexp.Atom.plus (regexp.notChar '<'), regexp.Atom.closeGroup]
    ++ regexp.lit "</" ++ regexp.lit tag ++ regexp.lit ">"

/-- The pattern `<div[^>]*data-testid="duration-cell"[^>]*>(\d+:\d+)</div>`. -/
def durationRegex : List regexp.Atom :=
  regexp.lit "<div" ++ [regexp.Atom.star (regexp.notChar '>')]
    ++ regexp.lit "data-testid=\"duration-cell\""
    ++ [regexp.Atom.star (regexp.notChar '>')] ++ regexp.lit ">"
    ++ [regexp.Atom.openGroup, regexp.Atom.plus regexp.digit]
    ++ regexp.lit ":" ++ [regexp.Atom.plus regexp.digit, regexp.Atom.closeGroup]
    ++ regexp.lit "</div>"

/-- The conversion of a duration text `MM:SS` to milliseconds in
`extractTracksFromDataTestId`; `none` stands for the run-time panic of an index out of
range. -/
def parseDuration (durationText : List Char) : Option Int :=
  let durationStr := strings.TrimSpace durationText
  let parts := strings.Split durationStr ":".toList
  match parts[0]?, parts[1]? with
  | some p0, some p1 =>
    let minutes := (strconv.Atoi p0).1
    let seconds := (strconv.Atoi p1).1
    some (wrapInt (wrapInt (wrapInt (minutes * 60) + seconds) * 1000))
  | _, _ => none

/-- The body of the loop over the rows in `extractTracksFromDataTestId`: the tracks
collected from the rows, or `none` for a run-time panic. -/
def rowTracks (lib : Lib) : List (List Char) → Option (List Track)
  | [] => some []
  | rowHTML :: rows =>
    let nameMatches := regexp.FindStringSubmatch (encoreTextRegex "h3") rowHTML
    let artistMatches := regexp.FindStringSubmatch (encoreTextRegex "h4") rowHTML
    let durationMatches := regexp.FindStringSubmatch durationRegex rowHTML
    match nameMatches, artistMatches, durationMatches with
    | some name, some artist, some duration =>
      match parseDuration duration with
      | none => none
      | some durationMs =>
        (rowTracks lib rows).map fun tracks =>
          { Name := lib.UnescapeString (strings.TrimSpace name)
            Artist := lib.UnescapeString (strings.TrimSpace artist)
            Duration := durationMs } :: tracks
    | _, _, _ => rowTracks lib rows

/-- The method `Client.extractTracksFromDataTestId`; `none` stands for a run-time panic. -/
def extractTracksFromDataTestId (lib : Lib) (htmlContent : List Char) : Option (List Track) :=
  rowTracks lib (regexp.FindAllStringSubmatch trackRowRegex htmlContent)

/-- The pattern `<script[^>]*type="application/ld\+json"[^>]*>(.*?)</script>`. -/
def jsonLdRegex : List regexp.Atom :=
  regexp.lit "<script" ++ [regexp.Atom.star (regexp.notChar '>')]
    ++ regexp.lit "type=\"application/ld+json\""
    ++ [regexp.Atom.star (regexp.notChar '>')] ++ regexp.lit ">"
    ++ [regexp.Atom.openGroup, regexp.Atom.lazyStar regexp.dot, regexp.Atom.closeGroup]
    ++ regexp.lit "</script>"

/-- The type assertion `v.(string)` on an optional map entry. -/
def asString : Option Json → Option (List Char)
  | some (Json.str s) => some s
  | _ => none

/-- The tracks of one entry of an `@graph` array. -/
def graphItemTracks (lib : Lib) (item : Json) : List Track :=
  match item with
  | Json.obj itemMap =>
    match asString (itemMap.lookup "@type".toList) with
    | some itemType =>
      if itemType = "MusicRecording".toList then
        let name :=
          match asString (itemMap.lookup "name".toList) with
          | some name => lib.UnescapeString name
          | none => []
        let artist :=
          match itemMap.lookup "byArtist".toList with
          | some (Json.obj byArtist) =>
            match asString (byArtist.lookup "name".toList) with
            | some artistName => lib.UnescapeString artistName
            | none => []
          | _ => []
        [{ Name := name, Artist := artist }]
      else []
    | none => []
  | _ => []

/-- The tracks of one entry of an `itemListElement` array. -/
def listItemTracks (lib : Lib) (item : Json) : List Track :=
  match item with
  | Json.obj itemMap =>
    match asString (itemMap.lookup "name".toList) with
    | some name => [{ Name := lib.UnescapeString name }]
    | none => []
  | _ => []

/-- The tracks of one linked-data block in `extractTracksFromMetaData`. -/
def metaDataBlockTracks (lib : Lib) (block : List Char) : List Track :=
  match lib.unmarshalObject block with
  | none => []
  | some data =>
    match data.lookup "@graph".toList with
    | some (Json.arr graph) => graph.flatMap (graphItemTracks lib)
    | _ =>
      match data.lookup "itemListElement".toList with
      | some (Json.arr items) => items.flatMap (listItemTracks lib)
      | _ => []

/-- The method `Client.extractTracksFromMetaData`. -/
def extractTracksFromMetaData (lib : Lib) (htmlContent : List Char) : List Track :=
  (regexp.FindAllStringSubmatch jsonLdRegex htmlContent).flatMap (metaDataBlockTracks lib)

/-- The tracks of one line in `extractTracksFromTextPatterns`. -/
def textLineTracks (rawLine : List Char) : List Track :=
  let line := strings.TrimSpace rawLine
  if strings.Contains line " - ".toList && decide (strings.byteLen line > 10)
      && decide (strings.byteLen line < 200) then
    let parts := strings.Split line " - ".toList
    match parts with
    | [part0, part1] =>
      let artist := strings.TrimSpace part0
      let title := strings.TrimSpace part1
      if decide (strings.byteLen artist > 0) && decide (strings.byteLen title > 0)
          && !strings.Contains artist "<".toList && !strings.Contains title "<".toList then
        [{ Name := title, Artist := artist }]
      else []
    | _ => []
  else []

/-- The method `Client.extractTracksFromTextPatterns`. -/
def extractTracksFromTextPatterns (html : List Char) : List Track :=
  (strings.Split html "\n".toList).flatMap textLineTracks

/-- The method `Client.parseTracksFromHTMLElements`, as the pair of its results (tracks,
error); `none` stands for a run-time panic. -/
def parseTracksFromHTMLElements (lib : Lib) (order : MapOrder) (html : List Char) :
    Option (List Track × Option (List Char)) :=
  let tracks := extractTracksFromScriptTags lib order html
  if tracks.length > 0 then some (tracks, none)
  else
    match extractTracksFromDataTestId lib html with
    | none => none
    | some tracks =>
      if tracks.length > 0 then some (tracks, none)
      else
        let tracks := extractTracksFromMetaData lib html
        if tracks.length > 0 then some (tracks, none)
        else
          let tracks := extractTracksFromTextPatterns html
          some (tracks, none)

/-- The method `Client.parseTracksFromHTML`, as the pair of its results (tracks, error);
`none` stands for a run-time panic.  `order1` and `order2` are the map iteration orders of
the two calls of `extractTracksFromScriptTags` that one invocation can make. -/
def parseTracksFromHTML (lib : Lib) (order1 order2 : MapOrder) (htmlContent : List Char) :
    Option (List Track × Option (List Char)) :=
  let tracks := extractTracksFromScriptTags lib order1 htmlContent
  if tracks.length > 0 then some (tracks, none)
  else parseTracksFromHTMLElements lib order2 htmlContent

/-- A library whose JSON decoder reports an error on every text and whose entity decoder
changes nothing, for evaluating the extractor on markup without well-formed JSON or
entities. -/
def plainLib : Lib :=
  { unmarshalInitialState := fun _ => none
    unmarshalObject := fun _ => none
    UnescapeString := fun s => s }

/-- The map iteration order that visits the entries as listed. -/
def listedOrder : MapOrder :=
  { iter := fun l => l
    perm := fun l => List.Perm.refl l }

/-- The initial-state text of `sampleMarkup`. -/
def sampleState : List Char :=
  ("\x7b\"entities\":\x7b\"tracks\":\x7b\"data\":\x7b\"t1\":\x7b\"name\":\"One More Time\","
    ++ "\"artists\":[\x7b\"name\":\"Daft Punk\"\x7d]\x7d\x7d\x7d\x7d\x7d").toList

/-- A library whose JSON decoder knows the text `sampleState` (one track, "One More Time" by
"Daft Punk") and reports an error on every other text. -/
def sampleLib : Lib :=
  { unmarshalInitialState := fun j =>
      if j = sampleState then
        some [("t1".toList, { Name := "One More Time".toList, Artists := ["Daft Punk".toList] })]
      else none
    unmarshalObject := fun _ => none
    UnescapeString := fun s => s }

/-- A page with an embedded initial state (one track) and one track row (another track). -/
def sampleMarkup : List Char :=
  "<script>window.__spotify_initial_state = ".toList ++ sampleState ++ ";</script>".toList
    ++ ("<li data-testid=\"tracklist-row-1\"><h3 data-encore-id=\"text\">Around the World</h3>"
      ++ "<h4 data-encore-id=\"text\">Daft Punk</h4>"
      ++ "<div data-testid=\"duration-cell\">3:45</div></li>").toList

/-- A page whose embedded initial state is the malformed JSON text `{bad`. -/
def malformedMarkup : List Char :=
  "<script>window.__spotify_initial_state = \x7bbad;</script>".toList

/-! ## Playlist summary (`internal/spotify/client.go`) -/

namespace strings

/-- Go's `strings.TrimSuffix`: `s` without the trailing `suffix` when it ends in it, `s`
itself otherwise. -/
def TrimSuffix (s suffix : List Char) : List Char :=
  if suffix.isSuffixOf s then s.take (s.length - suffix.length) else s

end strings

/-- The `Playlist` struct of `internal/spotify/client.go`. -/
structure Playlist where
  ID : List Char := []
  Name : List Char := []
  Description : List Char := []
  TrackCount : Int := 0
  Public : Bool := false
  Owner : List Char := []
  deriving DecidableEq, Repr

/-- The pattern `<meta property="og:title" content="([^"]+)"\/>`. -/
def ogTitleRegex : List regexp.Atom :=
  regexp.lit "<meta property=\"og:title\" content=\""
    ++ [regexp.Atom.openGroup, regexp.Atom.plus (regexp.notChar '"'), regexp.Atom.closeGroup]
    ++ regexp.lit "\"/>"

/-- The method `Client.parsePlaylistFromEmbedHTML`, as the pair of its results (playlist,
error). -/
def parsePlaylistFromEmbedHTML (htmlContent playlistID playlistName : List Char) :
    Playlist × Option (List Char) :=
  if playlistName ≠ "Unknown Playlist".toList then
    ({ ID := playlistID
       Name := playlistName
       Description := []
       TrackCount := 0
       Public := true
       Owner := "Unknown".toList }, none)
  else
    let playlistName := "Unknown Playlist".toList
    let ogTitleMatches := regexp.FindStringSubmatch ogTitleRegex htmlContent
    let playlistName :=
      match ogTitleMatches with
      | some content => strings.TrimSuffix (strings.TrimSpace content) " Spotify".toList
      | none => playlistName
    ({ ID := playlistID
       Name := playlistName
       Description := []
       TrackCount := 0
       Public := true
       Owner := "Unknown".toList }, none)

/-! ## Transfer orchestrator (`internal/youtube/client.go`, `internal/transfer/service.go`)

The remote YouTube service is a parameter: `Api σ` gives the answer of each remote call as a
function of a state `σ` of the outside world, which the call may change.  `World` pairs that
state with the log of the remote calls made so far.  A method that can end in a run-time
panic returns an optional result, `none` for the panic, paired with the world at that
moment. -/

/-- The `YouTubePlaylist` struct of `internal/youtube/client.go`. -/
structure YouTubePlaylist where
  ID : List Char := []
  Title : List Char := []
  Description : List Char := []
  VideoCount : Int := 0
  deriving DecidableEq, Repr

/-- An error returned by a remote call: whether `googleapi.IsNotModified` holds of it, and
its text `err.Error()`. -/
structure ApiError where
  notModified : Bool := false
  message : List Char := []
  deriving DecidableEq, Repr

/-- The value that the pointer `Id` of a search result points to (`youtube.ResourceId`). -/
structure ResourceId where
  VideoId : List Char := []
  deriving DecidableEq, Repr

/-- The value that the pointer `Snippet` of a search result points to
(`youtube.SearchResultSnippet`). -/
structure SearchResultSnippet where
  Title : List Char := []
  ChannelTitle : List Char := []
  deriving DecidableEq, Repr

/-- One item of a search response (`*youtube.SearchResult`).  `Id` and `Snippet` are
pointers: `none` is the nil pointer of a response that lacks the field.  A nil item behaves
as an item without `Id`. -/
structure SearchItem where
  Id : Option ResourceId := none
  Snippet : Option SearchResultSnippet := none
  deriving DecidableEq, Repr

/-- The value that the pointer `Snippet` of a playlist resource points to
(`youtube.PlaylistSnippet`). -/
structure PlaylistSnippet where
  Title : List Char := []
  Description : List Char := []
  deriving DecidableEq, Repr

/-- The value that the pointer `ContentDetails` of a playlist resource points to
(`youtube.PlaylistContentDetails`). -/
structure PlaylistContentDetails where
  ItemCount : Int := 0
  deriving DecidableEq, Repr

/-- One playlist resource of a remote response (`*youtube.Playlist`).  `Snippet` and
`ContentDetails` are pointers: `none` is the nil pointer of a response that lacks the field.
A nil item behaves as an item without `Snippet`. -/
structure PlaylistResource where
  Id : List Char := []
  Snippet : Option PlaylistSnippet := none
  ContentDetails : Option PlaylistContentDetails := none
  deriving DecidableEq, Repr

/-- One page of the playlists of the user (`youtube.PlaylistListResponse`): its items, and
the token of the next page, empty on the last page. -/
structure PlaylistListResponse where
  Items : List PlaylistResource := []
  NextPageToken : List Char := []
  deriving DecidableEq, Repr

/-- A remote call, as recorded in the log. -/
inductive ApiCall where
  /-- The call `Search.List(..).Q(query)..Do()`. -/
  | searchList (query : List Char)
  /-- The call `PlaylistItems.Insert(..).Do()`. -/
  | playlistItemsInsert (playlistID videoID : List Char)
  /-- The call `Playlists.Insert(..).Do()`. -/
  | playlistsInsert (title description : List Char)
  /-- The call `Playlists.List(..).Mine(true).MaxResults(50).Do()`. -/
  | playlistsList
  /-- The GET request that the Spotify client builds for a URL and hands to its HTTP
  client. -/
  | httpGet (url : List Char)
  deriving DecidableEq, Repr

/-- Whether a logged call is a search. -/
def ApiCall.isSearch : ApiCall → Bool
  | ApiCall.searchList _ => true
  | _ => false

/-- The behaviour of the remote service: the result of each call in a state of the outside
world, and the state after the call. -/
structure Api (σ : Type) where
  searchList : σ → List Char → Except ApiError (List SearchItem) × σ
  playlistItemsInsert : σ → List Char → List Char → Option ApiError × σ
  playlistsInsert : σ → List Char → List Char → Except ApiError PlaylistResource × σ
  /-- The listing of the playlists of the user, at most 50 to a page; the second argument is
  the page token of the request, empty for the first page. -/
  playlistsList : σ → List Char → Except ApiError PlaylistListResponse × σ

/-- The state of the outside world and the log of the remote calls made so far. -/
structure World (σ : Type) where
  state : σ
  calls : List ApiCall := []

/-- The video that `SearchVideo` makes of one item of the response; `none` stands for the
run-time panic of reading `item.Id.VideoId` or `item.Snippet.Title` through a nil pointer. -/
def searchItemVideo (item : SearchItem) : Option YouTubeVideo :=
  match item.Id, item.Snippet with
  | some id, some snippet =>
    some { ID := id.VideoId
           Title := snippet.Title
           ChannelName := snippet.ChannelTitle
           Duration := []
           URL := "https://www.youtube.com/watch?v=".toList ++ id.VideoId }
  | _, _ => none

/-- The `for _, item := range response.Items` loop of `SearchVideo`; `none` stands for a
run-time panic. -/
def searchVideoLoop : List SearchItem → Option (List YouTubeVideo)
  | [] => some []
  | item :: rest =>
    match searchItemVideo item with
    | none => none
    | some video =>
      match searchVideoLoop rest with
      | none => none
      | some videos => some (video :: videos)

/-- The method `youtube.Client.SearchVideo`: its results (videos or error), `none` for a
run-time panic, and the world after the call. -/
def SearchVideo {σ : Type} (api : Api σ) (w : World σ) (query : List Char) :
    Option (Except (List Char) (List YouTubeVideo)) × World σ :=
  let response := api.searchList w.state query
  let w1 : World σ := { state := response.2, calls := w.calls ++ [ApiCall.searchList query] }
  match response.1 with
  | Except.error err => (some (Except.error ("video search failed: ".toList ++ err.message)), w1)
  | Except.ok items =>
    match searchVideoLoop items with
    | none => (none, w1)
    | some videos => (some (Except.ok videos), w1)

/-- The method `youtube.Client.AddVideoToPlaylist`; `none` is a nil error.  The response of
the insert call is not read. -/
def AddVideoToPlaylist {σ : Type} (api : Api σ) (w : World σ) (playlistID videoID : List Char) :
    Option (List Char) × World σ :=
  let response := api.playlistItemsInsert w.state playlistID videoID
  let w1 : World σ :=
    { state := response.2
      calls := w.calls ++ [ApiCall.playlistItemsInsert playlistID videoID] }
  match response.1 with
  | some err =>
    if err.notModified || strings.Contains err.message "already exists".toList then (none, w1)
    else (some ("video playlist'e eklenemedi: ".toList ++ err.message), w1)
  | none => (none, w1)

/-- The `TransferResult` struct of `internal/transfer/service.go`.  The counters never
exceed the number of tracks and are natural numbers. -/
structure TransferResult where
  PlaylistName : List Char := []
  TotalTracks : Nat := 0
  MatchedTracks : Nat := 0
  FailedTracks : Nat := 0
  YouTubePlaylist : YouTubePlaylist := {}
  Errors : List (List Char) := []
  deriving DecidableEq, Repr

/-- The two statements `result.FailedTracks++` and `result.Errors = append(..)` with the
text `"%s - %s: " + reason`. -/
def recordFailure (result : TransferResult) (track : Track) (reason : List Char) :
    TransferResult :=
  { result with
    FailedTracks := result.FailedTracks + 1
    Errors := result.Errors ++ [track.Artist ++ " - ".toList ++ track.Name ++ ": ".toList
      ++ reason] }

/-- One iteration of the loop over the tracks in `Service.transferTracks`: the result after
the iteration, `none` when the search ends in a run-time panic, and the world after it. -/
def transferTrack {σ : Type} (api : Api σ) (tbl : Char → Char)
    (youtubePlaylist : YouTubePlaylist) (dryRun : Bool)
    (acc : TransferResult × World σ) (track : Track) : Option TransferResult × World σ :=
  let result := acc.1
  let query := buildSearchQuery track
  match SearchVideo api acc.2 query with
  | (none, w1) => (none, w1)
  | (some (Except.error err), w1) => (some (recordFailure result track err), w1)
  | (some (Except.ok youtubeVideos), w1) =>
    if youtubeVideos.length = 0 then
      (some (recordFailure result track "No matching video found".toList), w1)
    else
      match findBestMatch tbl track youtubeVideos with
      | none => (some (recordFailure result track "No good match found".toList), w1)
      | some bestMatch =>
        if !dryRun then
          match AddVideoToPlaylist api w1 youtubePlaylist.ID bestMatch.ID with
          | (some err, w2) => (some (recordFailure result track err), w2)
          | (none, w2) => (some { result with MatchedTracks := result.MatchedTracks + 1 }, w2)
        else (some { result with MatchedTracks := result.MatchedTracks + 1 }, w1)

/-- The `for i, track := range tracks` loop of `Service.transferTracks`, from an intermediate
result: a run-time panic in an iteration ends the loop. -/
def transferLoop {σ : Type} (api : Api σ) (tbl : Char → Char)
    (youtubePlaylist : YouTubePlaylist) (dryRun : Bool) :
    List Track → TransferResult → World σ → Option TransferResult × World σ
  | [], result, w => (some result, w)
  | track :: rest, result, w =>
    match transferTrack api tbl youtubePlaylist dryRun (result, w) track with
    | (none, w1) => (none, w1)
    | (some result1, w1) => transferLoop api tbl youtubePlaylist dryRun rest result1 w1

/-- The method `Service.transferTracks`: the result, `none` for a run-time panic, and the
world after the run. -/
def transferTracks {σ : Type} (api : Api σ) (tbl : Char → Char) (tracks : List Track)
    (youtubePlaylist : YouTubePlaylist) (dryRun : Bool) (w : World σ) :
    Option TransferResult × World σ :=
  transferLoop api tbl youtubePlaylist dryRun tracks
    { PlaylistName := youtubePlaylist.Title
      TotalTracks := tracks.length
      YouTubePlaylist := youtubePlaylist } w

/-! ## Playlist link parsing (`internal/spotify/client.go`) -/

/-- The method `Client.extractPlaylistID`, as the pair of its results (id, error).  The index
`parts[1]` is guarded by the length test; the index `[0]` is applied to the result of
`strings.Split` with a non-empty separator, which has at least one element. -/
def extractPlaylistID (url : List Char) : List Char × Option (List Char) :=
  if strings.Contains url "open.spotify.com/playlist/".toList then
    let parts := strings.Split url "/playlist/".toList
    if parts.length < 2 then ([], some "invalid Spotify playlist URL".toList)
    else
      let playlistID := (strings.Split (parts.getD 1 []) "?".toList).headD []
      (playlistID, none)
  else if strings.Contains url "spotify:playlist:".toList then
    let parts := strings.Split url "spotify:playlist:".toList
    if parts.length < 2 then ([], some "invalid Spotify playlist URI".toList)
    else (parts.getD 1 [], none)
  else ([], some "unsupported URL format".toList)

/-! ## Destination playlists (`internal/youtube/client.go`) -/

namespace strings

/-- The comparison of one pair of code points in Go's `strings.EqualFold`: equal, or an ASCII
upper-case letter and its lower-case form, or (when the larger one lies above U+007F) related
by Unicode simple case folding.  The folding table is not part of the program: `fold lo hi`
tells whether iterating `unicode.SimpleFold` from the smaller code point `lo` reaches the
larger code point `hi`. -/
def equalFoldRune (fold : Char → Char → Bool) (sr tr : Char) : Bool :=
  if tr = sr then true
  else
    let lo := if tr.toNat < sr.toNat then tr else sr
    let hi := if tr.toNat < sr.toNat then sr else tr
    if hi.toNat < 128 then
      decide (65 ≤ lo.toNat) && decide (lo.toNat ≤ 90) && decide (hi.toNat = lo.toNat + 32)
    else fold lo hi

/-- Go's `strings.EqualFold`: the two texts have the same number of code points, and these
are pairwise equal under case folding. -/
def EqualFold (fold : Char → Char → Bool) : List Char → List Char → Bool
  | [], [] => true
  | sr :: s, tr :: t => equalFoldRune fold sr tr && EqualFold fold s t
  | _, _ => false

end strings

/-- Whether a logged call is a GET of the Spotify client. -/
def ApiCall.isGet : ApiCall → Bool
  | ApiCall.httpGet _ => true
  | _ => false

/-- Whether a logged call creates a playlist. -/
def ApiCall.isCreate : ApiCall → Bool
  | ApiCall.playlistsInsert _ _ => true
  | _ => false

/-- Whether a logged call inserts a video into a playlist. -/
def ApiCall.isAdd : ApiCall → Bool
  | ApiCall.playlistItemsInsert _ _ => true
  | _ => false

/-- Whether a logged call changes something on the remote service. -/
def ApiCall.isMutation (c : ApiCall) : Bool := c.isCreate || c.isAdd

/-- The method `youtube.Client.CreatePlaylist`: its results (playlist or error), `none` for
the run-time panic of reading `result.Snippet.Title` through a nil pointer, and the world
after the call. -/
def CreatePlaylist {σ : Type} (api : Api σ) (w : World σ) (title description : List Char) :
    Option (Except (List Char) YouTubePlaylist) × World σ :=
  let response := api.playlistsInsert w.state title description
  let w1 : World σ :=
    { state := response.2
      calls := w.calls ++ [ApiCall.playlistsInsert title description] }
  match response.1 with
  | Except.error err =>
    (some (Except.error ("playlist oluşturulamadı: ".toList ++ err.message)), w1)
  | Except.ok result =>
    match result.Snippet with
    | none => (none, w1)
    | some snippet =>
      (some (Except.ok
        { ID := result.Id
          Title := snippet.Title
          Description := snippet.Description
          VideoCount := 0 }), w1)

/-- The playlist that `GetUserPlaylists` makes of one item of the response; `none` stands
for the run-time panic of reading `playlist.Snippet.Title` or
`playlist.ContentDetails.ItemCount` through a nil pointer. -/
def playlistOfResource (playlist : PlaylistResource) : Option YouTubePlaylist :=
  match playlist.Snippet, playlist.ContentDetails with
  | some snippet, some contentDetails =>
    some { ID := playlist.Id
           Title := snippet.Title
           Description := snippet.Description
           VideoCount := contentDetails.ItemCount }
  | _, _ => none

/-- The `for _, playlist := range response.Items` loop of `GetUserPlaylists`; `none` stands
for a run-time panic. -/
def userPlaylistsOfItems : List PlaylistResource → Option (List YouTubePlaylist)
  | [] => some []
  | item :: rest =>
    match playlistOfResource item with
    | none => none
    | some playlist =>
      match userPlaylistsOfItems rest with
      | none => none
      | some playlists => some (playlist :: playlists)

namespace youtube

/-- The method `youtube.Client.GetUserPlaylists`: one listing call, for the first page; the
token of the next page is not read.  The result is `none` for a run-time panic. -/
def GetUserPlaylists {σ : Type} (api : Api σ) (w : World σ) :
    Option (Except (List Char) (List YouTubePlaylist)) × World σ :=
  let response := api.playlistsList w.state []
  let w1 : World σ := { state := response.2, calls := w.calls ++ [ApiCall.playlistsList] }
  match response.1 with
  | Except.error err =>
    (some (Except.error ("playlists alınamadı: ".toList ++ err.message)), w1)
  | Except.ok page =>
    match userPlaylistsOfItems page.Items with
    | none => (none, w1)
    | some playlists => (some (Except.ok playlists), w1)

end youtube

/-- The `for _, playlist := range playlists` loop of `PlaylistExists`; `none` when the loop
ends without returning. -/
def playlistExistsLoop (fold : Char → Char → Bool) (title : List Char) :
    List YouTubePlaylist → Option YouTubePlaylist
  | [] => none
  | playlist :: rest =>
    if strings.EqualFold fold playlist.Title title then some playlist
    else playlistExistsLoop fold title rest

/-- The method `youtube.Client.PlaylistExists`: the triple of its results (exists, playlist,
error), `none` for a run-time panic, and the world after the call; a nil pointer and a nil
error are `none`. -/
def PlaylistExists {σ : Type} (api : Api σ) (fold : Char → Char → Bool) (w : World σ)
    (title : List Char) :
    Option (Bool × Option YouTubePlaylist × Option (List Char)) × World σ :=
  match youtube.GetUserPlaylists api w with
  | (none, w1) => (none, w1)
  | (some (Except.error err), w1) => (some (false, none, some err), w1)
  | (some (Except.ok playlists), w1) =>
    match playlistExistsLoop fold title playlists with
    | some playlist => (some (true, some playlist, none), w1)
    | none => (some (false, none, none), w1)

/-! ## Single-playlist and batch transfer (`internal/spotify/client.go`,
`internal/transfer/service.go`)

Everything outside the program is gathered in `Env`: the remote YouTube service, the HTTP
client of the Spotify client, the construction of the YouTube client, the process
environment, the map iteration orders chosen by the runtime, and the library tables.  Text
written to standard output is not modelled, except for the values handed to
`printTransferResult` and `printSummary`. -/

/-- What one GET of the Spotify client comes to. -/
inductive HttpOutcome where
  /-- The call `http.NewRequest` fails. -/
  | requestError (err : List Char)
  /-- The call `httpClient.Do` fails. -/
  | transportError (err : List Char)
  /-- A response with its status code and the result of `io.ReadAll` on its body. -/
  | response (statusCode : Int) (body : Except (List Char) (List Char))

/-- The collaborators of a transfer. -/
structure Env (σ : Type) where
  /-- The remote YouTube service. -/
  api : Api σ
  /-- The steps `http.NewRequest`, `httpClient.Do` and `io.ReadAll` for a URL. -/
  httpGet : σ → List Char → HttpOutcome × σ
  /-- The call `youtube.NewClient()`: its error text, or `none` for a client. -/
  newYouTubeClient : σ → Option (List Char) × σ
  /-- The call `os.Getenv("SPOTIFY_PLAYLIST_LINKS")`. -/
  playlistLinks : σ → List Char
  /-- The map iteration order of the first call of `extractTracksFromScriptTags` in a call of
  `parseTracksFromHTML`. -/
  mapOrder1 : σ → MapOrder
  /-- The map iteration order of the second such call. -/
  mapOrder2 : σ → MapOrder
  /-- The JSON decoder and the entity decoder. -/
  lib : Lib
  /-- The lower-case table for the code points above U+007F. -/
  tbl : Char → Char
  /-- The case-folding table of `strings.EqualFold`. -/
  fold : Char → Char → Bool

/-- The address `https://open.spotify.com/embed/playlist/<id>`. -/
def embedURL (playlistID : List Char) : List Char :=
  "https://open.spotify.com/embed/playlist/".toList ++ playlistID

/-- The request common to `GetPlaylistInfo` and `GetPlaylistTracks`: building the request,
sending it, testing the status code and reading the body.  The two methods differ in the
word `what` (`playlist`, `track`) of two error texts. -/
def fetchEmbed {σ : Type} (env : Env σ) (w : World σ) (playlistID what : List Char) :
    Except (List Char) (List Char) × World σ :=
  let url := embedURL playlistID
  let answer := env.httpGet w.state url
  let w1 : World σ := { state := answer.2, calls := w.calls ++ [ApiCall.httpGet url] }
  match answer.1 with
  | HttpOutcome.requestError err =>
    (Except.error ("request oluşturulamadı: ".toList ++ err), w1)
  | HttpOutcome.transportError err =>
    (Except.error (what ++ " isteği başarısız: ".toList ++ err), w1)
  | HttpOutcome.response statusCode body =>
    if statusCode ≠ 200 then
      (Except.error (what ++ " isteği başarısız: HTTP ".toList ++ (toString statusCode).toList),
        w1)
    else
      match body with
      | Except.error err => (Except.error ("HTML okunamadı: ".toList ++ err), w1)
      | Except.ok body => (Except.ok body, w1)

/-- The method `spotify.Client.GetPlaylistTracks`: its results (tracks or error), `none` for a
run-time panic, and the world after the call. -/
def GetPlaylistTracks {σ : Type} (env : Env σ) (w : World σ) (playlistID : List Char) :
    Option (Except (List Char) (List Track)) × World σ :=
  match fetchEmbed env w playlistID "track".toList with
  | (Except.error err, w1) => (some (Except.error err), w1)
  | (Except.ok body, w1) =>
    match parseTracksFromHTML env.lib (env.mapOrder1 w1.state) (env.mapOrder2 w1.state)
        body with
    | none => (none, w1)
    | some (_, some err) => (some (Except.error ("track parse edilemedi: ".toList ++ err)), w1)
    | some (tracks, none) => (some (Except.ok tracks), w1)

/-- The method `spotify.Client.GetPlaylistInfo`: its results (playlist or error), `none` for a
run-time panic, and the world after the call. -/
def GetPlaylistInfo {σ : Type} (env : Env σ) (w : World σ)
    (playlistID playlistName : List Char) : Option (Except (List Char) Playlist) × World σ :=
  match fetchEmbed env w playlistID "playlist".toList with
  | (Except.error err, w1) => (some (Except.error err), w1)
  | (Except.ok body, w1) =>
    match parsePlaylistFromEmbedHTML body playlistID playlistName with
    | (_, some err) => (some (Except.error ("playlist parse edilemedi: ".toList ++ err)), w1)
    | (playlist, none) =>
      match GetPlaylistTracks env w1 playlistID with
      | (none, w2) => (none, w2)
      | (some (Except.ok tracks), w2) =>
        (some (Except.ok { playlist with TrackCount := (tracks.length : Int) }), w2)
      | (some (Except.error _), w2) => (some (Except.ok playlist), w2)

/-- The `for _, link := range links` loop of `spotify.Client.GetUserPlaylists`: `result` is
the slice built so far; the slice after the loop, `none` for a run-time panic. -/
def userPlaylistsLoop {σ : Type} (env : Env σ) :
    List (List Char) → List Playlist → World σ → Option (List Playlist) × World σ
  | [], result, w => (some result, w)
  | link :: links, result, w =>
    let link := strings.TrimSpace link
    if link = [] then userPlaylistsLoop env links result w
    else
      match extractPlaylistID link with
      | (_, some _) => userPlaylistsLoop env links result w
      | (playlistID, none) =>
        match GetPlaylistInfo env w playlistID playlistID with
        | (none, w1) => (none, w1)
        | (some (Except.error _), w1) => userPlaylistsLoop env links result w1
        | (some (Except.ok playlist), w1) =>
          userPlaylistsLoop env links (result ++ [playlist]) w1

namespace spotify

/-- The method `spotify.Client.GetUserPlaylists`: its results (playlists or error), `none`
for a run-time panic, and the world after the call. -/
def GetUserPlaylists {σ : Type} (env : Env σ) (w : World σ) :
    Option (Except (List Char) (List Playlist)) × World σ :=
  let playlistLinks := env.playlistLinks w.state
  if playlistLinks = [] then
    (some (Except.error ("SPOTIFY_PLAYLIST_LINKS environment variable required "
      ++ "(comma-separated playlist URLs)").toList), w)
  else
    let links := strings.Split playlistLinks ",".toList
    match userPlaylistsLoop env links [] w with
    | (none, w1) => (none, w1)
    | (some result, w1) => (some (Except.ok result), w1)

end spotify

/-- The `Service` struct of `internal/transfer/service.go`: for each client, whether the
field is set (non-nil). -/
structure Service where
  spotifyClient : Bool := false
  youtubeClient : Bool := false
  deriving DecidableEq, Repr

/-- The method `Service.initializeClients`, as its error, the service and the world after
the call.  `spotify.NewClient` always returns a client and a nil error. -/
def initializeClients {σ : Type} (env : Env σ) (s : Service) (w : World σ) :
    Option (List Char) × Service × World σ :=
  let s1 : Service := if s.spotifyClient = false then { s with spotifyClient := true } else s
  if s1.youtubeClient = false then
    match env.newYouTubeClient w.state with
    | (some err, state) =>
      (some ("YouTube client: ".toList ++ err), s1, { w with state := state })
    | (none, state) => (none, { s1 with youtubeClient := true }, { w with state := state })
  else (none, s1, w)

/-- How the destination resolution of a transfer ends. -/
inductive Destination where
  /-- The call `PlaylistExists` returned an error. -/
  | lookupFailed (err : List Char)
  /-- The call `CreatePlaylist` returned an error. -/
  | createFailed (err : List Char)
  /-- The playlist that the tracks go to. -/
  | ready (youtubePlaylist : YouTubePlaylist)

/-- The destination resolution common to `TransferPlaylist` (lines 65 to 90) and
`TransferAllPlaylists` (lines 128 to 151): an existing playlist of that title is used; without
one a placeholder is made in a dry run and a playlist is created otherwise.  The two callers
differ in the description they pass and in what they do on an error.  The result is `none`
for a run-time panic: in `PlaylistExists`, in `CreatePlaylist`, or on using a nil playlist. -/
def resolveDestination {σ : Type} (env : Env σ) (w : World σ) (name description : List Char)
    (dryRun : Bool) : Option Destination × World σ :=
  match PlaylistExists env.api env.fold w name with
  | (none, w1) => (none, w1)
  | (some (_, _, some err), w1) => (some (Destination.lookupFailed err), w1)
  | (some (true, existingPlaylist, none), w1) =>
    match existingPlaylist with
    | some youtubePlaylist => (some (Destination.ready youtubePlaylist), w1)
    | none => (none, w1)
  | (some (false, _, none), w1) =>
    if dryRun then (some (Destination.ready { Title := name, Description := description }), w1)
    else
      match CreatePlaylist env.api w1 name description with
      | (none, w2) => (none, w2)
      | (some (Except.error err), w2) => (some (Destination.createFailed err), w2)
      | (some (Except.ok youtubePlaylist), w2) => (some (Destination.ready youtubePlaylist), w2)

/-- The name resolution of `TransferPlaylist` (lines 40 to 48): a name that is not given is
taken from `GetPlaylistInfo`.  The result is `none` for a run-time panic. -/
def resolveName {σ : Type} (env : Env σ) (w : World σ) (playlistID playlistName : List Char) :
    Option (Except (List Char) (List Char)) × World σ :=
  if playlistName = [] then
    match GetPlaylistInfo env w playlistID "Unknown Playlist".toList with
    | (none, w1) => (none, w1)
    | (some (Except.error err), w1) => (some (Except.error err), w1)
    | (some (Except.ok spotifyPlaylistInfo), w1) => (some (Except.ok spotifyPlaylistInfo.Name), w1)
  else (some (Except.ok playlistName), w)

/-- What a call of `TransferPlaylist` comes to: whether it ends in a run-time panic, the error
it returns, the result it hands to `printTransferResult` (when it gets that far), the service
and the world after the call. -/
structure TransferRun (σ : Type) where
  panicked : Bool := false
  err : Option (List Char) := none
  result : Option TransferResult := none
  service : Service
  world : World σ

/-- The method `Service.TransferPlaylist`. -/
def TransferPlaylist {σ : Type} (env : Env σ) (s : Service)
    (playlistID playlistName : List Char) (dryRun : Bool) (w : World σ) : TransferRun σ :=
  match initializeClients env s w with
  | (some err, s1, w0) =>
    { err := some ("clients initialize edilemedi: ".toList ++ err), service := s1, world := w0 }
  | (none, s1, w0) =>
    match resolveName env w0 playlistID playlistName with
    | (none, w1) => { panicked := true, service := s1, world := w1 }
    | (some (Except.error err), w1) =>
      { err := some ("failed to get playlist info: ".toList ++ err), service := s1, world := w1 }
    | (some (Except.ok playlistName), w1) =>
      match GetPlaylistTracks env w1 playlistID with
      | (none, w2) => { panicked := true, service := s1, world := w2 }
      | (some (Except.error err), w2) =>
        { err := some ("playlist tracks alınamadı: ".toList ++ err), service := s1, world := w2 }
      | (some (Except.ok tracks), w2) =>
        match resolveDestination env w2 playlistName
            ("Transferred from Spotify playlist: ".toList ++ playlistID) dryRun with
        | (none, w3) => { panicked := true, service := s1, world := w3 }
        | (some (Destination.lookupFailed err), w3) =>
          { err := some ("playlist existence check failed: ".toList ++ err)
            service := s1, world := w3 }
        | (some (Destination.createFailed err), w3) =>
          { err := some ("YouTube playlist oluşturulamadı: ".toList ++ err)
            service := s1, world := w3 }
        | (some (Destination.ready youtubePlaylist), w3) =>
          match transferTracks env.api env.tbl tracks youtubePlaylist dryRun w3 with
          | (none, w4) => { panicked := true, service := s1, world := w4 }
          | (some result, w4) => { result := some result, service := s1, world := w4 }

/-- The `for i, playlist := range playlists` loop of `TransferAllPlaylists`: `totalResults`
is the slice built so far; a playlist whose track fetch, existence check or creation fails is
passed over (`continue`).  The result is the slice after the loop, `none` for a run-time
panic. -/
def transferAllLoop {σ : Type} (env : Env σ) (dryRun : Bool) :
    List Playlist → List TransferResult → World σ → Option (List TransferResult) × World σ
  | [], totalResults, w => (some totalResults, w)
  | playlist :: rest, totalResults, w =>
    match GetPlaylistTracks env w playlist.ID with
    | (none, w1) => (none, w1)
    | (some (Except.error _), w1) => transferAllLoop env dryRun rest totalResults w1
    | (some (Except.ok tracks), w1) =>
      match resolveDestination env w1 playlist.Name playlist.Description dryRun with
      | (none, w2) => (none, w2)
      | (some (Destination.lookupFailed _), w2) =>
        transferAllLoop env dryRun rest totalResults w2
      | (some (Destination.createFailed _), w2) =>
        transferAllLoop env dryRun rest totalResults w2
      | (some (Destination.ready youtubePlaylist), w2) =>
        match transferTracks env.api env.tbl tracks youtubePlaylist dryRun w2 with
        | (none, w3) => (none, w3)
        | (some result, w3) => transferAllLoop env dryRun rest (totalResults ++ [result]) w3

/-- What `printSummary` reports: one row per result (playlist name, matched, total, failed)
and the line of totals. -/
structure Summary where
  rows : List (List Char × Nat × Nat × Nat) := []
  totalPlaylists : Nat := 0
  totalTracks : Nat := 0
  totalMatched : Nat := 0
  totalFailed : Nat := 0
  deriving DecidableEq, Repr

/-- The method `Service.printSummary`, as the values it prints.  The sums are natural numbers:
they count loop iterations made by this process. -/
def printSummary (results : List TransferResult) : Summary :=
  results.foldl
    (fun summary result =>
      { summary with
        rows := summary.rows ++ [(result.PlaylistName, result.MatchedTracks,
          result.TotalTracks, result.FailedTracks)]
        totalTracks := summary.totalTracks + result.TotalTracks
        totalMatched := summary.totalMatched + result.MatchedTracks
        totalFailed := summary.totalFailed + result.FailedTracks })
    { totalPlaylists := results.length }

/-- What a call of `TransferAllPlaylists` comes to: whether it ends in a run-time panic, the
error it returns, the results it hands to `printSummary` and the summary printed (when it
gets that far), the service and the world after the call. -/
structure BatchRun (σ : Type) where
  panicked : Bool := false
  err : Option (List Char) := none
  results : Option (List TransferResult) := none
  summary : Option Summary := none
  service : Service
  world : World σ

/-- The method `Service.TransferAllPlaylists`. -/
def TransferAllPlaylists {σ : Type} (env : Env σ) (s : Service) (dryRun : Bool)
    (w : World σ) : BatchRun σ :=
  match initializeClients env s w with
  | (some err, s1, w0) =>
    { err := some ("clients initialize edilemedi: ".toList ++ err), service := s1, world := w0 }
  | (none, s1, w0) =>
    match spotify.GetUserPlaylists env w0 with
    | (none, w1) => { panicked := true, service := s1, world := w1 }
    | (some (Except.error err), w1) =>
      { err := some ("playlists alınamadı: ".toList ++ err), service := s1, world := w1 }
    | (some (Except.ok playlists), w1) =>
      match transferAllLoop env dryRun playlists [] w1 with
      | (none, w2) => { panicked := true, service := s1, world := w2 }
      | (some totalResults, w2) =>
        { results := some totalResults
          summary := some (printSummary totalResults)
          service := s1, world := w2 }

/-! ## Sample inputs -/

/-- The text of the track row of `sampleMarkup`. -/
def sampleRow : List Char :=
  ("<h3 data-encore-id=\"text\">Around the World</h3>"
    ++ "<h4 data-encore-id=\"text\">Daft Punk</h4>"
    ++ "<div data-testid=\"duration-cell\">3:45</div>").toList

/-- A page with one track row whose duration cell holds `9223372036854775807:00`; the
minutes are the largest value of a 64-bit `int`. -/
def longDurationMarkup : List Char :=
  ("<li data-testid=\"tracklist-row-1\"><h3 data-encore-id=\"text\">Song</h3>"
    ++ "<h4 data-encore-id=\"text\">Artist</h4>"
    ++ "<div data-testid=\"duration-cell\">9223372036854775807:00</div></li>").toList

/-- A linked-data text with an `@graph` array: a music recording and a person. -/
def graphBlock : List Char :=
  ("\x7b\"@graph\":[\x7b\"@type\":\"MusicRecording\",\"name\":\"One More Time\","
    ++ "\"byArtist\":\x7b\"name\":\"Daft Punk\"\x7d\x7d,"
    ++ "\x7b\"@type\":\"Person\",\"name\":\"Thomas\"\x7d]\x7d").toList

/-- A linked-data text with an `itemListElement` array: an entry named ` Song ` (with
surrounding spaces) and an entry without a name. -/
def listBlock : List Char :=
  "\x7b\"itemListElement\":[\x7b\"name\":\" Song \"\x7d,\x7b\"position\":2\x7d]\x7d".toList

/-- A linked-data text with an empty `@graph` array and an `itemListElement` array of one
named entry. -/
def bothBlock : List Char :=
  "\x7b\"@graph\":[],\"itemListElement\":[\x7b\"name\":\"X\"\x7d]\x7d".toList

/-- A library whose JSON decoder knows the texts `graphBlock`, `listBlock` and `bothBlock`
and reports an error on every other text; none of their strings holds an entity, so the
entity decoder leaves them unchanged. -/
def linkedDataLib : Lib :=
  { unmarshalInitialState := fun _ => none
    unmarshalObject := fun block =>
      if block = graphBlock then
        some [("@graph".toList, Json.arr
          [Json.obj [("@type".toList, Json.str "MusicRecording".toList),
                     ("name".toList, Json.str "One More Time".toList),
                     ("byArtist".toList, Json.obj [("name".toList, Json.str "Daft Punk".toList)])],
           Json.obj [("@type".toList, Json.str "Person".toList),
                     ("name".toList, Json.str "Thomas".toList)]])]
      else if block = listBlock then
        some [("itemListElement".toList, Json.arr
          [Json.obj [("name".toList, Json.str " Song ".toList)],
           Json.obj [("position".toList, Json.number "2".toList)]])]
      else if block = bothBlock then
        some [("@graph".toList, Json.arr []),
              ("itemListElement".toList, Json.arr
                [Json.obj [("name".toList, Json.str "X".toList)]])]
      else none
    UnescapeString := fun s => s }

/-- A page holding one linked-data block. -/
def linkedDataMarkup (block : List Char) : List Char :=
  "<script type=\"application/ld+json\">".toList ++ block ++ "</script>".toList

/-- A listed playlist with the given id and title, carrying its snippet and its content
details. -/
def playlistItem (id title : List Char) : PlaylistResource :=
  { Id := id, Snippet := some { Title := title }, ContentDetails := some {} }

/-- A search hit with the given id and title, carrying its id and its snippet. -/
def searchHit (videoId title : List Char) : SearchItem :=
  { Id := some { VideoId := videoId }, Snippet := some { Title := title } }

/-- A search hit whose reply lacks the id. -/
def hitWithoutId : SearchItem := { Snippet := some { Title := "Some video".toList } }

/-- A remote service, with the number of searches made so far as its state, whose second
search fails; every other search finds one video titled as the query, and every insertion
succeeds. -/
def secondSearchFails : Api Nat :=
  { searchList := fun n query =>
      if n = 1 then (Except.error { message := "quota exceeded".toList }, n + 1)
      else (Except.ok [searchHit "v".toList query], n + 1)
    playlistItemsInsert := fun n _ _ => (none, n)
    playlistsInsert := fun n title description =>
      (Except.ok { Id := "p".toList
                   Snippet := some { Title := title, Description := description } }, n)
    playlistsList := fun n _ => (Except.ok {}, n) }

/-- A remote service, with the number of searches made so far as its state, whose second
search is answered with a hit that lacks the id; every other search finds one video titled as
the query, and every insertion succeeds. -/
def secondReplyMalformed : Api Nat :=
  { searchList := fun n query =>
      if n = 1 then (Except.ok [hitWithoutId], n + 1)
      else (Except.ok [searchHit "v".toList query], n + 1)
    playlistItemsInsert := fun n _ _ => (none, n)
    playlistsInsert := fun n title description =>
      (Except.ok { Id := "p".toList
                   Snippet := some { Title := title, Description := description } }, n)
    playlistsList := fun n _ => (Except.ok {}, n) }

/-- Three tracks. -/
def threeTracks : List Track :=
  [{ Name := "One More Time".toList, Artist := "Daft Punk".toList },
   { Name := "Shape of You".toList, Artist := "Ed Sheeran".toList },
   { Name := "Side to Side".toList, Artist := "Ariana Grande".toList }]

/-- The map iteration order that visits the entries in reverse. -/
def reversedOrder : MapOrder :=
  { iter := fun l => l.reverse
    perm := fun l => List.reverse_perm l }

/-- An initial-state text with two tracks. -/
def twoTrackState : List Char :=
  ("\x7b\"entities\":\x7b\"tracks\":\x7b\"data\":\x7b"
    ++ "\"t1\":\x7b\"name\":\"One More Time\"\x7d,"
    ++ "\"t2\":\x7b\"name\":\"Around the World\"\x7d\x7d\x7d\x7d\x7d").toList

/-- A library whose JSON decoder knows the text `twoTrackState` (the tracks "One More Time"
and "Around the World") and reports an error on every other text. -/
def twoTrackLib : Lib :=
  { unmarshalInitialState := fun j =>
      if j = twoTrackState then
        some [("t1".toList, { Name := "One More Time".toList }),
              ("t2".toList, { Name := "Around the World".toList })]
      else none
    unmarshalObject := fun _ => none
    UnescapeString := fun s => s }

/-- A page whose embedded initial state holds two tracks. -/
def twoTrackMarkup : List Char :=
  "<script>window.__spotify_initial_state = ".toList ++ twoTrackState ++ ";</script>".toList

/-- A remote service that never changes: every search finds one video titled as the query,
every insertion is answered by `insertAnswer`, every creation succeeds with the id `new`, and
every listing call is answered by `listing`, as one page. -/
def steadyApi (listing : Except ApiError (List PlaylistResource))
    (insertAnswer : Option ApiError) : Api Nat :=
  { searchList := fun n query => (Except.ok [searchHit "v".toList query], n)
    playlistItemsInsert := fun n _ _ => (insertAnswer, n)
    playlistsInsert := fun n title description =>
      (Except.ok { Id := "new".toList
                   Snippet := some { Title := title, Description := description } }, n)
    playlistsList := fun n _ =>
      (match listing with
        | Except.ok items => Except.ok { Items := items }
        | Except.error err => Except.error err, n) }

/-- A remote service like `steadyApi` with no playlists, except that every search is
answered with a hit that lacks the id. -/
def malformedSearchApi : Api Nat :=
  { searchList := fun n _ => (Except.ok [hitWithoutId], n)
    playlistItemsInsert := fun n _ _ => (none, n)
    playlistsInsert := fun n title description =>
      (Except.ok { Id := "new".toList
                   Snippet := some { Title := title, Description := description } }, n)
    playlistsList := fun n _ => (Except.ok {}, n) }

/-- A remote service like `steadyApi` whose user has 51 playlists, listed on two pages: 50
playlists titled `Other` on the first page, and the playlist `Mix` (id `yt51`) on the page
with the token `p2`. -/
def pagedApi : Api Nat :=
  { searchList := fun n query => (Except.ok [searchHit "v".toList query], n)
    playlistItemsInsert := fun n _ _ => (none, n)
    playlistsInsert := fun n title description =>
      (Except.ok { Id := "new".toList
                   Snippet := some { Title := title, Description := description } }, n)
    playlistsList := fun n token =>
      if token = [] then
        (Except.ok { Items := List.replicate 50 (playlistItem "yt".toList "Other".toList)
                     NextPageToken := "p2".toList }, n)
      else (Except.ok { Items := [playlistItem "yt51".toList "Mix".toList] }, n) }

/-- Collaborators around the remote service `api`, with the number of GETs made so far as the
state of the world: the first `getsOk` GETs are answered with status 200 and the page `page`,
every later one fails in transport; the YouTube client can be constructed; the playlist links
of the environment are `links`; maps are visited as listed; no table folds or lowers a code
point above U+007F. -/
def steadyEnv (api : Api Nat) (links : List Char) (getsOk : Nat) (page : List Char) : Env Nat :=
  { api := api
    httpGet := fun n _ =>
      if n < getsOk then (HttpOutcome.response 200 (Except.ok page), n + 1)
      else (HttpOutcome.transportError "timeout".toList, n + 1)
    newYouTubeClient := fun n => (none, n)
    playlistLinks := fun _ => links
    mapOrder1 := fun _ => listedOrder
    mapOrder2 := fun _ => listedOrder
    lib := plainLib
    tbl := fun c => c
    fold := fun _ _ => false }

/-- A page with one free-text line, `Daft Punk - One More Time`. -/
def onePage : List Char := "Daft Punk - One More Time".toList

/-- Collaborators whose remote service fails to list the playlists of the user (`backend
error`); every GET is answered with the page `onePage`. -/
def lookupFailsEnv (links : List Char) : Env Nat :=
  steadyEnv (steadyApi (Except.error { message := "backend error".toList }) none) links 100
    onePage

/-- Collaborators that all work: the playlists of the user are `listing`, every insertion
succeeds, every GET is answered with the page `onePage`. -/
def workingEnv (links : List Char) (listing : List PlaylistResource) : Env Nat :=
  steadyEnv (steadyApi (Except.ok listing) none) links 100 onePage

/-- Collaborators that fail after the playlists have been gathered: the first five GETs are
answered with the page `onePage` and every later one fails; the remote service fails to list
the playlists of the user. -/
def failingEnv (links : List Char) : Env Nat :=
  steadyEnv (steadyApi (Except.error { message := "backend error".toList }) none) links 5
    onePage

/-- Collaborators that all work, except that every search is answered with a hit that lacks
the id; every GET is answered with the page `onePage`. -/
def malformedSearchEnv (links : List Char) : Env Nat :=
  steadyEnv malformedSearchApi links 100 onePage

/-- Collaborators that all work, around the remote service `pagedApi` whose user has 51
playlists on two pages. -/
def pagedEnv : Env Nat := steadyEnv pagedApi [] 100 onePage

/-! ## Specification-level vocabulary

Definitions written from the wording of the specification, against which the embedded code
is compared. -/

namespace Spec

/-- Position `i` of `s` lies inside an occurrence of the literal `tok`: some occurrence
starts at a position `p ≤ i` and extends beyond `i`. -/
def insideOccurrence (tok s : List Char) (i : Nat) : Bool :=
  (List.range (i + 1)).any fun p => decide (i < p + tok.length) && tok.isPrefixOf (s.drop p)

/-- The characters of the tail `cs` of `whole` (starting at position `i`) that lie inside no
occurrence of `tok` in `whole`. -/
def keepOutside (tok whole : List Char) : Nat → List Char → List Char
  | _, [] => []
  | i, c :: cs =>
    if insideOccurrence tok whole i then keepOutside tok whole (i + 1) cs
    else c :: keepOutside tok whole (i + 1) cs

/-- Deleting every occurrence of the literal `tok` from `s`: exactly the characters lying
inside no occurrence of `tok` are kept, in order, and no other character is changed. -/
def deleteOccurrences (tok s : List Char) : List Char := keepOutside tok s 0 s

/-- Splitting on whitespace runs and joining the non-empty fields with a single space. -/
def collapseWhitespace (s : List Char) : List Char :=
  List.intercalate " ".toList ((s.splitOnP strings.isSpace).filter (fun f => !f.isEmpty))

/-- The result of the first strategy, in the given order, whose result is non-empty; the
empty sequence when there is none. -/
def firstNonEmpty (results : List (List Track)) : List Track :=
  (results.find? (fun r => !r.isEmpty)).getD []

/-- The value of a string of decimal digits. -/
def decimalValue (ds : List Char) : Nat :=
  ds.foldl (fun acc c => 10 * acc + (c.toNat - 48)) 0

/-- The record the free-text strategy makes of one line, if any: the trimmed line splits at
` - ` into exactly two parts, its length in bytes lies strictly between 10 and 200, and the
trimmed parts are non-empty and hold no `<`; the artist is the trimmed left part, the name
the trimmed right part. -/
def lineRecord (rawLine : List Char) : Option Track :=
  let line := strings.TrimSpace rawLine
  match strings.Split line " - ".toList with
  | [left, right] =>
    if 10 < strings.byteLen line ∧ strings.byteLen line < 200
        ∧ strings.TrimSpace left ≠ [] ∧ strings.TrimSpace right ≠ []
        ∧ '<' ∉ strings.TrimSpace left ∧ '<' ∉ strings.TrimSpace right then
      some { Artist := strings.TrimSpace left, Name := strings.TrimSpace right }
    else none
  | _ => none

/-- The text of the string field `key` of a JSON object, entity-unescaped; empty when the
value is no object or has no such string field. -/
def stringField (lib : Lib) (item : Option Json) (key : List Char) : List Char :=
  match item with
  | some (Json.obj fields) =>
    match fields.lookup key with
    | some (Json.str s) => lib.UnescapeString s
    | _ => []
  | _ => []

/-- Whether a graph entry is an object whose `@type` is the string `MusicRecording`. -/
def isMusicRecording (item : Json) : Bool :=
  match item with
  | Json.obj fields =>
    match fields.lookup "@type".toList with
    | some (Json.str t) => t == "MusicRecording".toList
    | _ => false
  | _ => false

/-- The field `key` of a JSON value, when the value is an object with that field. -/
def field (item : Json) (key : List Char) : Option Json :=
  match item with
  | Json.obj fields => fields.lookup key
  | _ => none

/-- The name of a list entry, when the entry is an object with a string `name`. -/
def stringName (item : Json) : Option (List Char) :=
  match item with
  | Json.obj fields =>
    match fields.lookup "name".toList with
    | some (Json.str s) => some s
    | _ => none
  | _ => none

/-- The `@graph` array of the object decoded from a linked-data text, when the text decodes
to an object that has one. -/
def graphEntries (lib : Lib) (block : List Char) : Option (List Json) :=
  match lib.unmarshalObject block with
  | some data =>
    match data.lookup "@graph".toList with
    | some (Json.arr graph) => some graph
    | _ => none
  | none => none

/-- The names of the entries with a string `name` in the `itemListElement` array of the
object decoded from a linked-data text; empty without such an array. -/
def listedNames (lib : Lib) (block : List Char) : List (List Char) :=
  match lib.unmarshalObject block with
  | some data =>
    match data.lookup "itemListElement".toList with
    | some (Json.arr items) => items.filterMap stringName
    | _ => []
  | none => []

/-- The track made of a music recording: its entity-unescaped `name` and the
entity-unescaped `name` of its `byArtist` object, each empty when absent. -/
def recordingTrack (lib : Lib) (item : Json) : Track :=
  { Name := stringField lib (some item) "name".toList
    Artist := stringField lib (field item "byArtist".toList) "name".toList }

/-- The text that opens an `og:title` meta tag, up to the content. -/
def ogTitleOpen : List Char := "<meta property=\"og:title\" content=\"".toList

/-- The text that closes an `og:title` meta tag after the content. -/
def ogTitleClose : List Char := "\"/>".toList

/-- What happened to one track of a transfer: the answer of the search (`none`: the search
ended in a run-time panic), and the answer of the insertion when one was made (`none`: no
insertion; `some none`: it succeeded). -/
structure Attempt where
  track : Track
  search : Option (Except (List Char) (List YouTubeVideo))
  add : Option (Option (List Char))

/-- The attempt ended in a run-time panic. -/
def Attempt.panicked (a : Attempt) : Bool := a.search.isNone

/-- A track counts as matched when its search succeeded with at least one candidate and,
outside simulation mode, its insertion succeeded. -/
def Attempt.matched (dryRun : Bool) (a : Attempt) : Bool :=
  match a.search with
  | some (Except.ok videos) =>
    !videos.isEmpty &&
      (dryRun ||
        match a.add with
        | some none => true
        | _ => false)
  | _ => false

/-- A track for which a candidate was selected: its search succeeded with at least one
candidate. -/
def Attempt.selected (a : Attempt) : Bool :=
  match a.search with
  | some (Except.ok videos) => !videos.isEmpty
  | _ => false

/-- The attempts of a transfer, one per track in order up to the end of the run: each track
is searched for in the world left by the tracks before it, and outside simulation mode the
selected candidate is inserted; a search that ends in a run-time panic is the last attempt. -/
def attempts {σ : Type} (api : Api σ) (tbl : Char → Char) (youtubePlaylist : YouTubePlaylist)
    (dryRun : Bool) : List Track → World σ → List Attempt
  | [], _ => []
  | track :: rest, w =>
    match SearchVideo api w (buildSearchQuery track) with
    | (none, _) => [{ track := track, search := none, add := none }]
    | (some (Except.error err), w1) =>
      { track := track, search := some (Except.error err), add := none }
        :: attempts api tbl youtubePlaylist dryRun rest w1
    | (some (Except.ok videos), w1) =>
      match (if dryRun then none else findBestMatch tbl track videos) with
      | none =>
        { track := track, search := some (Except.ok videos), add := none }
          :: attempts api tbl youtubePlaylist dryRun rest w1
      | some best =>
        match AddVideoToPlaylist api w1 youtubePlaylist.ID best.ID with
        | (answer, w2) =>
          { track := track, search := some (Except.ok videos), add := some answer }
            :: attempts api tbl youtubePlaylist dryRun rest w2

/-- Every reply of the remote service carries the fields that the client reads through a
pointer: every search hit its id and its snippet, every playlist of the first page of a
listing its snippet and its content details, every created playlist its snippet. -/
def Complete {σ : Type} (api : Api σ) : Prop :=
  (∀ st query items st1, api.searchList st query = (Except.ok items, st1) →
      ∀ item ∈ items, item.Id.isSome = true ∧ item.Snippet.isSome = true)
    ∧ (∀ st page st1, api.playlistsList st [] = (Except.ok page, st1) →
        ∀ item ∈ page.Items, item.Snippet.isSome = true ∧ item.ContentDetails.isSome = true)
    ∧ ∀ st title description result st1,
        api.playlistsInsert st title description = (Except.ok result, st1) →
        result.Snippet.isSome = true

/-- The playlists of the user as the remote service lists them page by page: the items of the
page for `token`, then those of the pages that its next-page tokens lead to, for at most
`pages` pages. -/
def listedPlaylists {σ : Type} (api : Api σ) : Nat → σ → List Char → List PlaylistResource
  | 0, _, _ => []
  | pages + 1, st, token =>
    match api.playlistsList st token with
    | (Except.ok page, st1) =>
      page.Items
        ++ (if page.NextPageToken = [] then []
            else listedPlaylists api pages st1 page.NextPageToken)
    | (Except.error _, _) => []

/-- One playlist of a batch and what became of it: the tracks fetched for it, the destination
resolved for it and the world in which the transfer of the tracks starts (nothing when the
track fetch, the existence check or the creation failed or ended in a run-time panic); the
transfer result (nothing when there was no transfer or it ended in a run-time panic); and
whether the step ended in a run-time panic. -/
structure PlaylistStep (σ : Type) where
  playlist : Playlist
  transfer : Option (List Track × YouTubePlaylist × World σ) := none
  outcome : Option TransferResult := none
  panicked : Bool := false

/-- The steps of a batch, one per playlist in order up to the end of the run: the tracks of
the playlist are fetched in the world left by the playlists before it, its destination is
resolved, and its tracks are transferred; a step that ends in a run-time panic is the last
one. -/
def batchSteps {σ : Type} (env : Env σ) (dryRun : Bool) :
    List Playlist → World σ → List (PlaylistStep σ)
  | [], _ => []
  | playlist :: rest, w =>
    match GetPlaylistTracks env w playlist.ID with
    | (none, _) => [{ playlist := playlist, panicked := true }]
    | (some (Except.error _), w1) => { playlist := playlist } :: batchSteps env dryRun rest w1
    | (some (Except.ok tracks), w1) =>
      match resolveDestination env w1 playlist.Name playlist.Description dryRun with
      | (none, _) => [{ playlist := playlist, panicked := true }]
      | (some (Destination.ready youtubePlaylist), w2) =>
        match transferTracks env.api env.tbl tracks youtubePlaylist dryRun w2 with
        | (none, _) =>
          [{ playlist := playlist, transfer := some (tracks, youtubePlaylist, w2)
             panicked := true }]
        | (some result, w3) =>
          { playlist := playlist, transfer := some (tracks, youtubePlaylist, w2)
            outcome := some result } :: batchSteps env dryRun rest w3
      | (some _, w2) => { playlist := playlist } :: batchSteps env dryRun rest w2

/-- A list of fields: each one non-empty and free of whitespace. -/
def FieldList (fs : List (List Char)) : Prop :=
  ∀ f ∈ fs, f ≠ [] ∧ ∀ c ∈ f, strings.isSpace c = false

end Spec

/-! ## Lemmas on the string functions -/

theorem prefix_getElem? {l₁ l₂ : List Char} (h : l₁ <+: l₂) (j : Nat) (hj : j < l₁.length) :
    l₂[j]? = l₁[j]? := by
  obtain ⟨r, rfl⟩ := h
  exact List.getElem?_append_left hj

/-- Two occurrences of a literal whose first character does not recur in it cannot overlap. -/
theorem no_overlap (a : Char) (tl s : List Char) (ha : a ∉ tl) (q p : Nat)
    (hq : (a :: tl) <+: s.drop q) (hp : (a :: tl) <+: s.drop p)
    (h1 : q < p) (h2 : p < q + (tl.length + 1)) : False := by
  have e1 := prefix_getElem? hp 0 (by simp)
  have e2 := prefix_getElem? hq (p - q) (by simp; omega)
  rw [List.getElem?_drop] at e1 e2
  have hpq : q + (p - q) = p := by omega
  rw [hpq] at e2
  simp only [Nat.add_zero] at e1
  rw [e1] at e2
  obtain ⟨d, hd⟩ : ∃ d, p - q = d + 1 := ⟨p - q - 1, by omega⟩
  rw [hd] at e2
  simp only [List.getElem?_cons_zero, List.getElem?_cons_succ] at e2
  exact ha (List.getElem?_mem e2.symm)

theorem insideOccurrence_iff (tok s : List Char) (i : Nat) :
    Spec.insideOccurrence tok s i = true ↔
      ∃ p, p ≤ i ∧ i < p + tok.length ∧ tok <+: s.drop p := by
  unfold Spec.insideOccurrence
  simp only [List.any_eq_true, List.mem_range, Bool.and_eq_true, decide_eq_true_eq,
    List.isPrefixOf_iff_prefix]
  constructor
  · rintro ⟨p, hp, h1, h2⟩
    exact ⟨p, by omega, h1, h2⟩
  · rintro ⟨p, hp, h1, h2⟩
    exact ⟨p, by omega, h1, h2⟩

/-- The scanner of `strings.Replace`, started after the characters `pre` with `k` characters
of a matched instance still to skip, keeps exactly the characters outside every occurrence. -/
theorem keepOutside_eq_replaceFrom (a : Char) (tl whole : List Char) (ha : a ∉ tl) :
    ∀ (suf pre : List Char) (k : Nat), whole = pre ++ suf →
      (∀ p, p < pre.length → (a :: tl) <+: whole.drop p →
        p + (tl.length + 1) ≤ pre.length + k) →
      (0 < k → k ≤ tl.length ∧ tl.length + 1 ≤ pre.length + k ∧
        (a :: tl) <+: whole.drop (pre.length + k - (tl.length + 1))) →
      Spec.keepOutside (a :: tl) whole pre.length suf
        = strings.replaceFrom (a :: tl) [] k suf := by
  intro suf
  induction suf with
  | nil => intro pre k _ _ _; cases k <;> rfl
  | cons c cs ih =>
    intro pre k hw hbefore hin
    have hw' : whole = (pre ++ [c]) ++ cs := by simp [hw]
    have hlen : (pre ++ [c]).length = pre.length + 1 := by simp
    have hdrop : whole.drop pre.length = c :: cs := by simp [hw]
    cases k with
    | succ k =>
      obtain ⟨hk, hle, hocc⟩ := hin (Nat.succ_pos k)
      have hinside : Spec.insideOccurrence (a :: tl) whole pre.length = true := by
        rw [insideOccurrence_iff]
        exact ⟨pre.length + (k + 1) - (tl.length + 1), by omega, by simp; omega, hocc⟩
      have := ih (pre ++ [c]) k hw' ?_ ?_
      · rw [hlen] at this
        simp only [Spec.keepOutside, hinside, if_true, strings.replaceFrom, this]
      · intro p hp hpo
        rw [hlen] at hp ⊢
        rcases Nat.lt_or_ge p pre.length with h | h
        · have := hbefore p h hpo; omega
        · have hpe : p = pre.length := by omega
          subst hpe
          exact (no_overlap a tl whole ha _ _ hocc hpo (by omega) (by omega)).elim
      · intro hk0
        rw [hlen]
        refine ⟨by omega, by omega, ?_⟩
        have : pre.length + 1 + k - (tl.length + 1) = pre.length + (k + 1) - (tl.length + 1) := by
          omega
        rw [this]; exact hocc
    | zero =>
      by_cases hpre : (a :: tl).isPrefixOf (c :: cs) = true
      · have hocc : (a :: tl) <+: whole.drop pre.length := by
          rw [hdrop]; exact List.isPrefixOf_iff_prefix.mp hpre
        have hinside : Spec.insideOccurrence (a :: tl) whole pre.length = true := by
          rw [insideOccurrence_iff]
          exact ⟨pre.length, le_refl _, by simp, hocc⟩
        have := ih (pre ++ [c]) tl.length hw' ?_ ?_
        · rw [hlen] at this
          simp only [Spec.keepOutside, hinside, if_true, strings.replaceFrom, hpre,
            List.nil_append, List.length_cons, Nat.add_sub_cancel, this]
        · intro p hp hpo
          rw [hlen] at hp ⊢
          rcases Nat.lt_or_ge p pre.length with h | h
          · have := hbefore p h hpo; omega
          · omega
        · intro _
          rw [hlen]
          refine ⟨le_refl _, by omega, ?_⟩
          have : pre.length + 1 + tl.length - (tl.length + 1) = pre.length := by omega
          rw [this]; exact hocc
      · have hnocc : ¬ (a :: tl) <+: whole.drop pre.length := by
          rw [hdrop]; exact fun h => hpre (List.isPrefixOf_iff_prefix.mpr h)
        have hinside : Spec.insideOccurrence (a :: tl) whole pre.length = false := by
          rw [Bool.eq_false_iff]
          intro h
          rw [insideOccurrence_iff] at h
          obtain ⟨p, hp1, hp2, hp3⟩ := h
          rcases Nat.lt_or_ge p pre.length with h | h
          · have := hbefore p h hp3
            simp at hp2; omega
          · have hpe : p = pre.length := by omega
            subst hpe; exact hnocc hp3
        have := ih (pre ++ [c]) 0 hw' ?_ ?_
        · rw [hlen] at this
          simp only [Spec.keepOutside, hinside, strings.replaceFrom, hpre, this]
          simp
        · intro p hp hpo
          rw [hlen] at hp ⊢
          rcases Nat.lt_or_ge p pre.length with h | h
          · have := hbefore p h hpo; omega
          · have hpe : p = pre.length := by omega
            subst hpe; exact (hnocc hpo).elim
        · intro h; omega

/-- For a literal whose first character does not recur in it, `strings.ReplaceAll` with an
empty replacement deletes every occurrence and nothing else. -/
theorem ReplaceAll_eq_deleteOccurrences (a : Char) (tl s : List Char) (ha : a ∉ tl) :
    strings.ReplaceAll s (a :: tl) [] = Spec.deleteOccurrences (a :: tl) s := by
  have := keepOutside_eq_replaceFrom a tl s ha s [] 0 rfl (by simp) (by simp)
  simp only [strings.ReplaceAll, List.isEmpty_cons, Bool.false_eq_true, if_false,
    Spec.deleteOccurrences]
  exact this.symm

theorem modifyHead_append_nil (l : List (List Char)) :
    l.modifyHead (fun f => [] ++ f) = l := by
  cases l <;> simp [List.modifyHead]

/-- The scanner of `strings.Fields` computes the non-empty pieces of the split at spaces. -/
theorem fieldsFrom_eq_splitOnP (s : List Char) : ∀ cur : List Char,
    strings.fieldsFrom cur s =
      ((s.splitOnP strings.isSpace).modifyHead (fun f => cur ++ f)).filter
        (fun f => !f.isEmpty) := by
  induction s with
  | nil =>
    intro cur
    cases cur <;> simp [strings.fieldsFrom, List.modifyHead]
  | cons c cs ih =>
    intro cur
    rw [List.splitOnP_cons]
    by_cases hc : strings.isSpace c = true
    · simp only [strings.fieldsFrom, hc, if_true, List.modifyHead, List.append_nil]
      rw [ih [], modifyHead_append_nil]
      cases cur <;> simp [List.filter]
    · simp only [strings.fieldsFrom, hc, if_false]
      rw [ih (cur ++ [c])]
      cases cs.splitOnP strings.isSpace <;> simp [List.modifyHead]

theorem Fields_eq_splitOnP (s : List Char) :
    strings.Fields s = (s.splitOnP strings.isSpace).filter (fun f => !f.isEmpty) := by
  rw [strings.Fields, fieldsFrom_eq_splitOnP, modifyHead_append_nil]

theorem fieldsFrom_mem (s : List Char) : ∀ cur : List Char,
    (∀ c ∈ cur, strings.isSpace c = false) →
    ∀ f ∈ strings.fieldsFrom cur s, f ≠ [] ∧ ∀ c ∈ f, strings.isSpace c = false := by
  induction s with
  | nil =>
    intro cur hcur f hf
    cases cur with
    | nil => simp [strings.fieldsFrom] at hf
    | cons x xs =>
      simp [strings.fieldsFrom] at hf
      subst hf
      exact ⟨by simp, hcur⟩
  | cons c cs ih =>
    intro cur hcur f hf
    by_cases hc : strings.isSpace c = true
    · cases cur with
      | nil =>
        simp only [strings.fieldsFrom, hc, if_true, List.isEmpty_nil] at hf
        exact ih [] (by simp) f hf
      | cons x xs =>
        simp only [strings.fieldsFrom, hc, if_true, List.isEmpty_cons, List.mem_cons] at hf
        simp only [Bool.false_eq_true, if_false, List.mem_cons] at hf
        rcases hf with rfl | hf
        · exact ⟨by simp, hcur⟩
        · exact ih [] (by simp) f hf
    · simp only [strings.fieldsFrom, hc, if_false] at hf
      refine ih (cur ++ [c]) ?_ f hf
      intro x hx
      rcases List.mem_append.mp hx with h | h
      · exact hcur x h
      · simp at h; subst h; simpa using hc

/-- Every field returned by `strings.Fields` is non-empty and free of whitespace. -/
theorem Fields_fieldList (s : List Char) : Spec.FieldList (strings.Fields s) :=
  fieldsFrom_mem s [] (by simp)

theorem intercalate_cons_cons (sep x y : List Char) (l : List (List Char)) :
    List.intercalate sep (x :: y :: l) = x ++ sep ++ List.intercalate sep (y :: l) := by
  simp [List.intercalate, List.intersperse]

theorem intercalate_append_head (sep x z : List Char) (l : List (List Char)) :
    List.intercalate sep ((x ++ z) :: l) = x ++ List.intercalate sep (z :: l) := by
  cases l <;> simp [List.intercalate, List.intersperse]

theorem intercalate_single (sep f : List Char) : List.intercalate sep [f] = f := by
  simp [List.intercalate, List.intersperse]

theorem Join_eq_intercalate (elems : List (List Char)) (sep : List Char) :
    strings.Join elems sep = List.intercalate sep elems := by
  cases elems with
  | nil => rfl
  | cons e rest =>
    simp only [strings.Join]
    induction rest generalizing e with
    | nil => simp [List.intercalate, List.intersperse]
    | cons r rs ih =>
      rw [List.foldl_cons, ih, intercalate_cons_cons, List.append_assoc,
        intercalate_append_head, intercalate_append_head]
      cases rs <;> simp [List.intercalate, List.intersperse]

theorem isSpace_space : strings.isSpace ' ' = true := by decide

theorem intercalate_head (fs : List (List Char)) (h : Spec.FieldList fs) (c : Char)
    (hc : (List.intercalate " ".toList fs).head? = some c) : strings.isSpace c = false := by
  cases fs with
  | nil => simp [List.intercalate, List.intersperse] at hc
  | cons f rest =>
    obtain ⟨hne, hf⟩ := h f (List.mem_cons_self _ _)
    cases f with
    | nil => exact (hne rfl).elim
    | cons x xs =>
      have : (List.intercalate " ".toList ((x :: xs) :: rest)).head? = some x := by
        cases rest <;> simp [List.intercalate, List.intersperse]
      rw [this] at hc
      cases hc
      exact hf _ (List.mem_cons_self _ _)

theorem intercalate_getLast (fs : List (List Char)) (h : Spec.FieldList fs) (c : Char)
    (hc : (List.intercalate " ".toList fs).getLast? = some c) : strings.isSpace c = false := by
  induction fs with
  | nil => simp [List.intercalate, List.intersperse] at hc
  | cons f rest ih =>
    cases rest with
    | nil =>
      rw [intercalate_single] at hc
      exact (h f (List.mem_cons_self _ _)).2 c (List.mem_of_getLast?_eq_some hc)
    | cons g rest =>
      have hrest : Spec.FieldList (g :: rest) := fun x hx => h x (List.mem_cons_of_mem _ hx)
      rw [intercalate_cons_cons, List.getLast?_append] at hc
      cases hlast : (List.intercalate " ".toList (g :: rest)).getLast? with
      | some d =>
        rw [hlast] at hc
        simp at hc
        subst hc
        exact ih hrest hlast
      | none =>
        have hg := (hrest g (List.mem_cons_self _ _)).1
        rw [List.getLast?_eq_none_iff] at hlast
        cases rest with
        | nil => rw [intercalate_single] at hlast; exact (hg hlast).elim
        | cons g2 r2 =>
          rw [intercalate_cons_cons] at hlast
          simp at hlast

theorem chain_of_no_space (f : List Char) (h : ∀ c ∈ f, strings.isSpace c = false) :
    List.Chain' (fun x y => ¬ (strings.isSpace x = true ∧ strings.isSpace y = true)) f := by
  induction f with
  | nil => exact List.chain'_nil
  | cons x xs ih =>
    rw [List.chain'_cons']
    refine ⟨?_, ih (fun c hc => h c (List.mem_cons_of_mem _ hc))⟩
    intro y _ hxy
    have := h x (List.mem_cons_self _ _)
    rw [this] at hxy
    exact Bool.false_ne_true hxy.1

/-- In fields joined by single spaces no two whitespace characters are adjacent. -/
theorem intercalate_chain (fs : List (List Char)) (h : Spec.FieldList fs) :
    List.Chain' (fun x y => ¬ (strings.isSpace x = true ∧ strings.isSpace y = true))
      (List.intercalate " ".toList fs) := by
  induction fs with
  | nil => simp [List.intercalate, List.intersperse]
  | cons f rest ih =>
    cases rest with
    | nil =>
      rw [intercalate_single]
      exact chain_of_no_space f (h f (List.mem_cons_self _ _)).2
    | cons g rest =>
      have hrest : Spec.FieldList (g :: rest) := fun x hx => h x (List.mem_cons_of_mem _ hx)
      have hf := (h f (List.mem_cons_self _ _)).2
      rw [intercalate_cons_cons, List.append_assoc, List.chain'_append]
      refine ⟨chain_of_no_space f hf, ?_, ?_⟩
      · show List.Chain' _ (' ' :: List.intercalate " ".toList (g :: rest))
        rw [List.chain'_cons']
        refine ⟨?_, ih hrest⟩
        intro y hy hxy
        have := intercalate_head (g :: rest) hrest y hy
        rw [this] at hxy
        exact Bool.false_ne_true hxy.2
      · intro x hx y _ hxy
        have := hf x (List.mem_of_getLast?_eq_some hx)
        rw [this] at hxy
        exact Bool.false_ne_true hxy.1

theorem intercalate_no_double_space (fs : List (List Char)) (h : Spec.FieldList fs) :
    ¬ "  ".toList <:+: List.intercalate " ".toList fs := by
  intro hin
  have := List.Chain'.infix (intercalate_chain fs h) hin
  have h2 : "  ".toList = [' ', ' '] := rfl
  rw [h2, List.chain'_cons'] at this
  exact this.1 ' ' (by simp) ⟨isSpace_space, isSpace_space⟩

/-! ## Query builder: theorems -/

/-- C1: for every track, `buildSearchQuery` equals the text obtained from
`Artist + " " + Name` by deleting every occurrence of `ft.`, then of `feat.`, then of
`featuring` (no other character changed), then splitting on whitespace runs and joining the
non-empty fields with a single space; the result has no leading or trailing whitespace and
no two consecutive spaces. -/
theorem buildSearchQuery_spec (t : Track) :
    buildSearchQuery t =
        Spec.collapseWhitespace
          (Spec.deleteOccurrences "featuring".toList
            (Spec.deleteOccurrences "feat.".toList
              (Spec.deleteOccurrences "ft.".toList (t.Artist ++ " ".toList ++ t.Name))))
      ∧ (∀ c, (buildSearchQuery t).head? = some c → strings.isSpace c = false)
      ∧ (∀ c, (buildSearchQuery t).getLast? = some c → strings.isSpace c = false)
      ∧ ¬ "  ".toList <:+: buildSearchQuery t := by
  have e1 : ∀ s, strings.ReplaceAll s "ft.".toList [] = Spec.deleteOccurrences "ft.".toList s :=
    fun s => ReplaceAll_eq_deleteOccurrences 'f' "t.".toList s (by decide)
  have e2 : ∀ s, strings.ReplaceAll s "feat.".toList []
      = Spec.deleteOccurrences "feat.".toList s :=
    fun s => ReplaceAll_eq_deleteOccurrences 'f' "eat.".toList s (by decide)
  have e3 : ∀ s, strings.ReplaceAll s "featuring".toList []
      = Spec.deleteOccurrences "featuring".toList s :=
    fun s => ReplaceAll_eq_deleteOccurrences 'f' "eaturing".toList s (by decide)
  have hq : ∀ s, strings.Join (strings.Fields s) " ".toList = Spec.collapseWhitespace s := by
    intro s
    rw [Join_eq_intercalate, Fields_eq_splitOnP, Spec.collapseWhitespace]
  have hj : buildSearchQuery t = List.intercalate " ".toList (strings.Fields
      (strings.ReplaceAll (strings.ReplaceAll (strings.ReplaceAll
        (t.Artist ++ " ".toList ++ t.Name) "ft.".toList []) "feat.".toList [])
        "featuring".toList [])) := by
    rw [← Join_eq_intercalate]; rfl
  refine ⟨?_, ?_, ?_, ?_⟩
  · show strings.Join (strings.Fields _) " ".toList = _
    rw [hq, e3, e2, e1]
  · intro c hc
    rw [hj] at hc
    exact intercalate_head _ (Fields_fieldList _) c hc
  · intro c hc
    rw [hj] at hc
    exact intercalate_getLast _ (Fields_fieldList _) c hc
  · rw [hj]
    exact intercalate_no_double_space _ (Fields_fieldList _)

/-- C1, at the track ("Ed Sheeran ft. Justin Bieber", "I Don't Care"): the query has no two
consecutive spaces. -/
theorem buildSearchQuery_spec_witness :
    ¬ "  ".toList <:+: buildSearchQuery
        { Artist := "Ed Sheeran ft. Justin Bieber".toList, Name := "I Don't Care".toList } :=
  (buildSearchQuery_spec
    { Artist := "Ed Sheeran ft. Justin Bieber".toList, Name := "I Don't Care".toList }).2.2.2

/-- Without an occurrence of `old` in it, a string passes through the replace scanner
unchanged. -/
theorem replaceFrom_of_not_infix (old new : List Char) :
    ∀ s : List Char, ¬ old <:+: s → strings.replaceFrom old new 0 s = s := by
  intro s
  induction s with
  | nil => intro _; rfl
  | cons c cs ih =>
    intro h
    have hp : old.isPrefixOf (c :: cs) = false := by
      rw [Bool.eq_false_iff]
      intro hp
      exact h (List.isPrefixOf_iff_prefix.mp hp).isInfix
    have hcs : ¬ old <:+: cs := fun hi => h (List.infix_cons hi)
    simp only [strings.replaceFrom, hp, Bool.false_eq_true, if_false, ih hcs]

theorem replaceFrom_length_skip (old : List Char) :
    ∀ (s : List Char) (k : Nat), k ≤ s.length →
      (strings.replaceFrom old [] k s).length + k ≤ s.length := by
  intro s
  induction s with
  | nil => intro k hk; cases k <;> simp [strings.replaceFrom] at hk ⊢
  | cons c cs ih =>
    intro k hk
    cases k with
    | succ k =>
      have := ih k (by simpa using hk)
      simp only [strings.replaceFrom, List.length_cons]
      omega
    | zero =>
      by_cases hp : old.isPrefixOf (c :: cs) = true
      · have hlen := (List.isPrefixOf_iff_prefix.mp hp).length_le
        simp only [List.length_cons] at hlen
        have := ih (old.length - 1) (by omega)
        simp only [strings.replaceFrom, hp, if_true, List.nil_append, List.length_cons]
        omega
      · have := ih 0 (Nat.zero_le _)
        simp only [strings.replaceFrom, hp, Bool.false_eq_true, if_false, List.length_cons]
        omega

/-- Deleting the instances of a non-empty `old` that occurs in `s` shortens `s` by at least
the length of `old`. -/
theorem replaceFrom_length_of_infix (old : List Char) (hold : old ≠ []) :
    ∀ s : List Char, old <:+: s →
      (strings.replaceFrom old [] 0 s).length + old.length ≤ s.length := by
  intro s
  induction s with
  | nil =>
    intro h
    exact (hold (List.eq_nil_of_infix_nil h)).elim
  | cons c cs ih =>
    intro h
    by_cases hp : old.isPrefixOf (c :: cs) = true
    · have hlen := (List.isPrefixOf_iff_prefix.mp hp).length_le
      simp only [List.length_cons] at hlen
      have := replaceFrom_length_skip old cs (old.length - 1) (by omega)
      have hpos : 0 < old.length := List.length_pos.mpr hold
      simp only [strings.replaceFrom, hp, if_true, List.nil_append, List.length_cons]
      omega
    · have hcs : old <:+: cs := by
        rcases List.infix_cons_iff.mp h with h1 | h1
        · exact (hp (List.isPrefixOf_iff_prefix.mpr h1)).elim
        · exact h1
      have := ih hcs
      simp only [strings.replaceFrom, hp, Bool.false_eq_true, if_false, List.length_cons]
      omega

theorem intercalate_length_cons (sep x : List Char) (l : List (List Char)) :
    (List.intercalate sep (x :: l)).length ≤
      x.length + sep.length + (List.intercalate sep l).length := by
  cases l with
  | nil => rw [intercalate_single]; omega
  | cons y l => rw [intercalate_cons_cons]; simp only [List.length_append]; omega

theorem fieldsFrom_join_length (s : List Char) : ∀ cur : List Char,
    (List.intercalate " ".toList (strings.fieldsFrom cur s)).length ≤ cur.length + s.length := by
  induction s with
  | nil =>
    intro cur
    cases cur with
    | nil => simp [strings.fieldsFrom, List.intercalate, List.intersperse]
    | cons x xs => simp [strings.fieldsFrom, List.intercalate, List.intersperse]
  | cons c cs ih =>
    intro cur
    by_cases hc : strings.isSpace c = true
    · cases cur with
      | nil =>
        have := ih []
        simp only [strings.fieldsFrom, hc, if_true, List.isEmpty_nil, List.length_nil,
          List.length_cons] at this ⊢
        omega
      | cons x xs =>
        have h1 := ih []
        have h2 := intercalate_length_cons " ".toList (x :: xs) (strings.fieldsFrom [] cs)
        have h3 : " ".toList.length = 1 := rfl
        simp only [strings.fieldsFrom, hc, if_true, List.isEmpty_cons, Bool.false_eq_true,
          if_false, List.length_cons, List.length_nil] at h1 h2 ⊢
        omega
    · have := ih (cur ++ [c])
      simp only [strings.fieldsFrom, hc, Bool.false_eq_true, if_false, List.length_append,
        List.length_cons, List.length_nil] at this ⊢
      omega

theorem fieldsFrom_append_field (f : List Char) (hf : ∀ c ∈ f, strings.isSpace c = false) :
    ∀ cur rest : List Char,
      strings.fieldsFrom cur (f ++ rest) = strings.fieldsFrom (cur ++ f) rest := by
  induction f with
  | nil => intro cur rest; simp
  | cons x xs ih =>
    intro cur rest
    have hx := hf x (List.mem_cons_self _ _)
    have := ih (fun c hc => hf c (List.mem_cons_of_mem _ hc)) (cur ++ [x]) rest
    simp only [List.cons_append, strings.fieldsFrom, hx, Bool.false_eq_true, if_false]
    exact this.trans (by simp)

/-- Splitting fields joined by single spaces (and followed by one more space) gives the
fields back. -/
theorem Fields_intercalate (fs : List (List Char)) (h : Spec.FieldList fs) :
    strings.Fields (List.intercalate " ".toList fs ++ " ".toList) = fs := by
  induction fs with
  | nil =>
    simp [strings.Fields, strings.fieldsFrom, List.intercalate, List.intersperse,
      isSpace_space]
  | cons f rest ih =>
    obtain ⟨hne, hf⟩ := h f (List.mem_cons_self _ _)
    have hemp : f.isEmpty = false := by cases f <;> simp at hne ⊢
    cases rest with
    | nil =>
      rw [intercalate_single, strings.Fields, fieldsFrom_append_field f hf]
      show strings.fieldsFrom ([] ++ f) (' ' :: []) = [f]
      simp [strings.fieldsFrom, isSpace_space, hemp]
    | cons g rest =>
      have hrest : Spec.FieldList (g :: rest) := fun x hx => h x (List.mem_cons_of_mem _ hx)
      have ih' := ih hrest
      rw [strings.Fields] at ih' ⊢
      rw [intercalate_cons_cons, List.append_assoc, List.append_assoc,
        fieldsFrom_append_field f hf]
      show strings.fieldsFrom ([] ++ f)
        (' ' :: (List.intercalate " ".toList (g :: rest) ++ " ".toList)) = f :: g :: rest
      simp only [List.nil_append, strings.fieldsFrom, isSpace_space, if_true, hemp,
        Bool.false_eq_true, if_false, ih']

/-- A literal that does not end in a space occurs in `q ++ " "` only if it occurs in `q`. -/
theorem infix_append_space (tok q : List Char) (c : Char) (hc : tok.getLast? = some c)
    (hne : c ≠ ' ') (h : tok <:+: q ++ " ".toList) : tok <:+: q := by
  have h2 : q ++ " ".toList = q ++ [' '] := rfl
  rw [h2, List.infix_concat_iff] at h
  rcases h with ⟨r, hr⟩ | h
  · have := congrArg List.getLast? hr
    rw [List.getLast?_append, hc] at this
    simp at this
    exact (hne this).elim
  · exact h

/-- The query built from a query `q` that is already a list of fields joined by single
spaces and contains none of the three markers is `q` itself. -/
theorem buildSearchQuery_of_clean (fs : List (List Char)) (h : Spec.FieldList fs)
    (h1 : ¬ "ft.".toList <:+: List.intercalate " ".toList fs)
    (h2 : ¬ "feat.".toList <:+: List.intercalate " ".toList fs)
    (h3 : ¬ "featuring".toList <:+: List.intercalate " ".toList fs) :
    buildSearchQuery { Artist := List.intercalate " ".toList fs, Name := [] }
      = List.intercalate " ".toList fs := by
  have g1 := replaceFrom_of_not_infix "ft.".toList [] _
    (fun hi => h1 (infix_append_space _ _ '.' rfl (by decide) hi))
  have g2 := replaceFrom_of_not_infix "feat.".toList [] _
    (fun hi => h2 (infix_append_space _ _ '.' rfl (by decide) hi))
  have g3 := replaceFrom_of_not_infix "featuring".toList [] _
    (fun hi => h3 (infix_append_space _ _ 'g' rfl (by decide) hi))
  have r1 : ∀ s, strings.ReplaceAll s "ft.".toList [] = strings.replaceFrom "ft.".toList [] 0 s :=
    fun _ => rfl
  have r2 : ∀ s, strings.ReplaceAll s "feat.".toList []
      = strings.replaceFrom "feat.".toList [] 0 s := fun _ => rfl
  have r3 : ∀ s, strings.ReplaceAll s "featuring".toList []
      = strings.replaceFrom "featuring".toList [] 0 s := fun _ => rfl
  simp only [buildSearchQuery, List.append_nil, r1, r2, r3, g1, g2, g3]
  rw [Fields_intercalate fs h, Join_eq_intercalate]

/-- The query built from a query `q` in which one of the three markers occurs is strictly
shorter than `q`. -/
theorem buildSearchQuery_length_lt (q : List Char)
    (h : "ft.".toList <:+: q ∨ "feat.".toList <:+: q ∨ "featuring".toList <:+: q) :
    (buildSearchQuery { Artist := q, Name := [] }).length < q.length := by
  have r1 : ∀ s, strings.ReplaceAll s "ft.".toList [] = strings.replaceFrom "ft.".toList [] 0 s :=
    fun _ => rfl
  have r2 : ∀ s, strings.ReplaceAll s "feat.".toList []
      = strings.replaceFrom "feat.".toList [] 0 s := fun _ => rfl
  have r3 : ∀ s, strings.ReplaceAll s "featuring".toList []
      = strings.replaceFrom "featuring".toList [] 0 s := fun _ => rfl
  have l1 := fun s => replaceFrom_length_skip "ft.".toList s 0 (Nat.zero_le _)
  have l2 := fun s => replaceFrom_length_skip "feat.".toList s 0 (Nat.zero_le _)
  have l3 := fun s => replaceFrom_length_skip "featuring".toList s 0 (Nat.zero_le _)
  have lj : ∀ s, (strings.Join (strings.Fields s) " ".toList).length ≤ s.length := by
    intro s
    rw [Join_eq_intercalate]
    simpa using fieldsFrom_join_length s []
  have hs0 : (q ++ " ".toList).length = q.length + 1 := by simp
  have hsub : ∀ tok : List Char, tok <:+: q → tok <:+: q ++ " ".toList :=
    fun tok ht => ht.trans (List.infix_append' [] q " ".toList)
  simp only [buildSearchQuery, List.append_nil, r1, r2, r3]
  have a1 := l1 (q ++ " ".toList)
  have a2 := l2 (strings.replaceFrom "ft.".toList [] 0 (q ++ " ".toList))
  have a3 := l3 (strings.replaceFrom "feat.".toList [] 0
    (strings.replaceFrom "ft.".toList [] 0 (q ++ " ".toList)))
  have a4 := lj (strings.replaceFrom "featuring".toList [] 0
    (strings.replaceFrom "feat.".toList [] 0
      (strings.replaceFrom "ft.".toList [] 0 (q ++ " ".toList))))
  by_cases c1 : "ft.".toList <:+: q
  · have b := replaceFrom_length_of_infix "ft.".toList (by decide) _ (hsub _ c1)
    have : "ft.".toList.length = 3 := rfl
    omega
  · have e1 := replaceFrom_of_not_infix "ft.".toList [] _
      (fun hi => c1 (infix_append_space _ _ '.' rfl (by decide) hi))
    rw [e1] at a2 a3 a4 ⊢
    by_cases c2 : "feat.".toList <:+: q
    · have b := replaceFrom_length_of_infix "feat.".toList (by decide) _ (hsub _ c2)
      have : "feat.".toList.length = 5 := rfl
      omega
    · have e2 := replaceFrom_of_not_infix "feat.".toList [] _
        (fun hi => c2 (infix_append_space _ _ '.' rfl (by decide) hi))
      rw [e2] at a3 a4 ⊢
      have c3 : "featuring".toList <:+: q := by tauto
      have b := replaceFrom_length_of_infix "featuring".toList (by decide) _ (hsub _ c3)
      have : "featuring".toList.length = 9 := rfl
      omega

/-- C2, counterexample: the track with artist `fft.t.` and name `x` gives the query `ft. x`
(the deletion of `ft.` leaves a new `ft.` behind), and the query built from that query as
artist with an empty name is `x`, not `ft. x`. -/
theorem buildSearchQuery_rewrap_counterexample :
    buildSearchQuery { Artist := "fft.t.".toList, Name := "x".toList } = "ft. x".toList
      ∧ buildSearchQuery
          { Artist := buildSearchQuery { Artist := "fft.t.".toList, Name := "x".toList },
            Name := [] } = "x".toList
      ∧ buildSearchQuery
          { Artist := buildSearchQuery { Artist := "fft.t.".toList, Name := "x".toList },
            Name := [] }
        ≠ buildSearchQuery { Artist := "fft.t.".toList, Name := "x".toList } := by
  decide

/-- C2 (amended): for every track `t` with `q = buildSearchQuery t`, the query built from
the track with artist `q` and empty name equals `q` if and only if none of the literals
`ft.`, `feat.`, `featuring` occurs in `q`. -/
theorem buildSearchQuery_rewrap (t : Track) :
    buildSearchQuery { Artist := buildSearchQuery t, Name := [] } = buildSearchQuery t
      ↔ (¬ "ft.".toList <:+: buildSearchQuery t
          ∧ ¬ "feat.".toList <:+: buildSearchQuery t
          ∧ ¬ "featuring".toList <:+: buildSearchQuery t) := by
  constructor
  · intro heq
    by_contra hcon
    have hor : "ft.".toList <:+: buildSearchQuery t ∨ "feat.".toList <:+: buildSearchQuery t
        ∨ "featuring".toList <:+: buildSearchQuery t := by tauto
    have := buildSearchQuery_length_lt (buildSearchQuery t) hor
    rw [heq] at this
    exact Nat.lt_irrefl _ this
  · rintro ⟨h1, h2, h3⟩
    have hj : buildSearchQuery t = List.intercalate " ".toList (strings.Fields
        (strings.ReplaceAll (strings.ReplaceAll (strings.ReplaceAll
          (t.Artist ++ " ".toList ++ t.Name) "ft.".toList []) "feat.".toList [])
          "featuring".toList [])) := by
      rw [← Join_eq_intercalate]; rfl
    rw [hj] at h1 h2 h3 ⊢
    exact buildSearchQuery_of_clean _ (Fields_fieldList _) h1 h2 h3

/-- C2 (amended), at the track ("Ed Sheeran ft. Justin Bieber", "I Don't Care"): its query
contains none of the markers, so re-wrapping the query gives the query back. -/
theorem buildSearchQuery_rewrap_witness :
    buildSearchQuery
        { Artist := buildSearchQuery
            { Artist := "Ed Sheeran ft. Justin Bieber".toList, Name := "I Don't Care".toList },
          Name := [] }
      = buildSearchQuery
          { Artist := "Ed Sheeran ft. Justin Bieber".toList, Name := "I Don't Care".toList } :=
  (buildSearchQuery_rewrap
    { Artist := "Ed Sheeran ft. Justin Bieber".toList, Name := "I Don't Care".toList }).mpr
    (by decide)

/-! ## Match selector: theorems -/

/-- The model of `strings.Contains` decides the substring relation. -/
theorem Contains_iff (s substr : List Char) :
    strings.Contains s substr = true ↔ substr <:+: s := by
  induction s with
  | nil => simp [strings.Contains, List.infix_nil]
  | cons c cs ih =>
    simp only [strings.Contains, Bool.or_eq_true, ih, List.isPrefixOf_iff_prefix,
      List.infix_cons_iff]

/-- The loop of `findBestMatch` either returns the first video whose lower-cased title
contains the lower-cased track name, or ends without returning when there is none; the
artist plays no part. -/
theorem findBestMatchLoop_spec (tbl : Char → Char) (name artist : List Char) :
    ∀ vs : List YouTubeVideo,
      (∃ pre v post, vs = pre ++ v :: post
          ∧ findBestMatchLoop tbl name artist vs = some v
          ∧ name <:+: strings.ToLower tbl v.Title
          ∧ ∀ u ∈ pre, ¬ name <:+: strings.ToLower tbl u.Title)
      ∨ (findBestMatchLoop tbl name artist vs = none
          ∧ ∀ u ∈ vs, ¬ name <:+: strings.ToLower tbl u.Title) := by
  intro vs
  induction vs with
  | nil => right; exact ⟨rfl, by simp⟩
  | cons v rest ih =>
    by_cases hv : strings.Contains (strings.ToLower tbl v.Title) name = true
    · left
      refine ⟨[], v, rest, rfl, ?_, (Contains_iff _ _).mp hv, by simp⟩
      simp only [findBestMatchLoop, hv, Bool.true_and, if_true]
      split <;> rfl
    · have hnot : ¬ name <:+: strings.ToLower tbl v.Title :=
        fun h => hv ((Contains_iff _ _).mpr h)
      have hstep : findBestMatchLoop tbl name artist (v :: rest)
          = findBestMatchLoop tbl name artist rest := by
        simp only [findBestMatchLoop, hv, Bool.false_and, Bool.false_eq_true, if_false]
      rcases ih with ⟨pre, w, post, hsplit, hres, hw, hpre⟩ | ⟨hres, hall⟩
      · left
        refine ⟨v :: pre, w, post, by rw [hsplit]; rfl, by rw [hstep, hres], hw, ?_⟩
        intro u hu
        rcases List.mem_cons.mp hu with rfl | hu
        · exact hnot
        · exact hpre u hu
      · right
        refine ⟨by rw [hstep, hres], ?_⟩
        intro u hu
        rcases List.mem_cons.mp hu with rfl | hu
        · exact hnot
        · exact hall u hu

theorem findBestMatch_cons (tbl : Char → Char) (t : Track) (v : YouTubeVideo)
    (vs : List YouTubeVideo) :
    findBestMatch tbl t (v :: vs) =
      match findBestMatchLoop tbl (strings.ToLower tbl t.Name) (strings.ToLower tbl t.Artist)
        (v :: vs) with
      | some video => some video
      | none => some v := by
  simp only [findBestMatch, List.length_cons, Nat.add_one_ne_zero, if_false, List.head?_cons]

/-- C3: `findBestMatch` returns `nil` exactly when the candidate list is empty, and for a
non-empty list the returned video is an element of the list. -/
theorem findBestMatch_none_iff (tbl : Char → Char) (t : Track) (C : List YouTubeVideo) :
    (findBestMatch tbl t C = none ↔ C = [])
      ∧ (C ≠ [] → ∃ v ∈ C, findBestMatch tbl t C = some v) := by
  cases C with
  | nil => exact ⟨by simp [findBestMatch], fun h => (h rfl).elim⟩
  | cons v vs =>
    have hmem : ∃ w ∈ v :: vs, findBestMatch tbl t (v :: vs) = some w := by
      rw [findBestMatch_cons]
      rcases findBestMatchLoop_spec tbl (strings.ToLower tbl t.Name)
        (strings.ToLower tbl t.Artist) (v :: vs) with ⟨pre, w, post, hsplit, hres, -, -⟩
          | ⟨hres, -⟩
      · rw [hres]
        exact ⟨w, by rw [hsplit]; simp, rfl⟩
      · rw [hres]
        exact ⟨v, List.mem_cons_self _ _, rfl⟩
    refine ⟨?_, fun _ => hmem⟩
    obtain ⟨w, -, hw⟩ := hmem
    simp [hw]

/-- C3, at the "Perfect match" input of `TestFindBestMatch`. -/
theorem findBestMatch_none_iff_witness :
    ∃ v ∈ [({ ID := "1".toList,
              Title := "Ed Sheeran - Shape of You (Official Music Video)".toList }
              : YouTubeVideo),
           { ID := "2".toList, Title := "Some Other Song".toList }],
      findBestMatch id { Name := "Shape of You".toList, Artist := "Ed Sheeran".toList }
        [{ ID := "1".toList, Title := "Ed Sheeran - Shape of You (Official Music Video)".toList },
         { ID := "2".toList, Title := "Some Other Song".toList }] = some v :=
  (findBestMatch_none_iff id { Name := "Shape of You".toList, Artist := "Ed Sheeran".toList }
    [{ ID := "1".toList, Title := "Ed Sheeran - Shape of You (Official Music Video)".toList },
     { ID := "2".toList, Title := "Some Other Song".toList }]).2 (by decide)

/-- C4, counterexample: for the track ("Shape of You", "Ed Sheeran") and the single
candidate "Completely Different Song" the returned video is that candidate, whose
lower-cased title does not contain the lower-cased track name: it satisfies neither rule. -/
theorem findBestMatch_first_hit_counterexample :
    findBestMatch id { Name := "Shape of You".toList, Artist := "Ed Sheeran".toList }
        [{ ID := "1".toList, Title := "Completely Different Song".toList }]
      = some { ID := "1".toList, Title := "Completely Different Song".toList }
    ∧ ¬ strings.ToLower id "Shape of You".toList
        <:+: strings.ToLower id "Completely Different Song".toList := by
  decide

/-- C4 (amended): whenever some candidate satisfies rule 1 (title contains name and artist)
or rule 2 (title contains the name), `findBestMatch` returns the first candidate in input
order that satisfies rule 1 or rule 2; the candidates before it satisfy neither rule. -/
theorem findBestMatch_first_hit (tbl : Char → Char) (t : Track) (C : List YouTubeVideo)
    (h : ∃ u ∈ C,
      (strings.ToLower tbl t.Name <:+: strings.ToLower tbl u.Title
          ∧ strings.ToLower tbl t.Artist <:+: strings.ToLower tbl u.Title)
        ∨ strings.ToLower tbl t.Name <:+: strings.ToLower tbl u.Title) :
    ∃ pre v post, C = pre ++ v :: post
      ∧ findBestMatch tbl t C = some v
      ∧ ((strings.ToLower tbl t.Name <:+: strings.ToLower tbl v.Title
            ∧ strings.ToLower tbl t.Artist <:+: strings.ToLower tbl v.Title)
          ∨ strings.ToLower tbl t.Name <:+: strings.ToLower tbl v.Title)
      ∧ ∀ u ∈ pre,
          ¬ (strings.ToLower tbl t.Name <:+: strings.ToLower tbl u.Title
              ∧ strings.ToLower tbl t.Artist <:+: strings.ToLower tbl u.Title)
          ∧ ¬ strings.ToLower tbl t.Name <:+: strings.ToLower tbl u.Title := by
  obtain ⟨u, hu, hrule⟩ := h
  have hname : strings.ToLower tbl t.Name <:+: strings.ToLower tbl u.Title := by
    rcases hrule with h1 | h2
    · exact h1.1
    · exact h2
  cases C with
  | nil => simp at hu
  | cons c cs =>
    rcases findBestMatchLoop_spec tbl (strings.ToLower tbl t.Name)
      (strings.ToLower tbl t.Artist) (c :: cs) with ⟨pre, w, post, hsplit, hres, hw, hpre⟩
        | ⟨-, hall⟩
    · refine ⟨pre, w, post, hsplit, ?_, Or.inr hw, ?_⟩
      · rw [findBestMatch_cons, hres]
      · intro x hx
        exact ⟨fun hboth => hpre x hx hboth.1, hpre x hx⟩
    · exact (hall u hu hname).elim

/-- C4 (amended), at the "Partial match" input of `TestFindBestMatch`. -/
theorem findBestMatch_first_hit_witness :
    ∃ pre v post,
      [({ ID := "1".toList, Title := "Shape of You - Ed Sheeran Cover".toList }
          : YouTubeVideo)] = pre ++ v :: post
      ∧ findBestMatch id { Name := "Shape of You".toList, Artist := "Ed Sheeran".toList }
          [{ ID := "1".toList, Title := "Shape of You - Ed Sheeran Cover".toList }] = some v
      ∧ ((strings.ToLower id "Shape of You".toList <:+: strings.ToLower id v.Title
            ∧ strings.ToLower id "Ed Sheeran".toList <:+: strings.ToLower id v.Title)
          ∨ strings.ToLower id "Shape of You".toList <:+: strings.ToLower id v.Title)
      ∧ ∀ u ∈ pre,
          ¬ (strings.ToLower id "Shape of You".toList <:+: strings.ToLower id u.Title
              ∧ strings.ToLower id "Ed Sheeran".toList <:+: strings.ToLower id u.Title)
          ∧ ¬ strings.ToLower id "Shape of You".toList <:+: strings.ToLower id u.Title :=
  findBestMatch_first_hit id { Name := "Shape of You".toList, Artist := "Ed Sheeran".toList }
    [{ ID := "1".toList, Title := "Shape of You - Ed Sheeran Cover".toList }]
    ⟨{ ID := "1".toList, Title := "Shape of You - Ed Sheeran Cover".toList },
      List.mem_cons_self _ _, Or.inr (by decide)⟩

/-- C5, counterexample: for the track ("Shape of You", "Ed Sheeran") and the candidates
"Shape of You - Cover", "Ed Sheeran - Shape of You (Official Video)" the second title
contains both name and artist, yet the first candidate is returned, and its title does not
contain the artist. -/
theorem findBestMatch_precedence_counterexample :
    (strings.ToLower id "Shape of You".toList
        <:+: strings.ToLower id "Ed Sheeran - Shape of You (Official Video)".toList
      ∧ strings.ToLower id "Ed Sheeran".toList
        <:+: strings.ToLower id "Ed Sheeran - Shape of You (Official Video)".toList)
    ∧ findBestMatch id { Name := "Shape of You".toList, Artist := "Ed Sheeran".toList }
        [{ ID := "1".toList, Title := "Shape of You - Cover".toList },
         { ID := "2".toList, Title := "Ed Sheeran - Shape of You (Official Video)".toList }]
      = some { ID := "1".toList, Title := "Shape of You - Cover".toList }
    ∧ ¬ strings.ToLower id "Ed Sheeran".toList
        <:+: strings.ToLower id "Shape of You - Cover".toList := by
  decide

/-- C5 (amended): when some candidate's lower-cased title contains both the lower-cased
track name and the lower-cased artist and no earlier candidate's title contains the name,
`findBestMatch` returns that candidate, even when later candidates match the name alone. -/
theorem findBestMatch_precedence (tbl : Char → Char) (t : Track)
    (pre : List YouTubeVideo) (v : YouTubeVideo) (post : List YouTubeVideo)
    (hname : strings.ToLower tbl t.Name <:+: strings.ToLower tbl v.Title)
    (hartist : strings.ToLower tbl t.Artist <:+: strings.ToLower tbl v.Title)
    (hpre : ∀ u ∈ pre, ¬ strings.ToLower tbl t.Name <:+: strings.ToLower tbl u.Title) :
    findBestMatch tbl t (pre ++ v :: post) = some v
      ∧ strings.ToLower tbl t.Name <:+: strings.ToLower tbl v.Title
      ∧ strings.ToLower tbl t.Artist <:+: strings.ToLower tbl v.Title := by
  refine ⟨?_, hname, hartist⟩
  have hloop : findBestMatchLoop tbl (strings.ToLower tbl t.Name)
      (strings.ToLower tbl t.Artist) (pre ++ v :: post) = some v := by
    induction pre with
    | nil =>
      have h1 := (Contains_iff _ _).mpr hname
      have h2 := (Contains_iff _ _).mpr hartist
      simp only [List.nil_append, findBestMatchLoop, h1, h2, Bool.and_self, if_true]
    | cons u us ih =>
      have hu : strings.Contains (strings.ToLower tbl u.Title) (strings.ToLower tbl t.Name)
          = false := by
        rw [Bool.eq_false_iff]
        exact fun h => hpre u (List.mem_cons_self _ _) ((Contains_iff _ _).mp h)
      simp only [List.cons_append, findBestMatchLoop, hu, Bool.false_and, Bool.false_eq_true,
        if_false]
      exact ih (fun x hx => hpre x (List.mem_cons_of_mem _ hx))
  cases pre with
  | nil =>
    rw [List.nil_append] at hloop ⊢
    rw [findBestMatch_cons, hloop]
  | cons u us =>
    rw [List.cons_append] at hloop ⊢
    rw [findBestMatch_cons, hloop]

/-- C5 (amended), at the witness of the specification: track ("Shape of You", "Ed Sheeran")
against "Ed Sheeran - Shape of You (Official Video)", "Shape of You - Cover" returns the
first candidate. -/
theorem findBestMatch_precedence_witness :
    findBestMatch id { Name := "Shape of You".toList, Artist := "Ed Sheeran".toList }
        ([] ++ { ID := "1".toList,
                 Title := "Ed Sheeran - Shape of You (Official Video)".toList }
          :: [{ ID := "2".toList, Title := "Shape of You - Cover".toList }])
      = some { ID := "1".toList, Title := "Ed Sheeran - Shape of You (Official Video)".toList } :=
  (findBestMatch_precedence id
    { Name := "Shape of You".toList, Artist := "Ed Sheeran".toList } []
    { ID := "1".toList, Title := "Ed Sheeran - Shape of You (Official Video)".toList }
    [{ ID := "2".toList, Title := "Shape of You - Cover".toList }]
    (by decide) (by decide) (by simp)).1

/-- C6: positional fallback.  For a non-empty candidate list in which no candidate's
lower-cased title contains the lower-cased track name, `findBestMatch` returns the first
candidate, not `nil`. -/
theorem findBestMatch_fallback (tbl : Char → Char) (t : Track) (v : YouTubeVideo)
    (vs : List YouTubeVideo)
    (h : ∀ u ∈ v :: vs, ¬ strings.ToLower tbl t.Name <:+: strings.ToLower tbl u.Title) :
    findBestMatch tbl t (v :: vs) = some v ∧ findBestMatch tbl t (v :: vs) ≠ none := by
  have hres : findBestMatch tbl t (v :: vs) = some v := by
    rw [findBestMatch_cons]
    rcases findBestMatchLoop_spec tbl (strings.ToLower tbl t.Name)
      (strings.ToLower tbl t.Artist) (v :: vs) with ⟨pre, w, post, hsplit, -, hw, -⟩
        | ⟨hnone, -⟩
    · exact (h w (by rw [hsplit]; simp) hw).elim
    · rw [hnone]
  exact ⟨hres, by rw [hres]; simp⟩

/-- C6, at the witness of the specification: track ("Shape of You", "Ed Sheeran") against
the single candidate "Completely Different Song" returns that candidate. -/
theorem findBestMatch_fallback_witness :
    findBestMatch id { Name := "Shape of You".toList, Artist := "Ed Sheeran".toList }
        [{ ID := "1".toList, Title := "Completely Different Song".toList }]
      = some { ID := "1".toList, Title := "Completely Different Song".toList } :=
  (findBestMatch_fallback id { Name := "Shape of You".toList, Artist := "Ed Sheeran".toList }
    { ID := "1".toList, Title := "Completely Different Song".toList } []
    (by decide)).1

/-- C7: on the "No match" input of `TestFindBestMatch` (track ("Shape of You",
"Ed Sheeran"), one video "Completely Different Song", no title containing the name) the
code returns the video, where the test expects `nil`. -/
theorem findBestMatch_no_match_test :
    (∀ u ∈ [({ ID := "1".toList, Title := "Completely Different Song".toList }
              : YouTubeVideo)],
        ¬ strings.ToLower id "Shape of You".toList <:+: strings.ToLower id u.Title)
    ∧ findBestMatch id { Name := "Shape of You".toList, Artist := "Ed Sheeran".toList }
        [{ ID := "1".toList, Title := "Completely Different Song".toList }] ≠ none := by
  decide

/-- C8: on the inputs of `TestBuildSearchQuery` with `ft.` and `feat.` the code returns the
names separated by single spaces, where the test expects two spaces in place of the deleted
marker. -/
theorem buildSearchQuery_test_inputs :
    buildSearchQuery
        { Artist := "Ed Sheeran ft. Justin Bieber".toList, Name := "I Don't Care".toList }
      = "Ed Sheeran Justin Bieber I Don't Care".toList
    ∧ buildSearchQuery
        { Artist := "Ed Sheeran ft. Justin Bieber".toList, Name := "I Don't Care".toList }
      ≠ "Ed Sheeran  Justin Bieber I Don't Care".toList
    ∧ buildSearchQuery
        { Artist := "Ariana Grande feat. Nicki Minaj".toList, Name := "Side to Side".toList }
      = "Ariana Grande Nicki Minaj Side to Side".toList
    ∧ buildSearchQuery
        { Artist := "Ariana Grande feat. Nicki Minaj".toList, Name := "Side to Side".toList }
      ≠ "Ariana Grande  Nicki Minaj Side to Side".toList := by
  decide

/-! ## Markup extractor: theorems -/

theorem greedyStar_sound (p : Char → Bool)
    (k : List Char → List Char → Option (List Char × List Char)) (g : Bool) :
    ∀ (s cap : List Char) (r : List Char × List Char),
      regexp.greedyStar p k g cap s = some r →
      ∃ run s1, (∀ c ∈ run, p c = true) ∧ s = run ++ s1
        ∧ k (regexp.pushAll g cap run) s1 = some r := by
  intro s
  induction s with
  | nil =>
    intro cap r h
    exact ⟨[], [], by simp, rfl, by simpa [regexp.greedyStar, regexp.pushAll] using h⟩
  | cons c cs ih =>
    intro cap r h
    have hk : k cap (c :: cs) = some r →
        ∃ run s1, (∀ x ∈ run, p x = true) ∧ c :: cs = run ++ s1
          ∧ k (regexp.pushAll g cap run) s1 = some r :=
      fun hk => ⟨[], c :: cs, by simp, rfl, by simpa [regexp.pushAll] using hk⟩
    by_cases hp : p c = true
    · simp only [regexp.greedyStar, hp, if_true] at h
      cases hrec : regexp.greedyStar p k g (regexp.push g cap c) cs with
      | some r1 =>
        rw [hrec] at h
        simp only [Option.some.injEq] at h
        subst h
        obtain ⟨run, s1, hrun, hs, hkr⟩ := ih _ _ hrec
        refine ⟨c :: run, s1, ?_, by rw [hs]; rfl, ?_⟩
        · intro x hx
          rcases List.mem_cons.mp hx with rfl | hx
          · exact hp
          · exact hrun x hx
        · have : regexp.pushAll g cap (c :: run)
              = regexp.pushAll g (regexp.push g cap c) run := by
            cases g <;> simp [regexp.pushAll, regexp.push]
          rw [this]; exact hkr
      | none =>
        rw [hrec] at h
        exact hk h
    · simp only [regexp.greedyStar, hp, Bool.false_eq_true, if_false] at h
      exact hk h

theorem lazyStar_sound (p : Char → Bool)
    (k : List Char → List Char → Option (List Char × List Char)) (g : Bool) :
    ∀ (s cap : List Char) (r : List Char × List Char),
      regexp.lazyStar p k g cap s = some r →
      ∃ run s1, (∀ c ∈ run, p c = true) ∧ s = run ++ s1
        ∧ k (regexp.pushAll g cap run) s1 = some r := by
  intro s
  induction s with
  | nil =>
    intro cap r h
    exact ⟨[], [], by simp, rfl, by simpa [regexp.lazyStar, regexp.pushAll] using h⟩
  | cons c cs ih =>
    intro cap r h
    simp only [regexp.lazyStar] at h
    cases hk : k cap (c :: cs) with
    | some r1 =>
      rw [hk] at h
      simp only [Option.some.injEq] at h
      subst h
      exact ⟨[], c :: cs, by simp, rfl, by simpa [regexp.pushAll] using hk⟩
    | none =>
      rw [hk] at h
      by_cases hp : p c = true
      · simp only [hp, if_true] at h
        obtain ⟨run, s1, hrun, hs, hkr⟩ := ih _ _ h
        refine ⟨c :: run, s1, ?_, by rw [hs]; rfl, ?_⟩
        · intro x hx
          rcases List.mem_cons.mp hx with rfl | hx
          · exact hp
          · exact hrun x hx
        · have : regexp.pushAll g cap (c :: run)
              = regexp.pushAll g (regexp.push g cap c) run := by
            cases g <;> simp [regexp.pushAll, regexp.push]
          rw [this]; exact hkr
      · simp [hp] at h

/-- Soundness of the matcher: a successful match consumes a prefix of the input and leaves a
capture allowed by the declarative reading of the pattern. -/
theorem matchAtoms_sound : ∀ (re : List regexp.Atom) (g : Bool) (cap s : List Char)
    (r : List Char × List Char), regexp.matchAtoms re g cap s = some r →
      regexp.Captures re g cap r.1 ∧ ∃ consumed, s = consumed ++ r.2 := by
  intro re
  induction re with
  | nil =>
    intro g cap s r h
    simp only [regexp.matchAtoms, Option.some.injEq] at h
    subst h
    exact ⟨rfl, [], rfl⟩
  | cons a rest ih =>
    intro g cap s r h
    cases a with
    | one p =>
      cases s with
      | nil => simp [regexp.matchAtoms] at h
      | cons c cs =>
        by_cases hp : p c = true
        · simp only [regexp.matchAtoms, hp, if_true] at h
          obtain ⟨h1, consumed, h2⟩ := ih _ _ _ _ h
          exact ⟨⟨c, hp, h1⟩, c :: consumed, by rw [h2]; rfl⟩
        · simp [regexp.matchAtoms, hp] at h
    | star p =>
      simp only [regexp.matchAtoms] at h
      obtain ⟨run, s1, hrun, hs, hk⟩ := greedyStar_sound p _ g s cap r h
      obtain ⟨h1, consumed, h2⟩ := ih _ _ _ _ hk
      exact ⟨⟨run, hrun, h1⟩, run ++ consumed, by rw [hs, h2, List.append_assoc]⟩
    | plus p =>
      cases s with
      | nil => simp [regexp.matchAtoms] at h
      | cons c cs =>
        by_cases hp : p c = true
        · simp only [regexp.matchAtoms, hp, if_true] at h
          obtain ⟨run, s1, hrun, hs, hk⟩ := greedyStar_sound p _ g cs _ r h
          obtain ⟨h1, consumed, h2⟩ := ih _ _ _ _ hk
          refine ⟨⟨c, run, hp, hrun, ?_⟩, c :: (run ++ consumed), ?_⟩
          · have : regexp.pushAll g cap (c :: run)
                = regexp.pushAll g (regexp.push g cap c) run := by
              cases g <;> simp [regexp.pushAll, regexp.push]
            rw [this]; exact h1
          · rw [hs, h2]; simp
        · simp [regexp.matchAtoms, hp] at h
    | lazyStar p =>
      simp only [regexp.matchAtoms] at h
      obtain ⟨run, s1, hrun, hs, hk⟩ := lazyStar_sound p _ g s cap r h
      obtain ⟨h1, consumed, h2⟩ := ih _ _ _ _ hk
      exact ⟨⟨run, hrun, h1⟩, run ++ consumed, by rw [hs, h2, List.append_assoc]⟩
    | openGroup =>
      simp only [regexp.matchAtoms] at h
      obtain ⟨h1, h2⟩ := ih _ _ _ _ h
      exact ⟨h1, h2⟩
    | closeGroup =>
      simp only [regexp.matchAtoms] at h
      obtain ⟨h1, h2⟩ := ih _ _ _ _ h
      exact ⟨h1, h2⟩

/-- Outside the capture group, atoms that are not brackets leave the capture unchanged. -/
theorem Captures_skip : ∀ (pre rest : List regexp.Atom) (cap out : List Char),
    pre.all (fun a => !a.isBracket) = true →
    regexp.Captures (pre ++ rest) false cap out → regexp.Captures rest false cap out := by
  intro pre
  induction pre with
  | nil => intro rest cap out _ h; exact h
  | cons a pre ih =>
    intro rest cap out hall h
    simp only [List.all_cons, Bool.and_eq_true] at hall
    obtain ⟨ha, hpre⟩ := hall
    cases a with
    | one p =>
      obtain ⟨c, -, hc⟩ := h
      exact ih rest cap out hpre hc
    | star p =>
      obtain ⟨run, -, hc⟩ := h
      exact ih rest cap out hpre hc
    | plus p =>
      obtain ⟨c, run, -, -, hc⟩ := h
      exact ih rest cap out hpre hc
    | lazyStar p =>
      obtain ⟨run, -, hc⟩ := h
      exact ih rest cap out hpre hc
    | openGroup => simp [regexp.Atom.isBracket] at ha
    | closeGroup => simp [regexp.Atom.isBracket] at ha

theorem Captures_done (post : List regexp.Atom) (cap out : List Char)
    (hall : post.all (fun a => !a.isBracket) = true)
    (h : regexp.Captures post false cap out) : out = cap := by
  have := Captures_skip post [] cap out hall (by simpa using h)
  exact this

/-- A capture of the duration pattern is a non-empty run of digits, a colon and a non-empty
run of digits. -/
theorem durationRegex_capture (s : List Char) (r : List Char × List Char)
    (h : regexp.matchAtoms durationRegex false [] s = some r) :
    ∃ m ms t ts, r.1 = (m :: ms) ++ ':' :: (t :: ts)
      ∧ (∀ c ∈ m :: ms, regexp.digit c = true) ∧ (∀ c ∈ t :: ts, regexp.digit c = true) := by
  have hc := (matchAtoms_sound _ _ _ _ _ h).1
  have hsplit : durationRegex =
      (regexp.lit "<div" ++ [regexp.Atom.star (regexp.notChar '>')]
        ++ regexp.lit "data-testid=\"duration-cell\""
        ++ [regexp.Atom.star (regexp.notChar '>')] ++ regexp.lit ">")
      ++ (regexp.Atom.openGroup :: regexp.Atom.plus regexp.digit
        :: regexp.Atom.one (fun x => x == ':') :: regexp.Atom.plus regexp.digit
        :: regexp.Atom.closeGroup :: regexp.lit "</div>") := by
    simp [durationRegex, regexp.lit]
  rw [hsplit] at hc
  have hc2 := Captures_skip _ _ _ _ (by rfl) hc
  obtain ⟨m, ms, hm, hms, hc3⟩ := hc2
  obtain ⟨c, hcolon, hc4⟩ := hc3
  obtain ⟨t, ts, ht, hts, hc5⟩ := hc4
  have hout := Captures_done _ _ _ (by rfl) hc5
  have hce : c = ':' := by simpa using hcolon
  subst hce
  refine ⟨m, ms, t, ts, ?_, ?_, ?_⟩
  · rw [hout]
    simp [regexp.pushAll, regexp.push]
  · intro x hx
    rcases List.mem_cons.mp hx with rfl | hx
    · exact hm
    · exact hms x hx
  · intro x hx
    rcases List.mem_cons.mp hx with rfl | hx
    · exact ht
    · exact hts x hx

theorem FindStringSubmatch_some (re : List regexp.Atom) :
    ∀ (s d : List Char), regexp.FindStringSubmatch re s = some d →
      ∃ s1 r, regexp.matchAtoms re false [] s1 = some r ∧ r.1 = d := by
  intro s
  induction s with
  | nil =>
    intro d h
    simp only [regexp.FindStringSubmatch, Option.map_eq_some'] at h
    obtain ⟨r, hr, hd⟩ := h
    exact ⟨[], r, hr, hd⟩
  | cons c cs ih =>
    intro d h
    simp only [regexp.FindStringSubmatch] at h
    cases hm : regexp.matchAtoms re false [] (c :: cs) with
    | some r =>
      rw [hm] at h
      simp only [Option.some.injEq] at h
      exact ⟨c :: cs, r, hm, h⟩
    | none =>
      rw [hm] at h
      exact ih d h

theorem mem_dropWhile (p : Char → Bool) (c : Char) (hc : p c = false) :
    ∀ s : List Char, c ∈ s → c ∈ s.dropWhile p := by
  intro s
  induction s with
  | nil => intro h; exact h
  | cons x xs ih =>
    intro h
    by_cases hx : p x = true
    · rw [List.dropWhile_cons_of_pos hx]
      rcases List.mem_cons.mp h with rfl | h
      · rw [hc] at hx; exact (Bool.false_ne_true hx).elim
      · exact ih h
    · rw [List.dropWhile_cons_of_neg hx]
      exact h

/-- `strings.TrimSpace` removes whitespace only. -/
theorem mem_TrimSpace (c : Char) (hc : strings.isSpace c = false) (s : List Char) (h : c ∈ s) :
    c ∈ strings.TrimSpace s := by
  unfold strings.TrimSpace
  rw [List.mem_reverse]
  apply mem_dropWhile _ _ hc
  rw [List.mem_reverse]
  exact mem_dropWhile _ _ hc _ h

theorem splitFrom_length_pos (sep : List Char) :
    ∀ (s cur : List Char) (k : Nat), 0 < (strings.splitFrom sep k cur s).length := by
  intro s
  induction s with
  | nil => intro cur k; cases k <;> simp [strings.splitFrom]
  | cons c cs ih =>
    intro cur k
    cases k with
    | succ k => simp only [strings.splitFrom]; exact ih _ _
    | zero =>
      simp only [strings.splitFrom]
      split
      · simp
      · exact ih _ _

/-- Splitting at a one-character separator that occurs gives at least two pieces. -/
theorem splitFrom_length_of_mem (x : Char) :
    ∀ (s cur : List Char), x ∈ s → 2 ≤ (strings.splitFrom [x] 0 cur s).length := by
  intro s
  induction s with
  | nil => intro cur h; simp at h
  | cons c cs ih =>
    intro cur h
    by_cases hcx : c = x
    · subst hcx
      have hp : [c].isPrefixOf (c :: cs) = true := by simp [List.isPrefixOf]
      have := splitFrom_length_pos [c] cs [] 0
      simp only [strings.splitFrom, hp, if_true, List.length_cons, List.length_nil]
      simp only [Nat.zero_add, Nat.sub_self]
      omega
    · have hp : [x].isPrefixOf (c :: cs) = false := by
        simp [List.isPrefixOf]; exact fun h => hcx h.symm
      have hmem : x ∈ cs := by
        rcases List.mem_cons.mp h with h | h
        · exact (hcx h.symm).elim
        · exact h
      simp only [strings.splitFrom, hp, Bool.false_eq_true, if_false]
      exact ih _ hmem

/-- The index accesses `parts[0]` and `parts[1]` of `extractTracksFromDataTestId` are in
range for every capture of the duration pattern. -/
theorem parseDuration_isSome (d : List Char) (h : ':' ∈ d) :
    ∃ ms, parseDuration d = some ms := by
  have hmem := mem_TrimSpace ':' (by decide) d h
  have hlen := splitFrom_length_of_mem ':' (strings.TrimSpace d) [] hmem
  have hsplit : strings.Split (strings.TrimSpace d) ":".toList
      = strings.splitFrom [':'] 0 [] (strings.TrimSpace d) := rfl
  unfold parseDuration
  simp only [hsplit]
  generalize strings.splitFrom [':'] 0 [] (strings.TrimSpace d) = parts at hlen
  match parts, hlen with
  | p0 :: p1 :: rest, _ =>
    exact ⟨wrapInt (wrapInt (wrapInt ((strconv.Atoi p0).1 * 60) + (strconv.Atoi p1).1) * 1000),
      by simp⟩

/-- The loop over the rows of `extractTracksFromDataTestId` never panics. -/
theorem rowTracks_isSome (lib : Lib) : ∀ rows : List (List Char),
    ∃ tracks, rowTracks lib rows = some tracks := by
  intro rows
  induction rows with
  | nil => exact ⟨[], rfl⟩
  | cons row rows ih =>
    obtain ⟨tracks, ht⟩ := ih
    simp only [rowTracks]
    cases h1 : regexp.FindStringSubmatch (encoreTextRegex "h3") row with
    | none => exact ⟨tracks, by simpa using ht⟩
    | some name =>
      cases h2 : regexp.FindStringSubmatch (encoreTextRegex "h4") row with
      | none => exact ⟨tracks, by simpa using ht⟩
      | some artist =>
        cases h3 : regexp.FindStringSubmatch durationRegex row with
        | none => exact ⟨tracks, by simpa using ht⟩
        | some d =>
          obtain ⟨s1, r, hr, hd⟩ := FindStringSubmatch_some _ _ _ h3
          obtain ⟨m, ms, t, ts, hshape, -, -⟩ := durationRegex_capture s1 r hr
          have hcolon : ':' ∈ d := by rw [← hd, hshape]; simp
          obtain ⟨v, hv⟩ := parseDuration_isSome d hcolon
          simp only [hv, ht, Option.map_some']
          exact ⟨_, rfl⟩

/-- The method `extractTracksFromDataTestId` never panics. -/
theorem extractTracksFromDataTestId_isSome (lib : Lib) (html : List Char) :
    ∃ tracks, extractTracksFromDataTestId lib html = some tracks :=
  rowTracks_isSome lib _


/-- Whether the embedded-state strategy finds anything does not depend on the order in which
the map is visited. -/
theorem extractTracksFromScriptTags_length (lib : Lib) (order1 order2 : MapOrder)
    (html : List Char) :
    (extractTracksFromScriptTags lib order1 html).length
      = (extractTracksFromScriptTags lib order2 html).length := by
  cases h1 : regexp.FindStringSubmatch scriptRegex html with
  | none => simp only [extractTracksFromScriptTags, h1]
  | some jsonData =>
    cases h2 : lib.unmarshalInitialState jsonData with
    | none => simp only [extractTracksFromScriptTags, h1, h2]
    | some data =>
      simp only [extractTracksFromScriptTags, h1, h2, List.length_map]
      rw [(order1.perm data).length_eq, (order2.perm data).length_eq]

/-- The cascade, with the results of the four strategies named. -/
theorem parseTracksFromHTML_eq (lib : Lib) (order1 order2 : MapOrder) (html : List Char)
    (rows : List Track) (hrows : extractTracksFromDataTestId lib html = some rows) :
    parseTracksFromHTML lib order1 order2 html
      = some (Spec.firstNonEmpty [extractTracksFromScriptTags lib order1 html, rows,
          extractTracksFromMetaData lib html, extractTracksFromTextPatterns html], none) := by
  have hlen := extractTracksFromScriptTags_length lib order1 order2 html
  unfold parseTracksFromHTML parseTracksFromHTMLElements
  simp only [hrows]
  cases h1 : extractTracksFromScriptTags lib order1 html with
  | cons t ts => simp [Spec.firstNonEmpty]
  | nil =>
    rw [h1] at hlen
    have h2 : extractTracksFromScriptTags lib order2 html = [] :=
      List.length_eq_zero.mp hlen.symm
    rw [h2]
    cases rows with
    | cons t ts => simp [Spec.firstNonEmpty]
    | nil =>
      cases h3 : extractTracksFromMetaData lib html with
      | cons t ts => simp [Spec.firstNonEmpty]
      | nil =>
        cases h4 : extractTracksFromTextPatterns html with
        | cons t ts => simp [Spec.firstNonEmpty]
        | nil => simp [Spec.firstNonEmpty]

/-- C9: cascade precedence.  When the embedded-state strategy and the row-tag strategy both
find tracks, `parseTracksFromHTML` returns exactly the embedded-state result; in general it
returns the result of the first strategy, in the order embedded-state, row-tag,
structured-metadata, free-text, whose result is non-empty. -/
theorem parseTracksFromHTML_cascade (lib : Lib) (order1 order2 : MapOrder) (html : List Char) :
    (∀ rows, extractTracksFromScriptTags lib order1 html ≠ [] →
        extractTracksFromDataTestId lib html = some rows → rows ≠ [] →
        parseTracksFromHTML lib order1 order2 html
          = some (extractTracksFromScriptTags lib order1 html, none))
    ∧ ∃ rows, extractTracksFromDataTestId lib html = some rows
        ∧ parseTracksFromHTML lib order1 order2 html
          = some (Spec.firstNonEmpty [extractTracksFromScriptTags lib order1 html, rows,
              extractTracksFromMetaData lib html, extractTracksFromTextPatterns html], none) := by
  constructor
  · intro rows h1 hrows _
    rw [parseTracksFromHTML_eq lib order1 order2 html rows hrows]
    cases h : extractTracksFromScriptTags lib order1 html with
    | nil => exact (h1 h).elim
    | cons t ts => simp [Spec.firstNonEmpty]
  · obtain ⟨rows, hrows⟩ := extractTracksFromDataTestId_isSome lib html
    exact ⟨rows, hrows, parseTracksFromHTML_eq lib order1 order2 html rows hrows⟩

/-- C9, on a page whose embedded state holds "One More Time" and whose track row holds
"Around the World": both strategies find a track, and the result is the embedded-state
track alone. -/
theorem parseTracksFromHTML_cascade_witness :
    parseTracksFromHTML sampleLib listedOrder listedOrder sampleMarkup
      = some (extractTracksFromScriptTags sampleLib listedOrder sampleMarkup, none) :=
  (parseTracksFromHTML_cascade sampleLib listedOrder listedOrder sampleMarkup).1
    [{ Name := "Around the World".toList, Artist := "Daft Punk".toList, Duration := 225000 }]
    (by decide) (by decide) (by decide)

/-- C10: track extraction never fails hard.  For every markup `parseTracksFromHTML` returns
(no panic) with a nil error; it returns the empty sequence when none of the four strategies
finds anything, for instance on the empty markup and on markup whose embedded state is
malformed JSON. -/
theorem parseTracksFromHTML_no_error (lib : Lib) (order1 order2 : MapOrder)
    (html : List Char) :
    (∃ tracks, parseTracksFromHTML lib order1 order2 html = some (tracks, none))
    ∧ (extractTracksFromScriptTags lib order1 html = [] →
        extractTracksFromDataTestId lib html = some [] →
        extractTracksFromMetaData lib html = [] →
        extractTracksFromTextPatterns html = [] →
        parseTracksFromHTML lib order1 order2 html = some ([], none))
    ∧ parseTracksFromHTML lib order1 order2 [] = some ([], none)
    ∧ (lib.unmarshalInitialState "\x7bbad".toList = none →
        parseTracksFromHTML lib order1 order2 malformedMarkup = some ([], none)) := by
  refine ⟨?_, ?_, ?_, ?_⟩
  · obtain ⟨rows, hrows⟩ := extractTracksFromDataTestId_isSome lib html
    exact ⟨_, parseTracksFromHTML_eq lib order1 order2 html rows hrows⟩
  · intro h1 h2 h3 h4
    rw [parseTracksFromHTML_eq lib order1 order2 html [] h2, h1, h3, h4]
    rfl
  · have h1 : extractTracksFromScriptTags lib order1 [] = [] := by
      have : regexp.FindStringSubmatch scriptRegex [] = none := by decide
      simp only [extractTracksFromScriptTags, this]
    have h2 : extractTracksFromDataTestId lib [] = some [] := by
      have : regexp.FindAllStringSubmatch trackRowRegex [] = [] := by decide
      simp only [extractTracksFromDataTestId, this, rowTracks]
    have h3 : extractTracksFromMetaData lib [] = [] := by
      have : regexp.FindAllStringSubmatch jsonLdRegex [] = [] := by decide
      simp only [extractTracksFromMetaData, this, List.flatMap_nil]
    have h4 : extractTracksFromTextPatterns [] = [] := by decide
    rw [parseTracksFromHTML_eq lib order1 order2 [] [] h2, h1, h3, h4]
    rfl
  · intro hbad
    have h1 : extractTracksFromScriptTags lib order1 malformedMarkup = [] := by
      have : regexp.FindStringSubmatch scriptRegex malformedMarkup
          = some "\x7bbad".toList := by decide
      simp only [extractTracksFromScriptTags, this, hbad]
    have h2 : extractTracksFromDataTestId lib malformedMarkup = some [] := by
      have : regexp.FindAllStringSubmatch trackRowRegex malformedMarkup = [] := by decide
      simp only [extractTracksFromDataTestId, this, rowTracks]
    have h3 : extractTracksFromMetaData lib malformedMarkup = [] := by
      have : regexp.FindAllStringSubmatch jsonLdRegex malformedMarkup = [] := by decide
      simp only [extractTracksFromMetaData, this, List.flatMap_nil]
    have h4 : extractTracksFromTextPatterns malformedMarkup = [] := by decide
    rw [parseTracksFromHTML_eq lib order1 order2 _ [] h2, h1, h3, h4]
    rfl

/-- C10, with a JSON decoder that rejects the malformed state `{bad`: the result is the
empty sequence and a nil error. -/
theorem parseTracksFromHTML_no_error_witness :
    parseTracksFromHTML plainLib listedOrder listedOrder malformedMarkup = some ([], none) :=
  (parseTracksFromHTML_no_error plainLib listedOrder listedOrder []).2.2.2 rfl

/-! ## Embedded-state strategy: theorems -/

theorem dropWhile_of_head (p : Char → Bool) (x : Char) (xs : List Char) (hx : p x = false) :
    (x :: xs).dropWhile p = x :: xs := by
  simp [List.dropWhile, hx]

/-- A text that neither starts nor ends with whitespace is left unchanged by
`strings.TrimSpace`. -/
theorem TrimSpace_eq_self (s : List Char)
    (hhead : ∀ c, s.head? = some c → strings.isSpace c = false)
    (hlast : ∀ c, s.getLast? = some c → strings.isSpace c = false) :
    strings.TrimSpace s = s := by
  unfold strings.TrimSpace
  cases s with
  | nil => rfl
  | cons x xs =>
    rw [dropWhile_of_head _ x xs (hhead x rfl)]
    cases hrev : (x :: xs).reverse with
    | nil => simp at hrev
    | cons y ys =>
      have hy : (x :: xs).getLast? = some y := by
        rw [List.getLast?_eq_head?_reverse, hrev]; rfl
      rw [dropWhile_of_head _ y ys (hlast y hy), ← hrev, List.reverse_reverse]

theorem splitFrom_of_not_mem (x : Char) :
    ∀ (s cur : List Char), x ∉ s → strings.splitFrom [x] 0 cur s = [cur ++ s] := by
  intro s
  induction s with
  | nil => intro cur _; simp [strings.splitFrom]
  | cons c cs ih =>
    intro cur h
    have hcx : ¬ x = c := fun e => h (by rw [e]; exact List.mem_cons_self _ _)
    have hp : [x].isPrefixOf (c :: cs) = false := by
      simp [List.isPrefixOf]; exact hcx
    rw [strings.splitFrom, if_neg (by simp [hp]), ih _ (fun hm => h (List.mem_cons_of_mem _ hm))]
    simp

/-- Splitting `m ++ x :: s` at the one-character separator `x` that occurs in neither `m`
nor `s` gives the two pieces `m` and `s`. -/
theorem splitFrom_two (x : Char) (s : List Char) (hs : x ∉ s) :
    ∀ (m cur : List Char), x ∉ m →
      strings.splitFrom [x] 0 cur (m ++ x :: s) = [cur ++ m, s] := by
  intro m
  induction m with
  | nil =>
    intro cur _
    have hp : [x].isPrefixOf (x :: s) = true := by simp [List.isPrefixOf]
    simp only [List.nil_append, strings.splitFrom, hp, if_true, List.length_cons,
      List.length_nil, Nat.zero_add, Nat.sub_self, List.append_nil]
    rw [splitFrom_of_not_mem x s [] hs]
    simp
  | cons c cs ih =>
    intro cur h
    have hcx : ¬ x = c := fun e => h (by rw [e]; exact List.mem_cons_self _ _)
    have hp : [x].isPrefixOf (c :: (cs ++ x :: s)) = false := by
      simp [List.isPrefixOf]; exact hcx
    rw [List.cons_append, strings.splitFrom, if_neg (by simp [hp]),
      ih _ (fun hm => h (List.mem_cons_of_mem _ hm))]
    simp

theorem digit_toNat (c : Char) (h : regexp.digit c = true) : 48 ≤ c.toNat ∧ c.toNat ≤ 57 := by
  simpa [regexp.digit] using h

/-- On a non-empty string of digits `strconv.Atoi` returns its value without error, when the
value fits a 64-bit `int`. -/
theorem Atoi_digits (ds : List Char) (hne : ds ≠ []) (hd : ∀ c ∈ ds, regexp.digit c = true)
    (hfit : Spec.decimalValue ds < 2 ^ 63) :
    strconv.Atoi ds = (((Spec.decimalValue ds : Nat) : Int), false) := by
  cases ds with
  | nil => exact (hne rfl).elim
  | cons d rest =>
    have hd0 := digit_toNat d (hd d (List.mem_cons_self _ _))
    have hminus : d ≠ '-' := by
      intro e; rw [e] at hd0; revert hd0; decide
    have hplus : d ≠ '+' := by
      intro e; rw [e] at hd0; revert hd0; decide
    have hall : (d :: rest).all (fun c => 48 ≤ c.toNat && c.toNat ≤ 57) = true := by
      rw [List.all_eq_true]
      intro c hc
      have := digit_toNat c (hd c hc)
      simp [this.1, this.2]
    have hval : strconv.digitsValue (d :: rest) = some (Spec.decimalValue (d :: rest)) := by
      simp only [strconv.digitsValue, hall, if_true, Spec.decimalValue]
    unfold strconv.Atoi
    split
    · rename_i heq
      split at heq
      · rename_i h; cases h; exact (hminus rfl).elim
      · rename_i h; cases h; exact (hplus rfl).elim
      · rename_i ds1 _ _
        cases heq
        simp only [hval, Bool.false_eq_true, if_false, hfit, if_true]

theorem wrapInt_of_fit (x : Int) (h0 : 0 ≤ x) (h1 : x < 2 ^ 63) : wrapInt x = x := by
  unfold wrapInt
  have : (x + 2 ^ 63) % 2 ^ 64 = x + 2 ^ 63 := by
    apply Int.emod_eq_of_lt <;> omega
  rw [this]; omega

theorem isSpace_of_digit (c : Char) (h : regexp.digit c = true) : strings.isSpace c = false := by
  have hb := digit_toNat c h
  simp only [strings.isSpace, Bool.or_eq_false_iff, Bool.and_eq_false_iff, beq_eq_false_iff_ne,
    decide_eq_false_iff_not]
  omega

theorem colon_of_digit (c : Char) (h : regexp.digit c = true) : ¬ ':' = c := by
  intro e
  have hb := digit_toNat c h
  rw [← e] at hb
  revert hb; decide

/-- The duration text `m:s` of two non-empty digit strings whose conversion does not
overflow is converted to `(m * 60 + s) * 1000`. -/
theorem parseDuration_digits (m s : List Char) (hm : m ≠ []) (hs : s ≠ [])
    (hmd : ∀ c ∈ m, regexp.digit c = true) (hsd : ∀ c ∈ s, regexp.digit c = true)
    (hfit : (Spec.decimalValue m * 60 + Spec.decimalValue s) * 1000 < 2 ^ 63) :
    parseDuration (m ++ ':' :: s)
      = some (((Spec.decimalValue m * 60 + Spec.decimalValue s) * 1000 : Nat) : Int) := by
  have htrim : strings.TrimSpace (m ++ ':' :: s) = m ++ ':' :: s := by
    apply TrimSpace_eq_self
    · intro c hc
      cases m with
      | nil => exact (hm rfl).elim
      | cons x xs =>
        simp only [List.cons_append, List.head?_cons, Option.some.injEq] at hc
        subst hc
        exact isSpace_of_digit _ (hmd _ (List.mem_cons_self _ _))
    · intro c hc
      have hlast : (m ++ ':' :: s).getLast? = s.getLast? := by
        rw [List.getLast?_append]
        cases s with
        | nil => exact (hs rfl).elim
        | cons y ys =>
          have : (':' :: y :: ys).getLast? = (y :: ys).getLast? := by
            simp [List.getLast?_cons_cons]
          rw [this]
          cases h : (y :: ys).getLast? with
          | none => simp at h
          | some z => simp
      rw [hlast] at hc
      exact isSpace_of_digit _ (hsd _ (List.mem_of_getLast?_eq_some hc))
  have hsplit : strings.Split (m ++ ':' :: s) ":".toList = [m, s] := by
    have := splitFrom_two ':' s (fun h => colon_of_digit _ (hsd _ h) rfl) m []
      (fun h => colon_of_digit _ (hmd _ h) rfl)
    simpa [strings.Split] using this
  have hM : Spec.decimalValue m < 2 ^ 63 := by omega
  have hS : Spec.decimalValue s < 2 ^ 63 := by omega
  have w1 : wrapInt (((Spec.decimalValue m : Nat) : Int) * 60)
      = ((Spec.decimalValue m * 60 : Nat) : Int) := by
    rw [wrapInt_of_fit] <;> push_cast <;> omega
  have w2 : wrapInt (((Spec.decimalValue m * 60 : Nat) : Int) + ((Spec.decimalValue s : Nat) : Int))
      = ((Spec.decimalValue m * 60 + Spec.decimalValue s : Nat) : Int) := by
    rw [wrapInt_of_fit] <;> push_cast <;> omega
  have w3 : wrapInt (((Spec.decimalValue m * 60 + Spec.decimalValue s : Nat) : Int) * 1000)
      = (((Spec.decimalValue m * 60 + Spec.decimalValue s) * 1000 : Nat) : Int) := by
    rw [wrapInt_of_fit] <;> push_cast <;> omega
  unfold parseDuration
  simp only [htrim, hsplit, List.getElem?_cons_zero, List.getElem?_cons_succ,
    Atoi_digits m hm hmd hM, Atoi_digits s hs hsd hS, w1, w2, w3]

/-- C12, counterexample: the minutes `9223372036854775807` and the seconds `00` both fit a
64-bit `int` (`strconv.Atoi` reports no error), yet the stored duration is `-60000`, not
`(9223372036854775807 * 60 + 0) * 1000`: the multiplication wraps around. -/
theorem rowTracks_duration_counterexample :
    extractTracksFromDataTestId plainLib longDurationMarkup
        = some [{ Name := "Song".toList, Artist := "Artist".toList, Duration := -60000 }]
    ∧ strconv.Atoi "9223372036854775807".toList = (9223372036854775807, false)
    ∧ strconv.Atoi "00".toList = (0, false)
    ∧ (-60000 : Int) ≠ (9223372036854775807 * 60 + 0) * 1000 := by
  decide

/-- C12 (amended): in the row-tag strategy a row whose duration cell holds the text `m:s`,
with `m` and `s` non-empty decimal digit strings such that `(m * 60 + s) * 1000` fits a
64-bit `int`, yields the duration `(m * 60 + s) * 1000`; `3:45` yields `225000`; and the
index accesses to the two parts of the split duration text are never out of range (the
strategy never panics). -/
theorem rowTracks_duration (lib : Lib) (rowHTML : List Char) (rows : List (List Char))
    (name artist m s : List Char)
    (hname : regexp.FindStringSubmatch (encoreTextRegex "h3") rowHTML = some name)
    (hartist : regexp.FindStringSubmatch (encoreTextRegex "h4") rowHTML = some artist)
    (hdur : regexp.FindStringSubmatch durationRegex rowHTML = some (m ++ ':' :: s))
    (hm : m ≠ []) (hs : s ≠ [])
    (hmd : ∀ c ∈ m, regexp.digit c = true) (hsd : ∀ c ∈ s, regexp.digit c = true)
    (hfit : (Spec.decimalValue m * 60 + Spec.decimalValue s) * 1000 < 2 ^ 63) :
    (∃ tracks, rowTracks lib rows = some tracks
      ∧ rowTracks lib (rowHTML :: rows)
        = some ({ Name := lib.UnescapeString (strings.TrimSpace name)
                  Artist := lib.UnescapeString (strings.TrimSpace artist)
                  Duration :=
                    (((Spec.decimalValue m * 60 + Spec.decimalValue s) * 1000 : Nat) : Int) }
                :: tracks))
    ∧ parseDuration "3:45".toList = some 225000
    ∧ (∀ html, ∃ tracks, extractTracksFromDataTestId lib html = some tracks) := by
  refine ⟨?_, by decide, fun html => extractTracksFromDataTestId_isSome lib html⟩
  obtain ⟨tracks, ht⟩ := rowTracks_isSome lib rows
  refine ⟨tracks, ht, ?_⟩
  simp only [rowTracks, hname, hartist, hdur, parseDuration_digits m s hm hs hmd hsd hfit, ht,
    Option.map_some']

/-- C12 (amended), on the row of the sample page, whose duration cell holds `3:45`. -/
theorem rowTracks_duration_witness :
    (∃ tracks, rowTracks plainLib [] = some tracks
      ∧ rowTracks plainLib [sampleRow]
        = some ({ Name := strings.TrimSpace "Around the World".toList
                  Artist := strings.TrimSpace "Daft Punk".toList
                  Duration :=
                    (((Spec.decimalValue "3".toList * 60 + Spec.decimalValue "45".toList) * 1000
                      : Nat) : Int) }
                :: tracks))
    ∧ (((Spec.decimalValue "3".toList * 60 + Spec.decimalValue "45".toList) * 1000 : Nat) : Int)
        = 225000 :=
  ⟨(rowTracks_duration plainLib sampleRow [] "Around the World".toList "Daft Punk".toList
      "3".toList "45".toList (by decide) (by decide) (by decide) (by decide) (by decide)
      (by decide) (by decide) (by decide)).1, by decide⟩

/-! ## Decoding of the stored text: theorems -/

/-- C13: the free-text line `AC&amp;DC - Thunderstruck` is stored with the artist
`AC&amp;DC`, not entity-unescaped to `AC&DC`, and the linked-data name ` Song ` is stored
with its surrounding spaces, not trimmed to `Song`; the row-tag strategy does both. -/
theorem stored_text_not_decoded :
    extractTracksFromTextPatterns "AC&amp;DC - Thunderstruck".toList
        = [{ Name := "Thunderstruck".toList, Artist := "AC&amp;DC".toList }]
    ∧ "AC&amp;DC".toList ≠ "AC&DC".toList
    ∧ extractTracksFromMetaData linkedDataLib (linkedDataMarkup listBlock)
        = [{ Name := " Song ".toList }]
    ∧ " Song ".toList ≠ "Song".toList
    ∧ strings.TrimSpace " Song ".toList = "Song".toList := by
  decide

/-! ## Free-text strategy: theorems -/

/-- Passing over `k` characters of a matched separator is the same as dropping them. -/
theorem splitFrom_skip (sep : List Char) :
    ∀ (s : List Char) (k : Nat) (cur : List Char),
      strings.splitFrom sep k cur s = strings.splitFrom sep 0 cur (s.drop k) := by
  intro s
  induction s with
  | nil => intro k cur; cases k <;> simp [strings.splitFrom]
  | cons c cs ih =>
    intro k cur
    cases k with
    | zero => rfl
    | succ k => rw [strings.splitFrom, ih k cur, List.drop_succ_cons]

/-- Without an occurrence of the separator the text is one piece. -/
theorem splitFrom_of_not_infix (sep : List Char) :
    ∀ (s cur : List Char), ¬ sep <:+: s → strings.splitFrom sep 0 cur s = [cur ++ s] := by
  intro s
  induction s with
  | nil => intro cur _; simp [strings.splitFrom]
  | cons c cs ih =>
    intro cur h
    have hp : ¬ sep.isPrefixOf (c :: cs) = true :=
      fun hp => h (List.isPrefixOf_iff_prefix.mp hp).isInfix
    rw [strings.splitFrom, if_neg hp, ih _ (fun hi => h (List.infix_cons hi))]
    simp

/-- A text in which a non-empty separator occurs splits into at least two pieces. -/
theorem splitFrom_length_of_infix (sep : List Char) (hsep : sep ≠ []) :
    ∀ (s cur : List Char), sep <:+: s → 2 ≤ (strings.splitFrom sep 0 cur s).length := by
  intro s
  induction s with
  | nil => intro cur h; exact (hsep (List.eq_nil_of_infix_nil h)).elim
  | cons c cs ih =>
    intro cur h
    by_cases hp : sep.isPrefixOf (c :: cs) = true
    · have := splitFrom_length_pos sep cs [] (sep.length - 1)
      rw [strings.splitFrom, if_pos hp, List.length_cons]
      omega
    · have hcs : sep <:+: cs := by
        rcases List.infix_cons_iff.mp h with h1 | h1
        · exact (hp (List.isPrefixOf_iff_prefix.mpr h1)).elim
        · exact h1
      rw [strings.splitFrom, if_neg hp]
      exact ih _ hcs

/-- A text with two disjoint occurrences of a non-empty separator splits into at least three
pieces. -/
theorem splitFrom_length_of_two (sep : List Char) (hsep : sep ≠ []) (b : List Char)
    (hb : sep <:+: b) :
    ∀ (a cur : List Char), 3 ≤ (strings.splitFrom sep 0 cur (a ++ sep ++ b)).length := by
  have hdrop : ∀ (a : List Char) (n : Nat), n ≤ (a ++ sep).length →
      sep <:+: (a ++ sep ++ b).drop n := by
    intro a n hn
    have : (a ++ sep ++ b).drop n = (a ++ sep).drop n ++ b := by
      rw [List.drop_append_of_le_length hn]
    rw [this]
    exact hb.trans ⟨(a ++ sep).drop n, [], by simp⟩
  intro a
  induction a with
  | nil =>
    intro cur
    cases hs : ([] ++ sep ++ b) with
    | nil =>
      have : sep = [] := by simpa using (List.append_eq_nil.mp (by simpa using hs)).1
      exact (hsep this).elim
    | cons c cs =>
      have hp : sep.isPrefixOf (c :: cs) = true := by
        rw [← hs]; exact List.isPrefixOf_iff_prefix.mpr ⟨b, by simp⟩
      rw [strings.splitFrom, if_pos hp, splitFrom_skip, List.length_cons]
      have hd := hdrop [] sep.length (by simp)
      rw [hs] at hd
      have hpos : 0 < sep.length := List.length_pos.mpr hsep
      have hd2 : sep <:+: cs.drop (sep.length - 1) := by
        have : (c :: cs).drop sep.length = cs.drop (sep.length - 1) := by
          obtain ⟨n, hn⟩ : ∃ n, sep.length = n + 1 := ⟨sep.length - 1, by omega⟩
          rw [hn]; simp
        rw [this] at hd; exact hd
      have := splitFrom_length_of_infix sep hsep _ [] hd2
      omega
  | cons x xs ih =>
    intro cur
    by_cases hp : sep.isPrefixOf (x :: (xs ++ sep ++ b)) = true
    · show 3 ≤ (strings.splitFrom sep 0 cur (x :: (xs ++ sep ++ b))).length
      rw [strings.splitFrom, if_pos hp, splitFrom_skip, List.length_cons]
      have hd := hdrop (x :: xs) sep.length (by simp; omega)
      have hpos : 0 < sep.length := List.length_pos.mpr hsep
      have hd2 : sep <:+: (xs ++ sep ++ b).drop (sep.length - 1) := by
        have : (x :: xs ++ sep ++ b).drop sep.length
            = (xs ++ sep ++ b).drop (sep.length - 1) := by
          obtain ⟨n, hn⟩ : ∃ n, sep.length = n + 1 := ⟨sep.length - 1, by omega⟩
          rw [hn]; simp
        rw [this] at hd; exact hd
      have := splitFrom_length_of_infix sep hsep _ [] hd2
      omega
    · show 3 ≤ (strings.splitFrom sep 0 cur (x :: (xs ++ sep ++ b))).length
      rw [strings.splitFrom, if_neg hp]
      exact ih _

theorem byteLen_pos_iff (s : List Char) : strings.byteLen s > 0 ↔ s ≠ [] := by
  cases s with
  | nil => simp [strings.byteLen]
  | cons c cs =>
    have := c.utf8Size_pos
    simp only [strings.byteLen, List.map_cons, List.sum_cons, ne_eq, reduceCtorEq,
      not_false_eq_true, iff_true]
    omega

theorem Contains_singleton (x : Char) (s : List Char) :
    strings.Contains s [x] = true ↔ x ∈ s := by
  induction s with
  | nil => simp [strings.Contains]
  | cons c cs ih =>
    simp only [strings.Contains, Bool.or_eq_true, ih, List.mem_cons]
    constructor
    · rintro (h | h)
      · left; simpa [List.isPrefixOf] using h
      · right; exact h
    · rintro (h | h)
      · left; simp [List.isPrefixOf, h]
      · right; exact h

/-- The code's treatment of one line agrees with the record described by `Spec.lineRecord`. -/
theorem textLineTracks_eq (rawLine : List Char) :
    textLineTracks rawLine = (Spec.lineRecord rawLine).toList := by
  unfold textLineTracks Spec.lineRecord
  simp only
  rcases hparts : strings.Split (strings.TrimSpace rawLine) " - ".toList
    with _ | ⟨p0, _ | ⟨p1, _ | ⟨p2, rest⟩⟩⟩
  · simp
  · simp
  · have hcont : strings.Contains (strings.TrimSpace rawLine) " - ".toList = true := by
      rw [Contains_iff]
      by_contra hno
      have := splitFrom_of_not_infix " - ".toList (strings.TrimSpace rawLine) [] hno
      have hs : strings.Split (strings.TrimSpace rawLine) " - ".toList
          = strings.splitFrom " - ".toList 0 [] (strings.TrimSpace rawLine) := rfl
      rw [hs, this] at hparts
      simp at hparts
    have hlt0 : strings.Contains (strings.TrimSpace p0) "<".toList = true
        ↔ '<' ∈ strings.TrimSpace p0 := Contains_singleton '<' _
    have hlt1 : strings.Contains (strings.TrimSpace p1) "<".toList = true
        ↔ '<' ∈ strings.TrimSpace p1 := Contains_singleton '<' _
    have hb0 := byteLen_pos_iff (strings.TrimSpace p0)
    have hb1 := byteLen_pos_iff (strings.TrimSpace p1)
    simp only [hcont, Bool.true_and, Bool.and_eq_true, decide_eq_true_eq, Bool.not_eq_true',
      gt_iff_lt]
    by_cases hlen : 10 < strings.byteLen (strings.TrimSpace rawLine)
        ∧ strings.byteLen (strings.TrimSpace rawLine) < 200
    · by_cases hrest : strings.TrimSpace p0 ≠ [] ∧ strings.TrimSpace p1 ≠ []
          ∧ '<' ∉ strings.TrimSpace p0 ∧ '<' ∉ strings.TrimSpace p1
      · have hc0 : strings.Contains (strings.TrimSpace p0) "<".toList = false := by
          rw [Bool.eq_false_iff]; exact fun h => hrest.2.2.1 (hlt0.mp h)
        have hc1 : strings.Contains (strings.TrimSpace p1) "<".toList = false := by
          rw [Bool.eq_false_iff]; exact fun h => hrest.2.2.2 (hlt1.mp h)
        have h0 : 0 < strings.byteLen (strings.TrimSpace p0) := hb0.mpr hrest.1
        have h1 : 0 < strings.byteLen (strings.TrimSpace p1) := hb1.mpr hrest.2.1
        rw [if_pos hlen, if_pos ⟨⟨⟨h0, h1⟩, hc0⟩, hc1⟩,
          if_pos ⟨hlen.1, hlen.2, hrest.1, hrest.2.1, hrest.2.2.1, hrest.2.2.2⟩]
        rfl
      · have hneg : ¬ (((0 < strings.byteLen (strings.TrimSpace p0)
            ∧ 0 < strings.byteLen (strings.TrimSpace p1))
            ∧ strings.Contains (strings.TrimSpace p0) "<".toList = false)
            ∧ strings.Contains (strings.TrimSpace p1) "<".toList = false) := by
          rintro ⟨⟨⟨h0, h1⟩, hc0⟩, hc1⟩
          refine hrest ⟨hb0.mp h0, hb1.mp h1, ?_, ?_⟩
          · intro hm; rw [hlt0.mpr hm] at hc0; exact Bool.noConfusion hc0
          · intro hm; rw [hlt1.mpr hm] at hc1; exact Bool.noConfusion hc1
        rw [if_pos hlen, if_neg hneg,
          if_neg (fun h => hrest ⟨h.2.2.1, h.2.2.2.1, h.2.2.2.2.1, h.2.2.2.2.2⟩)]
        rfl
    · rw [if_neg hlen, if_neg (fun h => hlen ⟨h.1, h.2.1⟩)]
      rfl
  · simp

/-- C14, counterexample: the line `    ab - cd    ` contains the separator, splits at it
into the two non-empty parts `    ab` and `cd    ` without `<`, and is 15 characters long,
yet the strategy returns no record for it: the line is trimmed first, to 7 characters. -/
theorem extractTracksFromTextPatterns_counterexample :
    extractTracksFromTextPatterns "    ab - cd    ".toList = []
    ∧ strings.Contains "    ab - cd    ".toList " - ".toList = true
    ∧ strings.Split "    ab - cd    ".toList " - ".toList = ["    ab".toList, "cd    ".toList]
    ∧ "    ab - cd    ".toList.length = 15
    ∧ strings.byteLen "    ab - cd    ".toList = 15 := by
  decide

/-- C14 (amended): the free-text strategy returns, in line order, exactly one record per
line whose whitespace-trimmed text splits at ` - ` into exactly two parts, has a length in
bytes strictly between 10 and 200, and whose trimmed parts are non-empty and hold no `<`;
the record has the trimmed left part as artist, the trimmed right part as name and every
other field empty or zero.  `Daft Punk - One More Time` yields that artist and name;
`<div> - something</div>` and every line whose trimmed text holds two disjoint separators
yield nothing. -/
theorem extractTracksFromTextPatterns_spec (html : List Char) :
    extractTracksFromTextPatterns html
        = (strings.Split html "\n".toList).filterMap Spec.lineRecord
    ∧ extractTracksFromTextPatterns "Daft Punk - One More Time".toList
        = [{ Artist := "Daft Punk".toList, Name := "One More Time".toList }]
    ∧ extractTracksFromTextPatterns "<div> - something</div>".toList = []
    ∧ (∀ line A B C : List Char,
        strings.TrimSpace line = A ++ " - ".toList ++ (B ++ " - ".toList ++ C) →
        Spec.lineRecord line = none ∧ textLineTracks line = []) := by
  refine ⟨?_, by decide, by decide, ?_⟩
  · unfold extractTracksFromTextPatterns
    rw [List.filterMap_eq_flatMap_toList]
    congr 1
    funext line
    exact textLineTracks_eq line
  · intro line A B C hline
    have hlen := splitFrom_length_of_two " - ".toList (by decide) (B ++ " - ".toList ++ C)
      ⟨B, C, by simp⟩ A []
    have hnone : Spec.lineRecord line = none := by
      unfold Spec.lineRecord
      simp only
      have hs : strings.Split (strings.TrimSpace line) " - ".toList
          = strings.splitFrom " - ".toList 0 [] (A ++ " - ".toList ++ (B ++ " - ".toList ++ C)) := by
        rw [hline]; rfl
      rw [hs]
      rcases hparts : strings.splitFrom " - ".toList 0 []
          (A ++ " - ".toList ++ (B ++ " - ".toList ++ C)) with _ | ⟨p0, _ | ⟨p1, _ | ⟨p2, rest⟩⟩⟩
      · rfl
      · rfl
      · rw [hparts] at hlen; simp at hlen
      · rfl
    exact ⟨hnone, by rw [textLineTracks_eq, hnone]; rfl⟩

/-- C14 (amended), on a line with two separators. -/
theorem extractTracksFromTextPatterns_spec_witness :
    Spec.lineRecord "Daft Punk - One More Time - Live".toList = none
      ∧ textLineTracks "Daft Punk - One More Time - Live".toList = [] :=
  (extractTracksFromTextPatterns_spec []).2.2.2 "Daft Punk - One More Time - Live".toList
    "Daft Punk".toList "One More Time".toList "Live".toList (by decide)

/-! ## Structured-metadata strategy: theorems -/

theorem nameText_eq (lib : Lib) (o : Option Json) :
    (match asString o with
      | some name => lib.UnescapeString name
      | none => ([] : List Char))
      = (match o with
        | some (Json.str s) => lib.UnescapeString s
        | _ => []) := by
  rcases o with _ | j
  · rfl
  · cases j <;> rfl

theorem artistText_eq (lib : Lib) (o : Option Json) :
    (match o with
      | some (Json.obj byArtist) =>
        (match asString (byArtist.lookup "name".toList) with
          | some artistName => lib.UnescapeString artistName
          | none => ([] : List Char))
      | _ => [])
      = Spec.stringField lib o "name".toList := by
  rcases o with _ | j
  · rfl
  · cases j with
    | obj byArtist =>
      simp only [Spec.stringField]
      exact nameText_eq lib _
    | null => rfl
    | bool b => rfl
    | number n => rfl
    | str s => rfl
    | arr l => rfl

theorem typeDispatch_eq (o : Option Json) (yes : List Track) :
    (match asString o with
      | some itemType => if itemType = "MusicRecording".toList then yes else []
      | none => [])
      = if (match o with
          | some (Json.str t) => t == "MusicRecording".toList
          | _ => false) = true then yes else [] := by
  rcases o with _ | j
  · simp [asString]
  · cases j <;> simp [asString]

/-- One graph entry gives one track when it is a music recording and none otherwise. -/
theorem graphItemTracks_eq (lib : Lib) (item : Json) :
    graphItemTracks lib item
      = if Spec.isMusicRecording item then [Spec.recordingTrack lib item] else [] := by
  cases item with
  | obj fields =>
    have hrec : Spec.recordingTrack lib (Json.obj fields)
        = { Name :=
              (match asString (fields.lookup "name".toList) with
                | some name => lib.UnescapeString name
                | none => ([] : List Char))
            Artist :=
              (match fields.lookup "byArtist".toList with
                | some (Json.obj byArtist) =>
                  (match asString (byArtist.lookup "name".toList) with
                    | some artistName => lib.UnescapeString artistName
                    | none => ([] : List Char))
                | _ => []) } := by
      rw [nameText_eq, artistText_eq]
      rfl
    rw [hrec]
    simp only [graphItemTracks, Spec.isMusicRecording]
    exact typeDispatch_eq _ _
  | null => simp [graphItemTracks, Spec.isMusicRecording]
  | bool b => simp [graphItemTracks, Spec.isMusicRecording]
  | number n => simp [graphItemTracks, Spec.isMusicRecording]
  | str s => simp [graphItemTracks, Spec.isMusicRecording]
  | arr l => simp [graphItemTracks, Spec.isMusicRecording]

theorem listItemTracks_eq (lib : Lib) (item : Json) :
    listItemTracks lib item
      = ((Spec.stringName item).map fun n => ({ Name := lib.UnescapeString n } : Track)).toList := by
  cases item with
  | obj fields =>
    simp only [listItemTracks, Spec.stringName]
    rcases fields.lookup "name".toList with _ | n
    · simp [asString]
    · cases n <;> simp [asString]
  | null => simp [listItemTracks, Spec.stringName]
  | bool b => simp [listItemTracks, Spec.stringName]
  | number n => simp [listItemTracks, Spec.stringName]
  | str s => simp [listItemTracks, Spec.stringName]
  | arr l => simp [listItemTracks, Spec.stringName]

theorem flatMap_graphItemTracks (lib : Lib) (graph : List Json) :
    graph.flatMap (graphItemTracks lib)
      = (graph.filter Spec.isMusicRecording).map (Spec.recordingTrack lib) := by
  induction graph with
  | nil => rfl
  | cons item rest ih =>
    rw [List.flatMap_cons, ih, graphItemTracks_eq]
    by_cases h : Spec.isMusicRecording item = true
    · simp [h]
    · simp [h]

theorem flatMap_listItemTracks (lib : Lib) (items : List Json) :
    items.flatMap (listItemTracks lib)
      = (items.filterMap Spec.stringName).map
          (fun n => ({ Name := lib.UnescapeString n } : Track)) := by
  induction items with
  | nil => rfl
  | cons item rest ih =>
    rw [List.flatMap_cons, ih, listItemTracks_eq]
    cases h : Spec.stringName item with
    | none => simp [List.filterMap_cons, h]
    | some n => simp [List.filterMap_cons, h]

theorem listBranch_eq (lib : Lib) (o : Option Json) :
    (match o with
      | some (Json.arr items) => items.flatMap (listItemTracks lib)
      | _ => [])
      = (match o with
          | some (Json.arr items) => items.filterMap Spec.stringName
          | _ => []).map fun n =>
            ({ Name := lib.UnescapeString n, Artist := [], Album := [], Duration := 0 } : Track) := by
  rcases o with _ | l
  · rfl
  · cases l with
    | arr items => exact flatMap_listItemTracks lib items
    | _ => rfl

/-- C15, counterexample: the object of `bothBlock` has an `itemListElement` array with one
entry that has the string name `X`, yet the strategy returns no track for it, because the
object also has an `@graph` array (here empty) and the list is then not read. -/
theorem metaDataBlockTracks_counterexample :
    Spec.listedNames linkedDataLib bothBlock = ["X".toList]
    ∧ metaDataBlockTracks linkedDataLib bothBlock = []
    ∧ extractTracksFromMetaData linkedDataLib (linkedDataMarkup bothBlock) = [] := by
  decide

/-- C15 (amended): a linked-data object with an `@graph` array yields one track per graph
entry whose `@type` is `MusicRecording`, and none for any other entry, carrying the
entity-unescaped name of the entry and of its `byArtist`; a linked-data object without an
`@graph` array yields one track per entry of its `itemListElement` array that has a string
name, with only the (entity-unescaped) name set. -/
theorem metaDataBlockTracks_spec (lib : Lib) (block : List Char) :
    (∀ graph, Spec.graphEntries lib block = some graph →
        metaDataBlockTracks lib block
          = (graph.filter Spec.isMusicRecording).map (Spec.recordingTrack lib))
    ∧ (Spec.graphEntries lib block = none →
        metaDataBlockTracks lib block
          = (Spec.listedNames lib block).map fun n =>
              { Name := lib.UnescapeString n, Artist := [], Album := [], Duration := 0 }) := by
  unfold Spec.graphEntries Spec.listedNames metaDataBlockTracks
  rcases lib.unmarshalObject block with _ | data
  · exact ⟨fun _ h => by simp at h, fun _ => rfl⟩
  · simp only
    rcases hg : data.lookup "@graph".toList with _ | g
    · exact ⟨fun _ h => by simp at h, fun _ => listBranch_eq lib _⟩
    · cases g with
      | arr graph =>
        refine ⟨fun graph1 h => ?_, fun h => by simp at h⟩
        simp only [Option.some.injEq] at h
        subst h
        exact flatMap_graphItemTracks lib graph
      | _ => exact ⟨fun _ h => by simp at h, fun _ => listBranch_eq lib _⟩

/-- C15 (amended), on the sample objects: the graph of a music recording and a person gives
the recording alone, and the list of a named and an unnamed entry gives the named one. -/
theorem metaDataBlockTracks_spec_witness :
    metaDataBlockTracks linkedDataLib listBlock
        = (Spec.listedNames linkedDataLib listBlock).map
            (fun n => { Name := n, Artist := [], Album := [], Duration := 0 })
    ∧ metaDataBlockTracks linkedDataLib listBlock = [{ Name := " Song ".toList }]
    ∧ metaDataBlockTracks linkedDataLib graphBlock
        = [{ Name := "One More Time".toList, Artist := "Daft Punk".toList }] :=
  ⟨(metaDataBlockTracks_spec linkedDataLib listBlock).2
      (Option.isNone_iff_eq_none.mp (by decide)), by decide, by decide⟩

/-! ## Playlist summary: theorems -/

/-- C16: for an explicit name other than `Unknown Playlist` the markup is not consulted: the
summaries built from any two markups are equal, the call succeeds, the name is used
verbatim and the identifier is the given one. -/
theorem parsePlaylistFromEmbedHTML_explicit (m1 m2 id n : List Char)
    (hn : n ≠ "Unknown Playlist".toList) :
    parsePlaylistFromEmbedHTML m1 id n = parsePlaylistFromEmbedHTML m2 id n
      ∧ (parsePlaylistFromEmbedHTML m1 id n).2 = none
      ∧ (parsePlaylistFromEmbedHTML m1 id n).1.Name = n
      ∧ (parsePlaylistFromEmbedHTML m1 id n).1.ID = id := by
  simp only [parsePlaylistFromEmbedHTML, hn, ne_eq, not_false_eq_true, if_true, and_self]

/-- C16, for the untrimmed name ` My list ` and for the empty name, on an empty page and on
a page with an `og:title` tag. -/
theorem parsePlaylistFromEmbedHTML_explicit_witness :
    (parsePlaylistFromEmbedHTML []  "id1".toList " My list ".toList).1.Name = " My list ".toList
      ∧ (parsePlaylistFromEmbedHTML
          "<meta property=\"og:title\" content=\"Road Trip\"/>".toList "id1".toList []).1.Name
        = [] :=
  ⟨(parsePlaylistFromEmbedHTML_explicit [] [] "id1".toList " My list ".toList (by decide)).2.2.1,
   (parsePlaylistFromEmbedHTML_explicit "<meta property=\"og:title\" content=\"Road Trip\"/>".toList
      [] "id1".toList [] (by decide)).2.2.1⟩

/-- C18, counterexample: the summary of the empty page has `Public` set to `true`. -/
theorem parsePlaylistFromEmbedHTML_defaults_counterexample :
    (parsePlaylistFromEmbedHTML [] [] []).1.Public = true
      ∧ (parsePlaylistFromEmbedHTML [] [] "Unknown Playlist".toList).1.Public = true := by
  decide

/-- C18 (amended): every summary returned by `parsePlaylistFromEmbedHTML` has an empty
description, `Public` set to `true`, the owner `Unknown` and the track count 0, and the
call returns no error. -/
theorem parsePlaylistFromEmbedHTML_defaults (html id n : List Char) :
    (parsePlaylistFromEmbedHTML html id n).1.Description = []
      ∧ (parsePlaylistFromEmbedHTML html id n).1.Public = true
      ∧ (parsePlaylistFromEmbedHTML html id n).1.Owner = "Unknown".toList
      ∧ (parsePlaylistFromEmbedHTML html id n).1.TrackCount = 0
      ∧ (parsePlaylistFromEmbedHTML html id n).2 = none := by
  unfold parsePlaylistFromEmbedHTML
  split <;> simp

/-- Matching a literal text: the literal must start the input, and the rest of the pattern
is matched after it. -/
theorem matchAtoms_lit (rest : List regexp.Atom) :
    ∀ (cs : List Char) (g : Bool) (cap input : List Char),
      regexp.matchAtoms (cs.map (fun c => regexp.Atom.one (fun x => x == c)) ++ rest) g cap input
        = if cs.isPrefixOf input then
            regexp.matchAtoms rest g (regexp.pushAll g cap cs) (input.drop cs.length)
          else none := by
  intro cs
  induction cs with
  | nil =>
    intro g cap input
    cases g <;> simp [regexp.pushAll]
  | cons c cs ih =>
    intro g cap input
    cases input with
    | nil => simp [regexp.matchAtoms, List.isPrefixOf]
    | cons x xs =>
      by_cases hx : x = c
      · subst hx
        have hpush : regexp.pushAll g (regexp.push g cap x) cs = regexp.pushAll g cap (x :: cs) := by
          cases g <;> simp [regexp.pushAll, regexp.push]
        simp only [List.map_cons, List.cons_append, regexp.matchAtoms, beq_self_eq_true, if_true,
          List.isPrefixOf, Bool.true_and, List.length_cons, List.drop_succ_cons]
        exact (ih g (regexp.push g cap x) xs).trans (by rw [hpush])
      · have hb : (x == c) = false := by simpa using hx
        have hb2 : (c == x) = false := by simpa using fun h : c = x => hx h.symm
        simp [regexp.matchAtoms, List.isPrefixOf, hb, hb2]

/-- A greedy repetition followed by the rest of the pattern succeeds on a maximal run of
matching characters when the rest succeeds right after the run. -/
theorem greedyStar_run (p : Char → Bool)
    (k : List Char → List Char → Option (List Char × List Char)) (g : Bool)
    (d : Char) (tail : List Char) (hd : p d = false) :
    ∀ (run cap : List Char) (r : List Char × List Char), (∀ c ∈ run, p c = true) →
      k (regexp.pushAll g cap run) (d :: tail) = some r →
      regexp.greedyStar p k g cap (run ++ d :: tail) = some r := by
  intro run
  induction run with
  | nil =>
    intro cap r _ hk
    have : regexp.pushAll g cap [] = cap := by cases g <;> simp [regexp.pushAll]
    rw [this] at hk
    simp only [List.nil_append, regexp.greedyStar, hd, Bool.false_eq_true, if_false, hk]
  | cons c cs ih =>
    intro cap r hrun hk
    have hc := hrun c (List.mem_cons_self _ _)
    have hpush : regexp.pushAll g (regexp.push g cap c) cs = regexp.pushAll g cap (c :: cs) := by
      cases g <;> simp [regexp.pushAll, regexp.push]
    have := ih (regexp.push g cap c) r (fun x hx => hrun x (List.mem_cons_of_mem _ hx))
      (by rw [hpush]; exact hk)
    rw [List.cons_append, regexp.greedyStar, if_pos hc, this]

theorem ogTitleRegex_eq :
    ogTitleRegex = Spec.ogTitleOpen.map (fun c => regexp.Atom.one (fun x => x == c))
      ++ (regexp.Atom.openGroup :: regexp.Atom.plus (regexp.notChar '"')
        :: regexp.Atom.closeGroup
        :: (Spec.ogTitleClose.map (fun c => regexp.Atom.one (fun x => x == c)) ++ [])) := by
  simp [ogTitleRegex, regexp.lit, Spec.ogTitleOpen, Spec.ogTitleClose]

/-- At a tag with a non-empty content free of quotes, the `og:title` pattern matches and
captures the content. -/
theorem ogTitle_match (c post : List Char) (hc : c ≠ []) (hq : '"' ∉ c) :
    regexp.matchAtoms ogTitleRegex false []
        (Spec.ogTitleOpen ++ (c ++ (Spec.ogTitleClose ++ post))) = some (c, post) := by
  rw [ogTitleRegex_eq, matchAtoms_lit]
  have hp : Spec.ogTitleOpen.isPrefixOf (Spec.ogTitleOpen ++ (c ++ (Spec.ogTitleClose ++ post)))
      = true := List.isPrefixOf_iff_prefix.mpr ⟨_, rfl⟩
  rw [hp, if_pos rfl, List.drop_left]
  cases c with
  | nil => exact (hc rfl).elim
  | cons x xs =>
    have hx : regexp.notChar '"' x = true := by
      simp only [regexp.notChar, bne_iff_ne, ne_eq]
      exact fun e => hq (by rw [e]; exact List.mem_cons_self _ _)
    have hxs : ∀ y ∈ xs, regexp.notChar '"' y = true := by
      intro y hy
      simp only [regexp.notChar, bne_iff_ne, ne_eq]
      exact fun e => hq (by rw [← e]; exact List.mem_cons_of_mem _ hy)
    have hclose : Spec.ogTitleClose ++ post = '"' :: ('/' :: '>' :: post) := rfl
    have hk : (fun cap1 s1 => regexp.matchAtoms
        (regexp.Atom.closeGroup
          :: (Spec.ogTitleClose.map (fun c => regexp.Atom.one (fun x => x == c)) ++ []))
        true cap1 s1) (regexp.pushAll true (regexp.push true [] x) xs) ('"' :: ('/' :: '>' :: post))
          = some (x :: xs, post) := by
      simp [Spec.ogTitleClose, regexp.pushAll, regexp.push, regexp.matchAtoms]
    have hg := greedyStar_run (regexp.notChar '"') _ true '"' ('/' :: '>' :: post) (by decide) xs
      (regexp.push true [] x) (x :: xs, post) hxs hk
    simp only [regexp.pushAll, Bool.false_eq_true, if_false, List.cons_append, regexp.matchAtoms,
      hx, if_true, hclose]
    exact hg

/-- A match of the `og:title` pattern starts with a tag whose content is non-empty and free
of quotes, and captures that content. -/
theorem ogTitle_match_inv (input : List Char) (r : List Char × List Char)
    (h : regexp.matchAtoms ogTitleRegex false [] input = some r) :
    r.1 ≠ [] ∧ '"' ∉ r.1
      ∧ input = Spec.ogTitleOpen ++ (r.1 ++ (Spec.ogTitleClose ++ r.2)) := by
  rw [ogTitleRegex_eq, matchAtoms_lit] at h
  by_cases hp : Spec.ogTitleOpen.isPrefixOf input = true
  · rw [if_pos hp] at h
    obtain ⟨rest, hrest⟩ := List.isPrefixOf_iff_prefix.mp hp
    subst hrest
    rw [List.drop_left] at h
    cases rest with
    | nil => simp [regexp.matchAtoms, regexp.pushAll] at h
    | cons x xs =>
      by_cases hx : regexp.notChar '"' x = true
      · simp only [regexp.pushAll, Bool.false_eq_true, if_false, regexp.matchAtoms, hx,
          if_true] at h
        obtain ⟨run, s1, hrun, hs, hk⟩ := greedyStar_sound _ _ _ _ _ _ h
        rcases s1 with _ | ⟨c0, _ | ⟨c1, _ | ⟨c2, q⟩⟩⟩
        · simp at hk
        · simp at hk
        · simp at hk
        · simp only [regexp.push, regexp.pushAll, Bool.false_eq_true, if_false, if_true,
            List.nil_append, beq_iff_eq] at hk
          by_cases h0 : c0 = '"'
          · by_cases h1 : c1 = '/'
            · by_cases h2 : c2 = '>'
              · simp only [h0, h1, h2, if_true, Option.some.injEq] at hk
                subst hk
                subst h0 h1 h2
                refine ⟨by simp, ?_, by simp [hs, Spec.ogTitleClose]⟩
                intro hmem
                rcases List.mem_append.mp hmem with h3 | h3
                · simp only [List.mem_singleton] at h3
                  rw [← h3] at hx
                  revert hx; decide
                · have := hrun _ h3
                  revert this; decide
              · simp [h2] at hk
            · simp [h1] at hk
          · simp [h0] at hk
      · simp [regexp.pushAll, regexp.matchAtoms, hx] at h
  · rw [if_neg hp] at h
    exact Option.noConfusion h

/-- The leftmost match of the `og:title` pattern is at the first tag with a non-empty
content free of quotes, and captures its content. -/
theorem ogTitle_find (content post : List Char) (hc : content ≠ []) (hq : '"' ∉ content) :
    ∀ pre : List Char,
      (∀ p c q : List Char, c ≠ [] → '"' ∉ c →
        pre ++ (Spec.ogTitleOpen ++ (content ++ (Spec.ogTitleClose ++ post)))
          = p ++ (Spec.ogTitleOpen ++ (c ++ (Spec.ogTitleClose ++ q))) →
        pre.length ≤ p.length) →
      regexp.FindStringSubmatch ogTitleRegex
        (pre ++ (Spec.ogTitleOpen ++ (content ++ (Spec.ogTitleClose ++ post))))
          = some content := by
  intro pre
  induction pre with
  | nil =>
    intro _
    have hm := ogTitle_match content post hc hq
    have hne : Spec.ogTitleOpen ++ (content ++ (Spec.ogTitleClose ++ post))
        = '<' :: (Spec.ogTitleOpen.tail ++ (content ++ (Spec.ogTitleClose ++ post))) := rfl
    rw [List.nil_append]
    rw [hne] at hm ⊢
    simp only [regexp.FindStringSubmatch, hm]
  | cons x xs ih =>
    intro hfirst
    have hfail : regexp.matchAtoms ogTitleRegex false []
        (x :: (xs ++ (Spec.ogTitleOpen ++ (content ++ (Spec.ogTitleClose ++ post))))) = none := by
      cases hm : regexp.matchAtoms ogTitleRegex false []
          (x :: (xs ++ (Spec.ogTitleOpen ++ (content ++ (Spec.ogTitleClose ++ post))))) with
      | none => rfl
      | some r =>
        obtain ⟨h1, h2, h3⟩ := ogTitle_match_inv _ r hm
        have := hfirst [] r.1 r.2 h1 h2 (by rw [List.nil_append, ← h3]; rfl)
        simp at this
    have hrec := ih (fun p c q h1 h2 h3 => by
      have := hfirst (x :: p) c q h1 h2 (by rw [List.cons_append, List.cons_append, h3])
      simpa using this)
    rw [List.cons_append]
    simp only [regexp.FindStringSubmatch, hfail, hrec]

/-- In a text without a tag with a non-empty content free of quotes, the `og:title` pattern
has no match. -/
theorem ogTitle_find_none :
    ∀ html : List Char,
      (∀ p c q : List Char, c ≠ [] → '"' ∉ c →
        html ≠ p ++ (Spec.ogTitleOpen ++ (c ++ (Spec.ogTitleClose ++ q)))) →
      regexp.FindStringSubmatch ogTitleRegex html = none := by
  intro html
  induction html with
  | nil =>
    intro hno
    cases hm : regexp.matchAtoms ogTitleRegex false [] [] with
    | none => simp only [regexp.FindStringSubmatch, hm, Option.map_none']
    | some r =>
      obtain ⟨h1, h2, h3⟩ := ogTitle_match_inv _ r hm
      exact (hno [] r.1 r.2 h1 h2 (by rw [List.nil_append]; exact h3)).elim
  | cons x xs ih =>
    intro hno
    cases hm : regexp.matchAtoms ogTitleRegex false [] (x :: xs) with
    | some r =>
      obtain ⟨h1, h2, h3⟩ := ogTitle_match_inv _ r hm
      exact (hno [] r.1 r.2 h1 h2 (by rw [List.nil_append]; exact h3)).elim
    | none =>
      have hrec := ih (fun p c q h1 h2 h3 => hno (x :: p) c q h1 h2 (by rw [h3]; rfl))
      simp only [regexp.FindStringSubmatch, hm, hrec]

theorem TrimSuffix_append (x suffix : List Char) :
    strings.TrimSuffix (x ++ suffix) suffix = x := by
  have h : suffix.isSuffixOf (x ++ suffix) = true :=
    List.isSuffixOf_iff_suffix.mpr ⟨x, rfl⟩
  simp [strings.TrimSuffix, h]

theorem TrimSuffix_of_not_suffix (x suffix : List Char) (h : ¬ suffix <:+ x) :
    strings.TrimSuffix x suffix = x := by
  have hb : suffix.isSuffixOf x = false := by
    rw [Bool.eq_false_iff]
    exact fun hs => h (List.isSuffixOf_iff_suffix.mp hs)
  simp [strings.TrimSuffix, hb]

/-- C17, counterexample: the page `<meta property="og:title" content=""/>` has an
`og:title` meta tag, with the empty content, yet the summary name is `Unknown Playlist`, not
the empty text; and when a tag with the content `Road Trip` follows, the summary name is
`Road Trip`, not the content of the first tag. -/
theorem parsePlaylistFromEmbedHTML_sentinel_counterexample :
    (parsePlaylistFromEmbedHTML (Spec.ogTitleOpen ++ Spec.ogTitleClose) "id1".toList
        "Unknown Playlist".toList).1.Name = "Unknown Playlist".toList
    ∧ (parsePlaylistFromEmbedHTML
        (Spec.ogTitleOpen ++ Spec.ogTitleClose
          ++ (Spec.ogTitleOpen ++ "Road Trip".toList ++ Spec.ogTitleClose))
        "id1".toList "Unknown Playlist".toList).1.Name = "Road Trip".toList
    ∧ Spec.ogTitleOpen ++ Spec.ogTitleClose
        = "<meta property=\"og:title\" content=\"\"/>".toList := by
  decide

/-- C17 (amended): with the name `Unknown Playlist` the summary name is the content of the
first `og:title` meta tag with a non-empty content, whitespace-trimmed and with one trailing
` Spotify` removed if present (and left unchanged otherwise); without such a tag it is
`Unknown Playlist`. -/
theorem parsePlaylistFromEmbedHTML_sentinel (html id : List Char) :
    (∀ pre content post : List Char,
        html = pre ++ (Spec.ogTitleOpen ++ (content ++ (Spec.ogTitleClose ++ post))) →
        content ≠ [] → '"' ∉ content →
        (∀ p c q : List Char, c ≠ [] → '"' ∉ c →
          html = p ++ (Spec.ogTitleOpen ++ (c ++ (Spec.ogTitleClose ++ q))) →
          pre.length ≤ p.length) →
        (parsePlaylistFromEmbedHTML html id "Unknown Playlist".toList).1.Name
          = strings.TrimSuffix (strings.TrimSpace content) " Spotify".toList)
    ∧ ((∀ p c q : List Char, c ≠ [] → '"' ∉ c →
          html ≠ p ++ (Spec.ogTitleOpen ++ (c ++ (Spec.ogTitleClose ++ q)))) →
        (parsePlaylistFromEmbedHTML html id "Unknown Playlist".toList).1.Name
          = "Unknown Playlist".toList)
    ∧ (∀ x : List Char, strings.TrimSuffix (x ++ " Spotify".toList) " Spotify".toList = x)
    ∧ (∀ x : List Char, ¬ " Spotify".toList <:+ x →
        strings.TrimSuffix x " Spotify".toList = x) := by
  have hname : (parsePlaylistFromEmbedHTML html id "Unknown Playlist".toList).1.Name
      = (match regexp.FindStringSubmatch ogTitleRegex html with
        | some content => strings.TrimSuffix (strings.TrimSpace content) " Spotify".toList
        | none => "Unknown Playlist".toList) := by
    simp only [parsePlaylistFromEmbedHTML, ne_eq, not_true_eq_false, if_false]
  refine ⟨?_, ?_, fun x => TrimSuffix_append x _, fun x h => TrimSuffix_of_not_suffix x _ h⟩
  · intro pre content post hhtml hne hq hfirst
    subst hhtml
    rw [hname, ogTitle_find content post hne hq pre hfirst]
  · intro hno
    rw [hname, ogTitle_find_none html hno]

/-- C17 (amended), on a page that starts with the tag of content ` Road Trip Spotify`:
the summary name is `Road Trip`. -/
theorem parsePlaylistFromEmbedHTML_sentinel_witness :
    (parsePlaylistFromEmbedHTML
        ([] ++ (Spec.ogTitleOpen ++ (" Road Trip Spotify".toList
          ++ (Spec.ogTitleClose ++ "</head>".toList))))
        "id1".toList "Unknown Playlist".toList).1.Name
      = strings.TrimSuffix (strings.TrimSpace " Road Trip Spotify".toList) " Spotify".toList
    ∧ strings.TrimSuffix (strings.TrimSpace " Road Trip Spotify".toList) " Spotify".toList
      = "Road Trip".toList :=
  ⟨(parsePlaylistFromEmbedHTML_sentinel
      ([] ++ (Spec.ogTitleOpen ++ (" Road Trip Spotify".toList
        ++ (Spec.ogTitleClose ++ "</head>".toList))))
      "id1".toList).1 [] " Road Trip Spotify".toList "</head>".toList rfl
      (by decide) (by decide) (fun _ _ _ _ _ _ => Nat.zero_le _), by decide⟩

/-! ## Match selector: the artist -/

/-- The loop of `findBestMatch` is a search for the first video whose lower-cased title
contains the given name; the artist argument is not used. -/
theorem findBestMatchLoop_eq_find (tbl : Char → Char) (name artist : List Char) :
    ∀ vs : List YouTubeVideo,
      findBestMatchLoop tbl name artist vs
        = vs.find? (fun v => strings.Contains (strings.ToLower tbl v.Title) name) := by
  intro vs
  induction vs with
  | nil => rfl
  | cons v rest ih =>
    by_cases hv : strings.Contains (strings.ToLower tbl v.Title) name = true
    · simp only [findBestMatchLoop, hv, Bool.true_and, if_true, List.find?_cons_of_pos]
      split <;> rfl
    · simp only [findBestMatchLoop, hv, Bool.false_and, Bool.false_eq_true, if_false, ih,
        List.find?_cons_of_neg, not_false_eq_true]

theorem findBestMatch_eq_find (tbl : Char → Char) (t : Track) (C : List YouTubeVideo) :
    findBestMatch tbl t C
      = ((C.find? fun v =>
            strings.Contains (strings.ToLower tbl v.Title) (strings.ToLower tbl t.Name)).orElse
          fun _ => C.head?) := by
  cases C with
  | nil => rfl
  | cons v vs =>
    rw [findBestMatch_cons, findBestMatchLoop_eq_find]
    cases List.find? (fun v =>
      strings.Contains (strings.ToLower tbl v.Title) (strings.ToLower tbl t.Name)) (v :: vs)
      <;> rfl

theorem Contains_nil (s : List Char) : strings.Contains s [] = true := by
  cases s <;> simp [strings.Contains, List.isPrefixOf]

/-- C29: the artist never influences the selection.  Replacing the artist of a track by any
other artist leaves the result of `findBestMatch` unchanged, for every candidate list;
`findBestMatch` returns the first candidate whose lower-cased title contains the lower-cased
track name, or the first candidate of the list when there is none (nothing for the empty
list); with an empty track name it always returns the first candidate. -/
theorem findBestMatch_artist_irrelevant (tbl : Char → Char) (t : Track) (artist : List Char)
    (C : List YouTubeVideo) :
    findBestMatch tbl { t with Artist := artist } C = findBestMatch tbl t C
      ∧ findBestMatch tbl t C
        = ((C.find? fun v =>
              strings.Contains (strings.ToLower tbl v.Title) (strings.ToLower tbl t.Name)).orElse
            fun _ => C.head?)
      ∧ findBestMatch tbl { t with Name := [] } C = C.head? := by
  refine ⟨?_, findBestMatch_eq_find tbl t C, ?_⟩
  · rw [findBestMatch_eq_find, findBestMatch_eq_find]
  · rw [findBestMatch_eq_find]
    cases C with
    | nil => rfl
    | cons v vs =>
      have h : strings.Contains (strings.ToLower tbl v.Title) (strings.ToLower tbl []) = true :=
        Contains_nil _
      simp only [List.find?_cons_of_pos, h, Option.orElse, List.head?_cons]

/-! ## Playlist link parsing: theorems -/

/-- A separator at the head of the text closes the current piece. -/
theorem splitFrom_sep_head (sep : List Char) (hsep : sep ≠ []) (rest cur : List Char) :
    strings.splitFrom sep 0 cur (sep ++ rest) = cur :: strings.splitFrom sep 0 [] rest := by
  cases sep with
  | nil => exact (hsep rfl).elim
  | cons c cs =>
    have hp : (c :: cs).isPrefixOf (c :: (cs ++ rest)) = true :=
      List.isPrefixOf_iff_prefix.mpr ⟨rest, rfl⟩
    rw [List.cons_append, strings.splitFrom, if_pos hp, splitFrom_skip]
    simp

theorem isPrefixOf_append_of_le (sep : List Char) :
    ∀ (x rest : List Char), sep.length ≤ x.length →
      sep.isPrefixOf (x ++ rest) = sep.isPrefixOf x := by
  induction sep with
  | nil => intro x rest _; simp
  | cons s ss ih =>
    intro x rest h
    cases x with
    | nil => simp at h
    | cons c cs =>
      show ((s == c) && ss.isPrefixOf (cs ++ rest)) = ((s == c) && ss.isPrefixOf cs)
      rw [ih cs rest (by simpa using h)]

/-- When the separator does not start inside `pre`, the text `pre ++ sep ++ rest` splits
first after `pre`. -/
theorem splitFrom_first (sep : List Char) (hsep : sep ≠ []) (rest : List Char) :
    ∀ (pre cur : List Char),
      (∀ n, n < pre.length → sep.isPrefixOf ((pre ++ sep).drop n) = false) →
      strings.splitFrom sep 0 cur (pre ++ sep ++ rest)
        = (cur ++ pre) :: strings.splitFrom sep 0 [] rest := by
  intro pre
  induction pre with
  | nil =>
    intro cur _
    rw [List.nil_append, splitFrom_sep_head sep hsep, List.append_nil]
  | cons c cs ih =>
    intro cur h
    have h0 : sep.isPrefixOf (c :: cs ++ sep) = false := h 0 (Nat.succ_pos _)
    have hp : ¬ sep.isPrefixOf (c :: (cs ++ sep ++ rest)) = true := by
      rw [show c :: (cs ++ sep ++ rest) = (c :: cs ++ sep) ++ rest by simp,
        isPrefixOf_append_of_le _ _ _ (by simp; omega), h0]
      simp
    have hrest : ∀ n, n < cs.length → sep.isPrefixOf ((cs ++ sep).drop n) = false := by
      intro n hn
      have := h (n + 1) (by simp; omega)
      simpa using this
    rw [List.cons_append, List.cons_append, strings.splitFrom, if_neg hp, ih _ hrest]
    simp

/-- The piece being read is the start of the first piece returned. -/
theorem splitFrom_head (sep : List Char) :
    ∀ (s : List Char) (k : Nat) (cur : List Char),
      ∃ tail more, strings.splitFrom sep k cur s = (cur ++ tail) :: more := by
  intro s
  induction s with
  | nil => intro k cur; exact ⟨[], [], by cases k <;> simp [strings.splitFrom]⟩
  | cons c cs ih =>
    intro k cur
    cases k with
    | succ k =>
      obtain ⟨tail, more, h⟩ := ih k cur
      exact ⟨tail, more, by rw [strings.splitFrom, h]⟩
    | zero =>
      by_cases hp : sep.isPrefixOf (c :: cs) = true
      · exact ⟨[], _, by rw [strings.splitFrom, if_pos hp, List.append_nil]⟩
      · obtain ⟨tail, more, h⟩ := ih 0 (cur ++ [c])
        exact ⟨c :: tail, more, by rw [strings.splitFrom, if_neg hp, h]; simp⟩

theorem isPrefixOf_append_cons (x : Char) (q : List Char) :
    ∀ (sep m : List Char), sep.isPrefixOf (m ++ x :: q) = true →
      x ∈ sep ∨ sep.isPrefixOf m = true := by
  intro sep
  induction sep with
  | nil => intro m _; right; simp
  | cons s ss ih =>
    intro m h
    cases m with
    | nil =>
      left
      simp only [List.nil_append, List.isPrefixOf, Bool.and_eq_true, beq_iff_eq] at h
      rw [h.1]; exact List.mem_cons_self _ _
    | cons c cs =>
      simp only [List.cons_append, List.isPrefixOf, Bool.and_eq_true, beq_iff_eq] at h
      rcases ih cs h.2 with hx | hp
      · left; exact List.mem_cons_of_mem _ hx
      · right; simp [List.isPrefixOf, h.1, hp]

/-- A text `m` without the separator, followed by a character `x` that the separator does not
hold: the first piece starts with `m` and `x`. -/
theorem splitFrom_head_through (sep : List Char) (hsep : sep ≠ []) (x : Char) (hx : x ∉ sep)
    (q : List Char) :
    ∀ (m cur : List Char), ¬ sep <:+: m →
      ∃ tail more, strings.splitFrom sep 0 cur (m ++ x :: q) = (cur ++ m ++ x :: tail) :: more := by
  intro m
  induction m with
  | nil =>
    intro cur _
    have hp : ¬ sep.isPrefixOf (x :: q) = true := by
      intro hp
      rcases isPrefixOf_append_cons x q sep [] hp with h | h
      · exact hx h
      · cases sep with
        | nil => exact hsep rfl
        | cons s ss => simp [List.isPrefixOf] at h
    obtain ⟨tail, more, h⟩ := splitFrom_head sep q 0 (cur ++ [x])
    exact ⟨tail, more, by rw [List.nil_append, strings.splitFrom, if_neg hp, h]; simp⟩
  | cons c cs ih =>
    intro cur hm
    have hp : ¬ sep.isPrefixOf (c :: (cs ++ x :: q)) = true := by
      intro hp
      rcases isPrefixOf_append_cons x q sep (c :: cs) hp with h | h
      · exact hx h
      · exact hm (List.isPrefixOf_iff_prefix.mp h).isInfix
    obtain ⟨tail, more, h⟩ := ih (cur ++ [c]) (fun hi => hm (List.infix_cons hi))
    exact ⟨tail, more, by rw [List.cons_append, strings.splitFrom, if_neg hp, h]; simp⟩

/-- An occurrence of a text whose first character is not in `a` lies, within `a ++ b`,
entirely in `b`. -/
theorem infix_of_append_of_head_not_mem (s : Char) (ss : List Char) :
    ∀ (a b : List Char), s ∉ a → (s :: ss) <:+: a ++ b → (s :: ss) <:+: b := by
  intro a
  induction a with
  | nil => intro b _ h; exact h
  | cons c cs ih =>
    intro b ha h
    rcases List.infix_cons_iff.mp h with hp | hi
    · obtain ⟨t, ht⟩ := hp
      have : s = c := by
        have := congrArg List.head? ht
        simpa using this
      exact (ha (by rw [this]; exact List.mem_cons_self _ _)).elim
    · exact ih b (fun hm => ha (List.mem_cons_of_mem _ hm)) hi

/-- A text `m` without the character `x`, followed by `x`: splitting at `x` gives `m` as the
first piece. -/
theorem splitFrom_char_head (x : Char) (s : List Char) :
    ∀ (m cur : List Char), x ∉ m →
      ∃ more, strings.splitFrom [x] 0 cur (m ++ x :: s) = (cur ++ m) :: more := by
  intro m
  induction m with
  | nil =>
    intro cur _
    have hp : [x].isPrefixOf (x :: s) = true := by simp [List.isPrefixOf]
    exact ⟨_, by rw [List.nil_append, strings.splitFrom, if_pos hp, List.append_nil]⟩
  | cons c cs ih =>
    intro cur h
    have hcx : ¬ x = c := fun e => h (by rw [e]; exact List.mem_cons_self _ _)
    have hp : [x].isPrefixOf (c :: (cs ++ x :: s)) = false := by
      simp [List.isPrefixOf]; exact hcx
    obtain ⟨more, hm⟩ := ih (cur ++ [c]) (fun hm => h (List.mem_cons_of_mem _ hm))
    exact ⟨more, by rw [List.cons_append, strings.splitFrom, if_neg (by simp [hp]), hm]; simp⟩

theorem Split_length_pos (s sep : List Char) (hsep : sep ≠ []) :
    0 < (strings.Split s sep).length := by
  have : sep.isEmpty = false := by cases sep <;> simp_all
  simp only [strings.Split, this, Bool.false_eq_true, if_false]
  exact splitFrom_length_pos sep s [] 0

theorem Split_length_of_infix (s sep : List Char) (hsep : sep ≠ []) (h : sep <:+: s) :
    2 ≤ (strings.Split s sep).length := by
  have : sep.isEmpty = false := by cases sep <;> simp_all
  simp only [strings.Split, this, Bool.false_eq_true, if_false]
  exact splitFrom_length_of_infix sep hsep s [] h

/-- C28: `extractPlaylistID` handles the documented link formats.  For an id without `?`,
without `/playlist/` and without `spotify:playlist:` it returns the id and a nil error for
the web address, for the web address followed by `?` and any query text, and for the URI;
for every text it returns an error exactly when the text contains neither
`open.spotify.com/playlist/` nor `spotify:playlist:`, and that error is
`unsupported URL format`: the two `invalid Spotify playlist` branches are never taken.  The
index `[0]` applied to a split at `?` is always in range. -/
theorem extractPlaylistID_spec (id : List Char) (h1 : '?' ∉ id)
    (h2 : ¬ "/playlist/".toList <:+: id) (h3 : ¬ "spotify:playlist:".toList <:+: id) :
    extractPlaylistID ("https://open.spotify.com/playlist/".toList ++ id) = (id, none)
      ∧ (∀ query : List Char,
          extractPlaylistID
            ("https://open.spotify.com/playlist/".toList ++ id ++ "?".toList ++ query)
            = (id, none))
      ∧ extractPlaylistID ("spotify:playlist:".toList ++ id) = (id, none)
      ∧ (∀ url : List Char,
          ((extractPlaylistID url).2 ≠ none
            ↔ (¬ "open.spotify.com/playlist/".toList <:+: url
                ∧ ¬ "spotify:playlist:".toList <:+: url))
          ∧ ((extractPlaylistID url).2 = none
              ∨ extractPlaylistID url = ([], some "unsupported URL format".toList)))
      ∧ ∀ s : List Char, 0 < (strings.Split s "?".toList).length := by
  have hweb : ("https://open.spotify.com/playlist/".toList : List Char)
      = "https://open.spotify.com".toList ++ "/playlist/".toList := by decide
  have hsepne : ("/playlist/".toList : List Char) ≠ [] := by decide
  have hurine : ("spotify:playlist:".toList : List Char) ≠ [] := by decide
  have hqne : ("?".toList : List Char) ≠ [] := by decide
  have hfree : ∀ n, n < "https://open.spotify.com".toList.length →
      "/playlist/".toList.isPrefixOf
        (("https://open.spotify.com".toList ++ "/playlist/".toList).drop n) = false := by
    decide
  have hsplitE : ∀ (sep s : List Char), sep ≠ [] →
      strings.Split s sep = strings.splitFrom sep 0 [] s := by
    intro sep s hne
    have : sep.isEmpty = false := by cases sep <;> simp_all
    simp only [strings.Split, this, Bool.false_eq_true, if_false]
  have hcontains : ∀ rest : List Char, strings.Contains
      ("https://open.spotify.com/playlist/".toList ++ rest)
      "open.spotify.com/playlist/".toList = true := by
    intro rest
    rw [Contains_iff]
    exact ⟨"https://".toList, rest, by
      have : ("https://".toList ++ "open.spotify.com/playlist/".toList : List Char)
          = "https://open.spotify.com/playlist/".toList := by decide
      rw [this]⟩
  refine ⟨?_, ?_, ?_, ?_, ?_⟩
  · have hsplit : strings.Split ("https://open.spotify.com/playlist/".toList ++ id)
        "/playlist/".toList = ["https://open.spotify.com".toList, id] := by
      rw [hsplitE _ _ hsepne, hweb,
        splitFrom_first _ hsepne id _ [] hfree, splitFrom_of_not_infix _ id [] h2]
      rfl
    have hq : strings.Split id "?".toList = [id] := by
      rw [hsplitE _ _ hqne]
      exact splitFrom_of_not_mem '?' id [] h1
    simp only [extractPlaylistID, hcontains, if_true, hsplit, List.length_cons,
      List.length_nil, List.getD_cons_succ, List.getD_cons_zero, hq, List.headD_cons]
    simp
  · intro query
    obtain ⟨tail, more, hhead⟩ := splitFrom_head_through "/playlist/".toList hsepne '?'
      (by decide) query id [] h2
    have hsplit : strings.Split
        ("https://open.spotify.com/playlist/".toList ++ id ++ "?".toList ++ query)
        "/playlist/".toList
        = "https://open.spotify.com".toList :: (id ++ '?' :: tail) :: more := by
      have hq : ("?".toList : List Char) = ['?'] := rfl
      rw [hsplitE _ _ hsepne, hweb, hq, List.append_assoc, List.append_assoc,
        splitFrom_first _ hsepne _ _ [] hfree]
      simp only [List.singleton_append, List.nil_append]
      rw [hhead]
      simp
    obtain ⟨more2, hq2⟩ : ∃ more2, strings.Split (id ++ '?' :: tail) "?".toList
        = id :: more2 := by
      obtain ⟨more2, h⟩ := splitFrom_char_head '?' tail id [] h1
      exact ⟨more2, by rw [hsplitE _ _ hqne]; exact h⟩
    have hc := hcontains (id ++ "?".toList ++ query)
    rw [← List.append_assoc, ← List.append_assoc] at hc
    simp only [extractPlaylistID, hc, if_true, hsplit, List.length_cons,
      List.getD_cons_succ, List.getD_cons_zero, hq2, List.headD_cons]
    simp
  · have hnot : ¬ strings.Contains ("spotify:playlist:".toList ++ id)
        "open.spotify.com/playlist/".toList = true := by
      rw [Contains_iff]
      intro hin
      have hsub : "/playlist/".toList <:+: "open.spotify.com/playlist/".toList :=
        ⟨"open.spotify.com".toList, [], by decide⟩
      exact h2 (infix_of_append_of_head_not_mem '/' "playlist/".toList
        "spotify:playlist:".toList id (by decide) (hsub.trans hin))
    have hyes : strings.Contains ("spotify:playlist:".toList ++ id)
        "spotify:playlist:".toList = true := by
      rw [Contains_iff]
      exact ⟨[], id, rfl⟩
    have hsplit : strings.Split ("spotify:playlist:".toList ++ id) "spotify:playlist:".toList
        = [[], id] := by
      rw [hsplitE _ _ hurine, splitFrom_sep_head _ hurine, splitFrom_of_not_infix _ id [] h3]
      rfl
    simp only [extractPlaylistID, hnot, if_false, hyes, if_true, hsplit, List.length_cons,
      List.length_nil, List.getD_cons_succ, List.getD_cons_zero]
    simp
  · intro url
    by_cases hA : strings.Contains url "open.spotify.com/playlist/".toList = true
    · have hin := (Contains_iff _ _).mp hA
      have hsub : "/playlist/".toList <:+: "open.spotify.com/playlist/".toList :=
        ⟨"open.spotify.com".toList, [], by decide⟩
      have hlen := Split_length_of_infix url _ hsepne (hsub.trans hin)
      have hres : (extractPlaylistID url).2 = none := by
        simp only [extractPlaylistID, hA, if_true, if_neg (Nat.not_lt.mpr hlen)]
      exact ⟨⟨fun h => (h hres).elim, fun h => (h.1 hin).elim⟩, Or.inl hres⟩
    · by_cases hB : strings.Contains url "spotify:playlist:".toList = true
      · have hin := (Contains_iff _ _).mp hB
        have hlen := Split_length_of_infix url _ hurine hin
        have hres : (extractPlaylistID url).2 = none := by
          simp only [extractPlaylistID, hA, Bool.false_eq_true, if_false, hB, if_true,
            if_neg (Nat.not_lt.mpr hlen)]
        exact ⟨⟨fun h => (h hres).elim, fun h => (h.2 hin).elim⟩, Or.inl hres⟩
      · have hres : extractPlaylistID url = ([], some "unsupported URL format".toList) := by
          simp only [extractPlaylistID, hA, Bool.false_eq_true, if_false, hB]
        refine ⟨⟨fun _ => ⟨fun h => hA ((Contains_iff _ _).mpr h),
          fun h => hB ((Contains_iff _ _).mpr h)⟩, fun _ => ?_⟩, Or.inr hres⟩
        rw [hres]; simp
  · intro s
    exact Split_length_pos s _ hqne

/-- C28, for the id `37i9dQZF1DXcBWIGoYBM5M` of the examples in the source comment. -/
theorem extractPlaylistID_spec_witness :
    extractPlaylistID "https://open.spotify.com/playlist/37i9dQZF1DXcBWIGoYBM5M".toList
        = ("37i9dQZF1DXcBWIGoYBM5M".toList, none)
      ∧ extractPlaylistID
          "https://open.spotify.com/playlist/37i9dQZF1DXcBWIGoYBM5M?si=abc".toList
        = ("37i9dQZF1DXcBWIGoYBM5M".toList, none)
      ∧ extractPlaylistID "spotify:playlist:37i9dQZF1DXcBWIGoYBM5M".toList
        = ("37i9dQZF1DXcBWIGoYBM5M".toList, none) :=
  have h := extractPlaylistID_spec "37i9dQZF1DXcBWIGoYBM5M".toList (by decide)
    (fun hin => absurd ((Contains_iff _ _).mpr hin) (by decide))
    (fun hin => absurd ((Contains_iff _ _).mpr hin) (by decide))
  ⟨h.1, h.2.1 "si=abc".toList, h.2.2.1⟩

/-! ## Map iteration order: theorems -/

/-- The embedded-state results under two map iteration orders hold the same tracks, possibly
in another order. -/
theorem extractTracksFromScriptTags_perm (lib : Lib) (order1 order2 : MapOrder)
    (html : List Char) :
    (extractTracksFromScriptTags lib order1 html).Perm
      (extractTracksFromScriptTags lib order2 html) := by
  cases h1 : regexp.FindStringSubmatch scriptRegex html with
  | none => simp only [extractTracksFromScriptTags, h1]; exact List.Perm.refl _
  | some jsonData =>
    cases h2 : lib.unmarshalInitialState jsonData with
    | none => simp only [extractTracksFromScriptTags, h1, h2]; exact List.Perm.refl _
    | some data =>
      simp only [extractTracksFromScriptTags, h1, h2]
      exact List.Perm.map _ ((order1.perm data).trans (order2.perm data).symm)

/-- C27: track extraction is not a function of the markup alone.  On a page whose embedded
state holds two tracks, `parseTracksFromHTML` returns them in one order when the map is
visited as listed and in the opposite order when it is visited in reverse, so two invocations
on the same markup can return different sequences.  What does hold: the two results always
hold the same tracks up to order, and they are equal whenever the embedded-state strategy
finds nothing, the other three strategies being functions of the markup. -/
theorem parseTracksFromHTML_order_dependent :
    parseTracksFromHTML twoTrackLib listedOrder listedOrder twoTrackMarkup
        = some ([{ Name := "One More Time".toList }, { Name := "Around the World".toList }],
            none)
      ∧ parseTracksFromHTML twoTrackLib reversedOrder reversedOrder twoTrackMarkup
        = some ([{ Name := "Around the World".toList }, { Name := "One More Time".toList }],
            none)
      ∧ parseTracksFromHTML twoTrackLib listedOrder listedOrder twoTrackMarkup
        ≠ parseTracksFromHTML twoTrackLib reversedOrder reversedOrder twoTrackMarkup
      ∧ (∀ (lib : Lib) (o1 o2 o3 o4 : MapOrder) (html : List Char),
          ∃ t1 t2, parseTracksFromHTML lib o1 o2 html = some (t1, none)
            ∧ parseTracksFromHTML lib o3 o4 html = some (t2, none)
            ∧ t1.Perm t2
            ∧ (extractTracksFromScriptTags lib o1 html = [] → t1 = t2)) := by
  refine ⟨by decide, by decide, by decide, ?_⟩
  intro lib o1 o2 o3 o4 html
  obtain ⟨rows, hrows⟩ := extractTracksFromDataTestId_isSome lib html
  refine ⟨_, _, parseTracksFromHTML_eq lib o1 o2 html rows hrows,
    parseTracksFromHTML_eq lib o3 o4 html rows hrows, ?_, ?_⟩
  · have hperm := extractTracksFromScriptTags_perm lib o1 o3 html
    cases h1 : extractTracksFromScriptTags lib o1 html with
    | nil =>
      rw [h1] at hperm
      rw [List.Perm.nil_eq hperm]
    | cons t ts =>
      rw [h1] at hperm
      cases h3 : extractTracksFromScriptTags lib o3 html with
      | nil => rw [h3] at hperm; exact absurd hperm.length_eq (by simp)
      | cons u us =>
        rw [h3] at hperm
        simpa [Spec.firstNonEmpty] using hperm
  · intro h1
    have hperm := extractTracksFromScriptTags_perm lib o1 o3 html
    rw [h1] at hperm
    rw [h1, List.Perm.nil_eq hperm]

/-! ## Transfer orchestrator: theorems -/

/-- For a non-empty candidate list `findBestMatch` returns a video. -/
theorem findBestMatch_isSome (tbl : Char → Char) (t : Track) (v : YouTubeVideo)
    (vs : List YouTubeVideo) : ∃ best, findBestMatch tbl t (v :: vs) = some best := by
  rw [findBestMatch_cons]
  cases findBestMatchLoop tbl (strings.ToLower tbl t.Name) (strings.ToLower tbl t.Artist)
      (v :: vs) with
  | none => exact ⟨v, rfl⟩
  | some b => exact ⟨b, rfl⟩

theorem SearchVideo_calls {σ : Type} (api : Api σ) (w : World σ) (query : List Char) :
    (SearchVideo api w query).2.calls = w.calls ++ [ApiCall.searchList query] := by
  unfold SearchVideo
  simp only
  split
  · rfl
  · split <;> rfl

theorem AddVideoToPlaylist_calls {σ : Type} (api : Api σ) (w : World σ)
    (playlistID videoID : List Char) :
    (AddVideoToPlaylist api w playlistID videoID).2.calls
      = w.calls ++ [ApiCall.playlistItemsInsert playlistID videoID] := by
  unfold AddVideoToPlaylist
  simp only
  split
  · split <;> rfl
  · rfl

/-- The loop of `SearchVideo` ends without a panic when every item carries its id and its
snippet. -/
theorem searchVideoLoop_isSome :
    ∀ items : List SearchItem,
      (∀ item ∈ items, item.Id.isSome = true ∧ item.Snippet.isSome = true) →
      ∃ videos, searchVideoLoop items = some videos := by
  intro items
  induction items with
  | nil => intro _; exact ⟨[], rfl⟩
  | cons item rest ih =>
    intro h
    obtain ⟨hid, hsn⟩ := h item (List.mem_cons_self _ _)
    obtain ⟨videos, hv⟩ := ih (fun i hi => h i (List.mem_cons_of_mem _ hi))
    obtain ⟨id, hid⟩ := Option.isSome_iff_exists.mp hid
    obtain ⟨sn, hsn⟩ := Option.isSome_iff_exists.mp hsn
    simp only [searchVideoLoop, searchItemVideo, hid, hsn, hv]
    exact ⟨_, rfl⟩

/-- With a remote service whose search hits carry their id and snippet, `SearchVideo` does not
panic. -/
theorem SearchVideo_isSome {σ : Type} (api : Api σ) (hc : Spec.Complete api) (w : World σ)
    (query : List Char) : ∃ r, (SearchVideo api w query).1 = some r := by
  unfold SearchVideo
  rcases hr : api.searchList w.state query with ⟨res, st1⟩
  cases res with
  | error err => exact ⟨_, rfl⟩
  | ok items =>
    obtain ⟨videos, hv⟩ := searchVideoLoop_isSome items (hc.1 w.state query items st1 hr)
    simp only [hv]
    exact ⟨_, rfl⟩

/-- One iteration of the transfer loop makes the attempt described by `Spec.attempts`: it
searches once; when the search panics the iteration panics and the attempt is the last one;
otherwise it counts the track as matched exactly when the attempt is matched, and records one
failure for the track when it is not.  Apart from the search it makes, outside a dry run, at
most one insertion, into the given playlist. -/
theorem transferTrack_spec {σ : Type} (api : Api σ) (tbl : Char → Char)
    (pl : YouTubePlaylist) (dryRun : Bool) (acc : TransferResult × World σ) (t : Track) :
    ∃ (a : Spec.Attempt) (w1 : World σ),
      (transferTrack api tbl pl dryRun acc t).2 = w1
      ∧ a.track = t
      ∧ ((a.panicked = true
            ∧ (∀ rest, Spec.attempts api tbl pl dryRun (t :: rest) acc.2 = [a])
            ∧ (transferTrack api tbl pl dryRun acc t).1 = none)
          ∨ (a.panicked = false
            ∧ (∀ rest, Spec.attempts api tbl pl dryRun (t :: rest) acc.2
                = a :: Spec.attempts api tbl pl dryRun rest w1)
            ∧ ((a.matched dryRun = true
                  ∧ (transferTrack api tbl pl dryRun acc t).1
                    = some { acc.1 with MatchedTracks := acc.1.MatchedTracks + 1 })
                ∨ (a.matched dryRun = false
                  ∧ ∃ reason, (transferTrack api tbl pl dryRun acc t).1
                    = some (recordFailure acc.1 t reason)))))
      ∧ ∃ calls, w1.calls = acc.2.calls ++ calls
          ∧ calls.filter ApiCall.isSearch = [ApiCall.searchList (buildSearchQuery t)]
          ∧ ∀ c ∈ calls, c.isSearch = true
              ∨ (dryRun = false ∧ ∃ v, c = ApiCall.playlistItemsInsert pl.ID v) := by
  have hsc := SearchVideo_calls api acc.2 (buildSearchQuery t)
  rcases hs : SearchVideo api acc.2 (buildSearchQuery t) with ⟨res, w1⟩
  rw [hs] at hsc
  simp only at hsc
  have hone : ∃ calls, w1.calls = acc.2.calls ++ calls
      ∧ calls.filter ApiCall.isSearch = [ApiCall.searchList (buildSearchQuery t)]
      ∧ ∀ c ∈ calls, c.isSearch = true
          ∨ (dryRun = false ∧ ∃ v, c = ApiCall.playlistItemsInsert pl.ID v) := by
    refine ⟨_, hsc, rfl, ?_⟩
    intro c hc
    left
    rw [List.mem_singleton.mp hc]
    rfl
  cases res with
  | none =>
    refine ⟨{ track := t, search := none, add := none }, w1, ?_, rfl, ?_, hone⟩
    · simp only [transferTrack, hs]
    · left
      exact ⟨rfl, fun rest => by simp only [Spec.attempts, hs], by simp only [transferTrack, hs]⟩
  | some res =>
    cases res with
    | error err =>
      refine ⟨{ track := t, search := some (Except.error err), add := none }, w1,
        ?_, rfl, ?_, hone⟩
      · simp only [transferTrack, hs]
      · right
        refine ⟨rfl, fun rest => by simp only [Spec.attempts, hs], ?_⟩
        right
        exact ⟨rfl, err, by simp only [transferTrack, hs]⟩
    | ok videos =>
      cases videos with
      | nil =>
        have hfb : findBestMatch tbl t [] = none := rfl
        refine ⟨{ track := t, search := some (Except.ok []), add := none }, w1,
          ?_, rfl, ?_, hone⟩
        · simp [transferTrack, hs]
        · right
          refine ⟨rfl, fun rest => by simp only [Spec.attempts, hs, hfb, ite_self], ?_⟩
          right
          exact ⟨rfl, "No matching video found".toList, by simp [transferTrack, hs]⟩
      | cons v vs =>
        obtain ⟨best, hbest⟩ := findBestMatch_isSome tbl t v vs
        cases dryRun with
        | true =>
          refine ⟨{ track := t, search := some (Except.ok (v :: vs)), add := none }, w1,
            ?_, rfl, ?_, hone⟩
          · simp [transferTrack, hs, hbest]
          · right
            refine ⟨rfl, fun rest => by simp only [Spec.attempts, hs, if_true], ?_⟩
            left
            exact ⟨rfl, by simp [transferTrack, hs, hbest]⟩
        | false =>
          have hac := AddVideoToPlaylist_calls api w1 pl.ID best.ID
          rcases ha : AddVideoToPlaylist api w1 pl.ID best.ID with ⟨answer, w2⟩
          rw [ha] at hac
          simp only at hac
          refine ⟨{ track := t, search := some (Except.ok (v :: vs)), add := some answer }, w2,
            ?_, rfl, ?_, ?_⟩
          · cases answer <;> simp [transferTrack, hs, hbest, ha]
          · right
            refine ⟨rfl, fun rest => by
              simp only [Spec.attempts, hs, Bool.false_eq_true, if_false, hbest, ha], ?_⟩
            cases answer with
            | none =>
              left
              exact ⟨rfl, by simp [transferTrack, hs, hbest, ha]⟩
            | some err =>
              right
              exact ⟨rfl, err, by simp [transferTrack, hs, hbest, ha]⟩
          · refine ⟨[ApiCall.searchList (buildSearchQuery t),
              ApiCall.playlistItemsInsert pl.ID best.ID], ?_, rfl, ?_⟩
            · rw [hac, hsc, List.append_assoc]
              rfl
            · intro c hc
              rcases List.mem_cons.mp hc with h | h
              · left; rw [h]; rfl
              · right
                exact ⟨rfl, best.ID, List.mem_singleton.mp h⟩

/-- The transfer loop over a list of tracks, started from any intermediate result.  The
attempts made are those of a first part of the list, and one search is made per attempt, in
order; every other call is, outside a dry run, an insertion into the given playlist.  The
loop ends in a panic exactly when an attempt does.  When it returns, every track was
attempted, the name, the playlist and the total are untouched, the counters have grown by the
numbers of matched and unmatched attempts, and one error text starting with
`artist - name: ` was appended per unmatched attempt. -/
theorem transferLoop_spec {σ : Type} (api : Api σ) (tbl : Char → Char)
    (pl : YouTubePlaylist) (dryRun : Bool) :
    ∀ (tracks : List Track) (result : TransferResult) (w : World σ),
      (Spec.attempts api tbl pl dryRun tracks w).map (fun a => a.track) <+: tracks
      ∧ (∃ calls, (transferLoop api tbl pl dryRun tracks result w).2.calls = w.calls ++ calls
          ∧ calls.filter ApiCall.isSearch
            = (Spec.attempts api tbl pl dryRun tracks w).map
                (fun a => ApiCall.searchList (buildSearchQuery a.track))
          ∧ ∀ c ∈ calls, c.isSearch = true
              ∨ (dryRun = false ∧ ∃ v, c = ApiCall.playlistItemsInsert pl.ID v))
      ∧ ((transferLoop api tbl pl dryRun tracks result w).1 = none
          ↔ (Spec.attempts api tbl pl dryRun tracks w).any Spec.Attempt.panicked = true)
      ∧ ∀ r, (transferLoop api tbl pl dryRun tracks result w).1 = some r →
          (Spec.attempts api tbl pl dryRun tracks w).map (fun a => a.track) = tracks
          ∧ r.PlaylistName = result.PlaylistName
          ∧ r.YouTubePlaylist = result.YouTubePlaylist
          ∧ r.TotalTracks = result.TotalTracks
          ∧ r.MatchedTracks = result.MatchedTracks
              + ((Spec.attempts api tbl pl dryRun tracks w).filter
                  (Spec.Attempt.matched dryRun)).length
          ∧ r.FailedTracks = result.FailedTracks
              + ((Spec.attempts api tbl pl dryRun tracks w).filter
                  (fun a => !a.matched dryRun)).length
          ∧ ∃ errs, r.Errors = result.Errors ++ errs
              ∧ List.Forall₂
                  (fun a e =>
                    (a.track.Artist ++ " - ".toList ++ a.track.Name ++ ": ".toList) <+: e)
                  ((Spec.attempts api tbl pl dryRun tracks w).filter
                    (fun a => !a.matched dryRun)) errs := by
  intro tracks
  induction tracks with
  | nil =>
    intro result w
    refine ⟨by simp [Spec.attempts], ⟨[], by simp [transferLoop], by simp [Spec.attempts],
      by simp⟩, by simp [transferLoop, Spec.attempts], ?_⟩
    intro r hr
    simp only [transferLoop, Option.some.injEq] at hr
    subst hr
    exact ⟨by simp [Spec.attempts], rfl, rfl, rfl, by simp [Spec.attempts],
      by simp [Spec.attempts], [], by simp, by simp [Spec.attempts]⟩
  | cons t rest ih =>
    intro result w
    obtain ⟨a, w1, hw, htrack, hcase, calls1, hcalls1, hsearch1, hall1⟩ :=
      transferTrack_spec api tbl pl dryRun (result, w) t
    simp only at hcalls1
    rcases hcase with ⟨hpan, hatt, hnone⟩ | ⟨hpan, hatt, hcase⟩
    · have hpair : transferTrack api tbl pl dryRun (result, w) t = (none, w1) :=
        Prod.ext hnone hw
      have hloop : transferLoop api tbl pl dryRun (t :: rest) result w = (none, w1) := by
        simp only [transferLoop, hpair]
      rw [hloop, hatt rest]
      refine ⟨?_, ⟨calls1, hcalls1, ?_, hall1⟩, ?_, ?_⟩
      · rw [List.map_singleton, htrack]
        exact ⟨rest, rfl⟩
      · rw [hsearch1, List.map_singleton, htrack]
      · simp [hpan]
      · intro r hr
        cases hr
    · have hstep : ∀ r1, (transferTrack api tbl pl dryRun (result, w) t).1 = some r1 →
          transferLoop api tbl pl dryRun (t :: rest) result w
            = transferLoop api tbl pl dryRun rest r1 w1 := by
        intro r1 h1
        have hpair : transferTrack api tbl pl dryRun (result, w) t = (some r1, w1) :=
          Prod.ext h1 hw
        simp only [transferLoop, hpair]
      have hnp : (!a.panicked) = true := by rw [hpan]; rfl
      have key : ∀ r1, (transferTrack api tbl pl dryRun (result, w) t).1 = some r1 →
          (a :: Spec.attempts api tbl pl dryRun rest w1).map (fun a => a.track) <+: t :: rest
          ∧ (∃ calls, (transferLoop api tbl pl dryRun rest r1 w1).2.calls = w.calls ++ calls
              ∧ calls.filter ApiCall.isSearch
                = (a :: Spec.attempts api tbl pl dryRun rest w1).map
                    (fun a => ApiCall.searchList (buildSearchQuery a.track))
              ∧ ∀ c ∈ calls, c.isSearch = true
                  ∨ (dryRun = false ∧ ∃ v, c = ApiCall.playlistItemsInsert pl.ID v))
          ∧ ((transferLoop api tbl pl dryRun rest r1 w1).1 = none
              ↔ (a :: Spec.attempts api tbl pl dryRun rest w1).any Spec.Attempt.panicked
                = true) := by
        intro r1 _
        obtain ⟨hpre, ⟨calls2, hcalls2, hsearch2, hall2⟩, hiff, -⟩ := ih r1 w1
        refine ⟨?_, ⟨calls1 ++ calls2, ?_, ?_, ?_⟩, ?_⟩
        · rw [List.map_cons, htrack]
          exact List.prefix_cons_inj t |>.mpr hpre
        · rw [hcalls2, hcalls1, List.append_assoc]
        · rw [List.filter_append, hsearch1, hsearch2, List.map_cons, htrack]
          rfl
        · intro c hc
          rcases List.mem_append.mp hc with h | h
          · exact hall1 c h
          · exact hall2 c h
        · rw [hiff, List.any_cons, hpan, Bool.false_or]
      rcases hcase with ⟨hm, hres⟩ | ⟨hm, reason, hres⟩
      · obtain ⟨h1, h2, h3⟩ := key _ hres
        rw [hstep _ hres, hatt rest]
        refine ⟨h1, h2, h3, ?_⟩
        intro r hr
        obtain ⟨-, -, -, hr4⟩ := ih { result with MatchedTracks := result.MatchedTracks + 1 } w1
        obtain ⟨hmap, hN, hY, hT, hM, hF, errs, hE, hP⟩ := hr4 r hr
        refine ⟨by rw [List.map_cons, htrack, hmap], hN, hY, hT, ?_, ?_, errs, hE, ?_⟩
        · rw [hM, List.filter_cons_of_pos hm, List.length_cons]
          simp only; omega
        · rw [hF, List.filter_cons_of_neg (by simp [hm])]
        · rw [List.filter_cons_of_neg (by simp [hm])]
          exact hP
      · obtain ⟨h1, h2, h3⟩ := key _ hres
        rw [hstep _ hres, hatt rest]
        refine ⟨h1, h2, h3, ?_⟩
        intro r hr
        obtain ⟨-, -, -, hr4⟩ := ih (recordFailure result t reason) w1
        obtain ⟨hmap, hN, hY, hT, hM, hF, errs, hE, hP⟩ := hr4 r hr
        refine ⟨by rw [List.map_cons, htrack, hmap], hN, hY, hT, ?_, ?_,
          (t.Artist ++ " - ".toList ++ t.Name ++ ": ".toList ++ reason) :: errs, ?_, ?_⟩
        · rw [hM, List.filter_cons_of_neg (by simp [hm])]
          rfl
        · rw [hF, List.filter_cons_of_pos (by simp [hm]), List.length_cons]
          simp only [recordFailure]; omega
        · rw [hE]
          simp only [recordFailure, List.append_assoc, List.singleton_append]
        · rw [List.filter_cons_of_pos (by simp [hm])]
          refine List.Forall₂.cons ?_ hP
          rw [htrack]
          exact ⟨reason, rfl⟩

/-- With a remote service whose replies are complete no attempt ends in a panic. -/
theorem attempts_not_panicked {σ : Type} (api : Api σ) (hc : Spec.Complete api)
    (tbl : Char → Char) (pl : YouTubePlaylist) (dryRun : Bool) :
    ∀ (tracks : List Track) (w : World σ),
      (Spec.attempts api tbl pl dryRun tracks w).any Spec.Attempt.panicked = false := by
  intro tracks
  induction tracks with
  | nil => intro w; rfl
  | cons t rest ih =>
    intro w
    obtain ⟨r, hr⟩ := SearchVideo_isSome api hc w (buildSearchQuery t)
    rcases hs : SearchVideo api w (buildSearchQuery t) with ⟨res, w1⟩
    rw [hs] at hr
    simp only at hr
    subst hr
    cases r with
    | error err =>
      simp only [Spec.attempts, hs, List.any_cons, ih]
      rfl
    | ok videos =>
      simp only [Spec.attempts, hs]
      split
      · simp only [List.any_cons, ih]; rfl
      · simp only [List.any_cons, ih]; rfl

/-- The loop of `SearchVideo` ends in a panic exactly when an item of the response lacks its
id or its snippet. -/
theorem searchVideoLoop_eq_none_iff :
    ∀ items : List SearchItem,
      searchVideoLoop items = none ↔ ∃ item ∈ items, item.Id = none ∨ item.Snippet = none := by
  intro items
  induction items with
  | nil => simp [searchVideoLoop]
  | cons item rest ih =>
    rcases hid : item.Id with _ | id
    · simp [searchVideoLoop, searchItemVideo, hid]
    · rcases hsn : item.Snippet with _ | sn
      · simp [searchVideoLoop, searchItemVideo, hid, hsn]
      · cases hrest : searchVideoLoop rest with
        | none =>
          have h := ih.mp hrest
          simp only [searchVideoLoop, searchItemVideo, hid, hsn, hrest, true_iff]
          obtain ⟨i, hi, hlack⟩ := h
          exact ⟨i, List.mem_cons_of_mem _ hi, hlack⟩
        | some videos =>
          have h : ¬ ∃ i ∈ rest, i.Id = none ∨ i.Snippet = none := by
            intro hex
            have := ih.mpr hex
            rw [hrest] at this
            cases this
          simp only [searchVideoLoop, searchItemVideo, hid, hsn, hrest]
          constructor
          · intro hn; cases hn
          rintro ⟨i, hi, hlack⟩
          rcases List.mem_cons.mp hi with heq | hmem
          · subst heq
            rw [hid, hsn] at hlack
            rcases hlack with h1 | h1 <;> cases h1
          · exact (h ⟨i, hmem, hlack⟩).elim

/-- The method `SearchVideo` ends in a panic exactly when the search succeeds with a response
of which an item lacks its id or its snippet. -/
theorem SearchVideo_panics_iff {σ : Type} (api : Api σ) (w : World σ) (query : List Char) :
    (SearchVideo api w query).1 = none
      ↔ ∃ items, (api.searchList w.state query).1 = Except.ok items
          ∧ ∃ item ∈ items, item.Id = none ∨ item.Snippet = none := by
  unfold SearchVideo
  rcases hr : api.searchList w.state query with ⟨res, st1⟩
  cases res with
  | error err =>
    simp only
    constructor
    · intro hn; cases hn
    · rintro ⟨items, h, -⟩
      cases h
  | ok items =>
    simp only [Except.ok.injEq, exists_eq_left']
    rw [← searchVideoLoop_eq_none_iff]
    cases searchVideoLoop items <;> simp

/-- The method `transferTracks` returns a result exactly when no attempt ends in a panic. -/
theorem transferTracks_isSome_iff {σ : Type} (api : Api σ) (tbl : Char → Char)
    (tracks : List Track) (pl : YouTubePlaylist) (dryRun : Bool) (w : World σ) :
    (∃ result, (transferTracks api tbl tracks pl dryRun w).1 = some result)
      ↔ (Spec.attempts api tbl pl dryRun tracks w).any Spec.Attempt.panicked = false := by
  obtain ⟨-, -, hiff, -⟩ := transferLoop_spec api tbl pl dryRun tracks
    { PlaylistName := pl.Title, TotalTracks := tracks.length, YouTubePlaylist := pl } w
  unfold transferTracks
  cases h : (transferLoop api tbl pl dryRun tracks
    { PlaylistName := pl.Title, TotalTracks := tracks.length, YouTubePlaylist := pl } w).1 with
  | none =>
    have := hiff.mp h
    simp [this]
  | some r =>
    have hn : ¬ (Spec.attempts api tbl pl dryRun tracks w).any Spec.Attempt.panicked = true := by
      intro hp
      have := hiff.mpr hp
      rw [h] at this
      cases this
    simp only [Bool.not_eq_true] at hn
    simp [hn]

/-- C19: every result that `transferTracks` returns has `TotalTracks = len(tracks)`,
`MatchedTracks + FailedTracks = TotalTracks` and `len(Errors) = FailedTracks`, for every
track list, every behaviour of the remote service and either mode.  A result is returned
unless a search reply lacks a field that `SearchVideo` reads through a pointer, in particular
whenever the replies of the remote service are complete. -/
theorem transferTracks_invariant {σ : Type} (api : Api σ) (tbl : Char → Char)
    (tracks : List Track) (pl : YouTubePlaylist) (dryRun : Bool) (w : World σ) :
    (∀ result, (transferTracks api tbl tracks pl dryRun w).1 = some result →
        result.TotalTracks = tracks.length
        ∧ result.MatchedTracks + result.FailedTracks = result.TotalTracks
        ∧ result.Errors.length = result.FailedTracks)
      ∧ ((∃ result, (transferTracks api tbl tracks pl dryRun w).1 = some result)
          ↔ (Spec.attempts api tbl pl dryRun tracks w).any Spec.Attempt.panicked = false)
      ∧ (Spec.Complete api →
          ∃ result, (transferTracks api tbl tracks pl dryRun w).1 = some result) := by
  refine ⟨?_, transferTracks_isSome_iff api tbl tracks pl dryRun w, ?_⟩
  · intro result hres
    obtain ⟨-, -, -, h⟩ := transferLoop_spec api tbl pl dryRun tracks
      { PlaylistName := pl.Title, TotalTracks := tracks.length, YouTubePlaylist := pl } w
    obtain ⟨hmap, -, -, hT, hM, hF, errs, hE, hP⟩ := h result hres
    simp only [Nat.zero_add, List.nil_append] at hT hM hF hE
    have hlen := congrArg List.length hmap
    rw [List.length_map] at hlen
    have hsplit := List.length_eq_length_filter_add (Spec.Attempt.matched dryRun)
      (l := Spec.attempts api tbl pl dryRun tracks w)
    refine ⟨hT, ?_, ?_⟩
    · rw [hT, hM, hF]
      omega
    · rw [hE, hF, hP.length_eq]
  · intro hc
    exact (transferTracks_isSome_iff api tbl tracks pl dryRun w).mpr
      (attempts_not_panicked api hc tbl pl dryRun tracks w)

/-- C19, on three tracks of which the second search fails: a result is returned, with 3
tracks in total, matched and failed tracks adding up to 3, and as many error texts as failed
tracks. -/
theorem transferTracks_invariant_witness :
    ∃ result, (transferTracks secondSearchFails (fun c => c) threeTracks
        { ID := "pl".toList, Title := "Mix".toList } false { state := 0 }).1 = some result
      ∧ result.TotalTracks = 3
      ∧ result.MatchedTracks + result.FailedTracks = result.TotalTracks
      ∧ result.Errors.length = result.FailedTracks :=
  have h : (transferTracks secondSearchFails (fun c => c) threeTracks
      { ID := "pl".toList, Title := "Mix".toList } false { state := 0 }).1
      = some { PlaylistName := "Mix".toList, TotalTracks := 3, MatchedTracks := 2
               FailedTracks := 1
               YouTubePlaylist := { ID := "pl".toList, Title := "Mix".toList }
               Errors :=
                ["Ed Sheeran - Shape of You: video search failed: quota exceeded".toList] } := by
    decide
  ⟨_, h, (transferTracks_invariant secondSearchFails (fun c => c) threeTracks
    { ID := "pl".toList, Title := "Mix".toList } false { state := 0 }).1 _ h⟩

/-- C20: with three tracks and a remote service whose second search is answered with a hit
that lacks its id, `transferTracks` ends in a run-time panic and returns no result, and only
the first two tracks are searched for: the iteration is stopped on the second track. -/
theorem transferTracks_partial_failure_counterexample :
    (transferTracks secondReplyMalformed (fun c => c) threeTracks
        { ID := "pl".toList, Title := "Mix".toList } false { state := 0 }).1 = none
      ∧ (transferTracks secondReplyMalformed (fun c => c) threeTracks
          { ID := "pl".toList, Title := "Mix".toList } false
          { state := 0 }).2.calls.filter ApiCall.isSearch
        = [ApiCall.searchList "Daft Punk One More Time".toList,
           ApiCall.searchList "Ed Sheeran Shape of You".toList] := by
  decide

/-- C20 (amended): a failure that a collaborator reports on one track never stops the
iteration; only a search reply that lacks a field read through a pointer does, by a run-time
panic.  The tracks attempted are a first part of the list, each searched for once, in order;
the run ends in a panic exactly when an attempt does, which cannot happen when the replies of
the remote service are complete; a search ends in a panic exactly when it succeeds with a
response of which an item lacks its id or its snippet.  When no attempt panics every track is attempted and a
result is returned: `MatchedTracks` is the number of tracks whose search succeeded with at
least one candidate and (outside simulation mode) whose insertion succeeded, and every other
track contributes one error text starting with its `artist - name: `.  With three tracks of
which only the second search fails the result is 3 total, 2 matched, 1 failed and 1 error. -/
theorem transferTracks_partial_failure {σ : Type} (api : Api σ) (tbl : Char → Char)
    (tracks : List Track) (pl : YouTubePlaylist) (dryRun : Bool) (w : World σ) :
    (Spec.attempts api tbl pl dryRun tracks w).map (fun a => a.track) <+: tracks
      ∧ (∃ calls, (transferTracks api tbl tracks pl dryRun w).2.calls = w.calls ++ calls
          ∧ calls.filter ApiCall.isSearch
            = (Spec.attempts api tbl pl dryRun tracks w).map
                (fun a => ApiCall.searchList (buildSearchQuery a.track)))
      ∧ ((transferTracks api tbl tracks pl dryRun w).1 = none
          ↔ (Spec.attempts api tbl pl dryRun tracks w).any Spec.Attempt.panicked = true)
      ∧ ((Spec.attempts api tbl pl dryRun tracks w).any Spec.Attempt.panicked = false →
          (Spec.attempts api tbl pl dryRun tracks w).map (fun a => a.track) = tracks
          ∧ ∃ result, (transferTracks api tbl tracks pl dryRun w).1 = some result
            ∧ result.TotalTracks = tracks.length
            ∧ result.MatchedTracks
              = ((Spec.attempts api tbl pl dryRun tracks w).filter
                  (Spec.Attempt.matched dryRun)).length
            ∧ result.FailedTracks
              = ((Spec.attempts api tbl pl dryRun tracks w).filter
                  (fun a => !a.matched dryRun)).length
            ∧ List.Forall₂
                (fun a e =>
                  (a.track.Artist ++ " - ".toList ++ a.track.Name ++ ": ".toList) <+: e)
                ((Spec.attempts api tbl pl dryRun tracks w).filter
                  (fun a => !a.matched dryRun))
                result.Errors)
      ∧ (Spec.Complete api →
          (Spec.attempts api tbl pl dryRun tracks w).any Spec.Attempt.panicked = false)
      ∧ (∀ (w1 : World σ) (query : List Char),
          (SearchVideo api w1 query).1 = none
            ↔ ∃ items, (api.searchList w1.state query).1 = Except.ok items
                ∧ ∃ item ∈ items, item.Id = none ∨ item.Snippet = none)
      ∧ (transferTracks secondSearchFails (fun c => c) threeTracks
            { ID := "pl".toList, Title := "Mix".toList } false { state := 0 }).1
        = some { PlaylistName := "Mix".toList, TotalTracks := 3, MatchedTracks := 2
                 FailedTracks := 1
                 YouTubePlaylist := { ID := "pl".toList, Title := "Mix".toList }
                 Errors :=
                  ["Ed Sheeran - Shape of You: video search failed: quota exceeded".toList] } := by
  obtain ⟨hpre, ⟨calls, hcalls, hsearch, -⟩, hiff, hres⟩ :=
    transferLoop_spec api tbl pl dryRun tracks
      { PlaylistName := pl.Title, TotalTracks := tracks.length, YouTubePlaylist := pl } w
  refine ⟨hpre, ⟨calls, hcalls, hsearch⟩, hiff, ?_,
    fun hc => attempts_not_panicked api hc tbl pl dryRun tracks w,
    fun w1 query => SearchVideo_panics_iff api w1 query, by decide⟩
  intro hnp
  obtain ⟨result, hr⟩ := (transferTracks_isSome_iff api tbl tracks pl dryRun w).mpr hnp
  obtain ⟨hmap, -, -, hT, hM, hF, errs, hE, hP⟩ := hres result hr
  simp only [Nat.zero_add, List.nil_append] at hT hM hF hE
  refine ⟨hmap, result, hr, hT, hM, hF, ?_⟩
  rw [hE]
  exact hP

/-- C20, on three tracks of which the second search fails with an error: no attempt panics,
all three tracks are attempted, and the result has 2 matched tracks and 1 failed track. -/
theorem transferTracks_partial_failure_witness :
    ∃ result, (transferTracks secondSearchFails (fun c => c) threeTracks
        { ID := "pl".toList, Title := "Mix".toList } false { state := 0 }).1 = some result
      ∧ result.MatchedTracks = 2 ∧ result.FailedTracks = 1 := by
  obtain ⟨-, result, hr, -, hM, hF, -⟩ :=
    (transferTracks_partial_failure secondSearchFails (fun c => c) threeTracks
      { ID := "pl".toList, Title := "Mix".toList } false { state := 0 }).2.2.2.1 (by decide)
  refine ⟨result, hr, ?_, ?_⟩
  · rw [hM]; decide
  · rw [hF]; decide

/-! ## Duplicate insertions: theorems -/

/-- C23: on the remote service whose every insertion fails with a not-modified error of text
`Not Modified`, a text without `already exists`, `AddVideoToPlaylist` returns a nil error,
and `transferTracks` counts all three tracks as matched and records no error: an insert error
other than `already exists` is not always returned as a failure. -/
theorem AddVideoToPlaylist_not_modified_counterexample :
    strings.Contains "Not Modified".toList "already exists".toList = false
      ∧ (AddVideoToPlaylist
          (steadyApi (Except.ok [])
            (some { notModified := true, message := "Not Modified".toList }))
          { state := 0 } "pl".toList "v".toList).1 = none
      ∧ (transferTracks
          (steadyApi (Except.ok [])
            (some { notModified := true, message := "Not Modified".toList }))
          (fun c => c) threeTracks { ID := "pl".toList, Title := "Mix".toList } false
          { state := 0 }).1
        = some { PlaylistName := "Mix".toList, TotalTracks := 3, MatchedTracks := 3
                 YouTubePlaylist := { ID := "pl".toList, Title := "Mix".toList } } := by
  decide

/-- C23 (amended): when the insert call fails with an error whose text contains
`already exists`, or with a not-modified error, `AddVideoToPlaylist` returns a nil error; when
it fails with any other error, `AddVideoToPlaylist` returns the error
`video playlist'e eklenemedi: ` followed by its text.  In `transferTracks`, outside a dry run,
a track whose search found candidates and whose insertion failed in the first way is counted
as matched and adds no error; one whose insertion failed in the second way is counted as
failed with that error text. -/
theorem AddVideoToPlaylist_already_exists {σ : Type} (api : Api σ) (w : World σ)
    (playlistID videoID : List Char) (err : ApiError) (state : σ)
    (hins : api.playlistItemsInsert w.state playlistID videoID = (some err, state)) :
    ((strings.Contains err.message "already exists".toList = true ∨ err.notModified = true) →
        (AddVideoToPlaylist api w playlistID videoID).1 = none
        ∧ ∀ (tbl : Char → Char) (pl : YouTubePlaylist) (acc : TransferResult × World σ)
            (track : Track) (videos : List YouTubeVideo) (best : YouTubeVideo),
            SearchVideo api acc.2 (buildSearchQuery track) = (some (Except.ok videos), w) →
            findBestMatch tbl track videos = some best →
            pl.ID = playlistID → best.ID = videoID →
            (transferTrack api tbl pl false acc track).1
              = some { acc.1 with MatchedTracks := acc.1.MatchedTracks + 1 })
      ∧ (strings.Contains err.message "already exists".toList = false →
          err.notModified = false →
          (AddVideoToPlaylist api w playlistID videoID).1
            = some ("video playlist'e eklenemedi: ".toList ++ err.message)
          ∧ ∀ (tbl : Char → Char) (pl : YouTubePlaylist) (acc : TransferResult × World σ)
              (track : Track) (videos : List YouTubeVideo) (best : YouTubeVideo),
              SearchVideo api acc.2 (buildSearchQuery track) = (some (Except.ok videos), w) →
              findBestMatch tbl track videos = some best →
              pl.ID = playlistID → best.ID = videoID →
              (transferTrack api tbl pl false acc track).1
                = some (recordFailure acc.1 track
                    ("video playlist'e eklenemedi: ".toList ++ err.message))) := by
  have hne : ∀ (tbl : Char → Char) (track : Track) (videos : List YouTubeVideo)
      (best : YouTubeVideo), findBestMatch tbl track videos = some best →
      ¬ videos.length = 0 := by
    intro tbl track videos best hb h0
    rw [List.length_eq_zero] at h0
    subst h0
    simp [findBestMatch] at hb
  constructor
  · intro h
    have hadd : AddVideoToPlaylist api w playlistID videoID
        = (none, { state := state
                   calls := w.calls ++ [ApiCall.playlistItemsInsert playlistID videoID] }) := by
      have hcond : (err.notModified || strings.Contains err.message "already exists".toList)
          = true := by
        rcases h with h | h
        · rw [h, Bool.or_true]
        · rw [h, Bool.true_or]
      simp only [AddVideoToPlaylist, hins, hcond, if_true]
    refine ⟨by rw [hadd], ?_⟩
    intro tbl pl acc track videos best hs hb hpl hbest
    subst hpl hbest
    simp [transferTrack, hs, hne tbl track videos best hb, hb, hadd]
  · intro h1 h2
    have hadd : AddVideoToPlaylist api w playlistID videoID
        = (some ("video playlist'e eklenemedi: ".toList ++ err.message),
            { state := state
              calls := w.calls ++ [ApiCall.playlistItemsInsert playlistID videoID] }) := by
      simp only [AddVideoToPlaylist, hins, h1, h2, Bool.or_self, Bool.false_eq_true, if_false]
    refine ⟨by rw [hadd], ?_⟩
    intro tbl pl acc track videos best hs hb hpl hbest
    subst hpl hbest
    simp [transferTrack, hs, hne tbl track videos best hb, hb, hadd]

/-- C23, on the remote service whose every insertion fails with the text
`Video already exists in playlist.`: `AddVideoToPlaylist` returns a nil error, and
`transferTracks` counts all three tracks as matched and records no error. -/
theorem AddVideoToPlaylist_already_exists_witness :
    (AddVideoToPlaylist
        (steadyApi (Except.ok [])
          (some { message := "Video already exists in playlist.".toList }))
        { state := 0 } "pl".toList "v".toList).1 = none
      ∧ (transferTracks
          (steadyApi (Except.ok [])
            (some { message := "Video already exists in playlist.".toList }))
          (fun c => c) threeTracks { ID := "pl".toList, Title := "Mix".toList } false
          { state := 0 }).1
        = some { PlaylistName := "Mix".toList, TotalTracks := 3, MatchedTracks := 3
                 YouTubePlaylist := { ID := "pl".toList, Title := "Mix".toList } } :=
  ⟨((AddVideoToPlaylist_already_exists
      (steadyApi (Except.ok [])
        (some { message := "Video already exists in playlist.".toList }))
      { state := 0 } "pl".toList "v".toList
      { message := "Video already exists in playlist.".toList } 0 rfl).1
      (Or.inl (by decide))).1, by decide⟩

/-! ## Single-playlist and batch transfer: the call log -/

theorem isGet_not_mutation (c : ApiCall) (h : c.isGet = true) : c.isMutation = false := by
  cases c <;> simp_all [ApiCall.isGet, ApiCall.isMutation, ApiCall.isCreate, ApiCall.isAdd]

theorem isSearch_not_mutation (c : ApiCall) (h : c.isSearch = true) : c.isMutation = false := by
  cases c <;> simp_all [ApiCall.isSearch, ApiCall.isMutation, ApiCall.isCreate, ApiCall.isAdd]

theorem isSearch_not_get (c : ApiCall) (h : c.isSearch = true) : c.isGet = false := by
  cases c <;> simp_all [ApiCall.isSearch, ApiCall.isGet]

theorem GetUserPlaylists_calls {σ : Type} (api : Api σ) (w : World σ) :
    (youtube.GetUserPlaylists api w).2.calls = w.calls ++ [ApiCall.playlistsList] := by
  unfold youtube.GetUserPlaylists
  simp only
  split
  · rfl
  · split <;> rfl

theorem CreatePlaylist_calls {σ : Type} (api : Api σ) (w : World σ)
    (title description : List Char) :
    (CreatePlaylist api w title description).2.calls
      = w.calls ++ [ApiCall.playlistsInsert title description] := by
  unfold CreatePlaylist
  simp only
  split
  · rfl
  · split <;> rfl

/-- The loop of `GetUserPlaylists` ends without a panic when every item carries its snippet
and its content details. -/
theorem userPlaylistsOfItems_isSome :
    ∀ items : List PlaylistResource,
      (∀ item ∈ items, item.Snippet.isSome = true ∧ item.ContentDetails.isSome = true) →
      ∃ playlists, userPlaylistsOfItems items = some playlists := by
  intro items
  induction items with
  | nil => intro _; exact ⟨[], rfl⟩
  | cons item rest ih =>
    intro h
    obtain ⟨hsn, hcd⟩ := h item (List.mem_cons_self _ _)
    obtain ⟨playlists, hp⟩ := ih (fun i hi => h i (List.mem_cons_of_mem _ hi))
    obtain ⟨sn, hsn⟩ := Option.isSome_iff_exists.mp hsn
    obtain ⟨cd, hcd⟩ := Option.isSome_iff_exists.mp hcd
    simp only [userPlaylistsOfItems, playlistOfResource, hsn, hcd, hp]
    exact ⟨_, rfl⟩

/-- With a remote service whose replies are complete, `GetUserPlaylists` does not panic. -/
theorem GetUserPlaylists_isSome {σ : Type} (api : Api σ) (hc : Spec.Complete api)
    (w : World σ) : ∃ r, (youtube.GetUserPlaylists api w).1 = some r := by
  unfold youtube.GetUserPlaylists
  rcases hr : api.playlistsList w.state [] with ⟨res, st1⟩
  cases res with
  | error err => exact ⟨_, rfl⟩
  | ok page =>
    obtain ⟨playlists, hp⟩ := userPlaylistsOfItems_isSome page.Items (hc.2.1 w.state page st1 hr)
    simp only [hp]
    exact ⟨_, rfl⟩

/-- With a remote service whose replies are complete, `CreatePlaylist` does not panic. -/
theorem CreatePlaylist_isSome {σ : Type} (api : Api σ) (hc : Spec.Complete api)
    (w : World σ) (title description : List Char) :
    ∃ r, (CreatePlaylist api w title description).1 = some r := by
  unfold CreatePlaylist
  rcases hr : api.playlistsInsert w.state title description with ⟨res, st1⟩
  cases res with
  | error err => exact ⟨_, rfl⟩
  | ok result =>
    obtain ⟨sn, hsn⟩ := Option.isSome_iff_exists.mp (hc.2.2 w.state title description result st1 hr)
    simp only [hsn]
    exact ⟨_, rfl⟩

/-- The loop of `GetUserPlaylists` ends in a panic exactly when an item of the response lacks
its snippet or its content details. -/
theorem userPlaylistsOfItems_eq_none_iff :
    ∀ items : List PlaylistResource,
      userPlaylistsOfItems items = none
        ↔ ∃ item ∈ items, item.Snippet = none ∨ item.ContentDetails = none := by
  intro items
  induction items with
  | nil => simp [userPlaylistsOfItems]
  | cons item rest ih =>
    rcases hsn : item.Snippet with _ | sn
    · simp [userPlaylistsOfItems, playlistOfResource, hsn]
    · rcases hcd : item.ContentDetails with _ | cd
      · simp [userPlaylistsOfItems, playlistOfResource, hsn, hcd]
      · cases hrest : userPlaylistsOfItems rest with
        | none =>
          have h := ih.mp hrest
          simp only [userPlaylistsOfItems, playlistOfResource, hsn, hcd, hrest, true_iff]
          obtain ⟨i, hi, hlack⟩ := h
          exact ⟨i, List.mem_cons_of_mem _ hi, hlack⟩
        | some playlists =>
          have h : ¬ ∃ i ∈ rest, i.Snippet = none ∨ i.ContentDetails = none := by
            intro hex
            have := ih.mpr hex
            rw [hrest] at this
            cases this
          simp only [userPlaylistsOfItems, playlistOfResource, hsn, hcd, hrest]
          constructor
          · intro hn; cases hn
          rintro ⟨i, hi, hlack⟩
          rcases List.mem_cons.mp hi with heq | hmem
          · subst heq
            rw [hsn, hcd] at hlack
            rcases hlack with h1 | h1 <;> cases h1
          · exact (h ⟨i, hmem, hlack⟩).elim

/-- The method `GetUserPlaylists` ends in a panic exactly when the listing succeeds with a
first page of which an item lacks its snippet or its content details. -/
theorem GetUserPlaylists_panics_iff {σ : Type} (api : Api σ) (w : World σ) :
    (youtube.GetUserPlaylists api w).1 = none
      ↔ ∃ page, (api.playlistsList w.state []).1 = Except.ok page
          ∧ ∃ item ∈ page.Items, item.Snippet = none ∨ item.ContentDetails = none := by
  unfold youtube.GetUserPlaylists
  rcases hr : api.playlistsList w.state [] with ⟨res, st1⟩
  cases res with
  | error err =>
    simp only
    constructor
    · intro hn; cases hn
    · rintro ⟨page, h, -⟩
      cases h
  | ok page =>
    simp only [Except.ok.injEq, exists_eq_left']
    rw [← userPlaylistsOfItems_eq_none_iff]
    cases userPlaylistsOfItems page.Items <;> simp

/-- The method `CreatePlaylist` ends in a panic exactly when the creation succeeds with a
response that lacks its snippet. -/
theorem CreatePlaylist_panics_iff {σ : Type} (api : Api σ) (w : World σ)
    (title description : List Char) :
    (CreatePlaylist api w title description).1 = none
      ↔ ∃ result, (api.playlistsInsert w.state title description).1 = Except.ok result
          ∧ result.Snippet = none := by
  unfold CreatePlaylist
  rcases hr : api.playlistsInsert w.state title description with ⟨res, st1⟩
  cases res with
  | error err =>
    simp only
    constructor
    · intro hn; cases hn
    · rintro ⟨result, h, -⟩
      cases h
  | ok result =>
    simp only [Except.ok.injEq, exists_eq_left']
    cases result.Snippet <;> simp

/-- The loop of `PlaylistExists` is a search for the first playlist whose title equals the
given one under case folding. -/
theorem playlistExistsLoop_eq_find (fold : Char → Char → Bool) (title : List Char) :
    ∀ playlists : List YouTubePlaylist,
      playlistExistsLoop fold title playlists
        = playlists.find? (fun p => strings.EqualFold fold p.Title title) := by
  intro playlists
  induction playlists with
  | nil => rfl
  | cons p rest ih =>
    by_cases hp : strings.EqualFold fold p.Title title = true
    · simp only [playlistExistsLoop, hp, if_true, List.find?_cons_of_pos]
    · simp only [playlistExistsLoop, hp, Bool.false_eq_true, if_false, ih,
        List.find?_cons_of_neg, not_false_eq_true]

theorem any_of_find? (fold : Char → Char → Bool) (title : List Char)
    (listing : List YouTubePlaylist) :
    listing.any (fun p => strings.EqualFold fold p.Title title)
      = (listing.find? (fun p => strings.EqualFold fold p.Title title)).isSome := by
  cases hf : listing.find? (fun p => strings.EqualFold fold p.Title title) with
  | none =>
    rw [List.find?_eq_none] at hf
    rw [Option.isSome_none, List.any_eq_false]
    exact hf
  | some p =>
    rw [Option.isSome_some, List.any_eq_true]
    exact ⟨p, List.mem_of_find?_eq_some hf,
      List.find?_some (p := fun p : YouTubePlaylist => strings.EqualFold fold p.Title title) hf⟩

/-- The results of `PlaylistExists` when the listing call returns the playlists `listing`. -/
theorem PlaylistExists_of_listing {σ : Type} (api : Api σ) (fold : Char → Char → Bool)
    (w w1 : World σ) (title : List Char) (listing : List YouTubePlaylist)
    (hlist : youtube.GetUserPlaylists api w = (some (Except.ok listing), w1)) :
    PlaylistExists api fold w title
      = (some (listing.any (fun p => strings.EqualFold fold p.Title title),
          listing.find? (fun p => strings.EqualFold fold p.Title title), none), w1) := by
  unfold PlaylistExists
  rw [hlist]
  simp only [playlistExistsLoop_eq_find, any_of_find?]
  cases listing.find? (fun p => strings.EqualFold fold p.Title title) <;> rfl

/-- The destination resolution, by the answer of the listing. -/
theorem resolveDestination_eq {σ : Type} (env : Env σ) (w : World σ)
    (name description : List Char) (dryRun : Bool) :
    resolveDestination env w name description dryRun
      = match youtube.GetUserPlaylists env.api w with
        | (none, w1) => (none, w1)
        | (some (Except.error err), w1) => (some (Destination.lookupFailed err), w1)
        | (some (Except.ok listing), w1) =>
          match listing.find? (fun p => strings.EqualFold env.fold p.Title name) with
          | some p => (some (Destination.ready p), w1)
          | none =>
            if dryRun then
              (some (Destination.ready { Title := name, Description := description }), w1)
            else
              match CreatePlaylist env.api w1 name description with
              | (none, w2) => (none, w2)
              | (some (Except.error err), w2) => (some (Destination.createFailed err), w2)
              | (some (Except.ok youtubePlaylist), w2) =>
                (some (Destination.ready youtubePlaylist), w2) := by
  rcases hl : youtube.GetUserPlaylists env.api w with ⟨res, w1⟩
  cases res with
  | none => simp only [resolveDestination, PlaylistExists, hl]
  | some res =>
    cases res with
    | error err => simp only [resolveDestination, PlaylistExists, hl]
    | ok listing =>
      simp only [resolveDestination,
        PlaylistExists_of_listing env.api env.fold w w1 name listing hl, any_of_find?]
      cases hf : listing.find? (fun p => strings.EqualFold env.fold p.Title name) with
      | some p => rfl
      | none => rfl

/-- The destination resolution lists the playlists once and, outside a dry run, creates at
most one playlist, of the given title and description. -/
theorem resolveDestination_calls {σ : Type} (env : Env σ) (w : World σ)
    (name description : List Char) (dryRun : Bool) :
    (resolveDestination env w name description dryRun).2.calls
        = w.calls ++ [ApiCall.playlistsList]
      ∨ (dryRun = false
        ∧ (resolveDestination env w name description dryRun).2.calls
          = w.calls ++ [ApiCall.playlistsList, ApiCall.playlistsInsert name description]) := by
  have hc := GetUserPlaylists_calls env.api w
  rw [resolveDestination_eq]
  rcases hl : youtube.GetUserPlaylists env.api w with ⟨res, w1⟩
  rw [hl] at hc
  simp only at hc
  cases res with
  | none => exact Or.inl hc
  | some res =>
    cases res with
    | error err => exact Or.inl hc
    | ok listing =>
      simp only
      cases hf : listing.find? (fun p => strings.EqualFold env.fold p.Title name) with
      | some p => exact Or.inl hc
      | none =>
        cases dryRun with
        | true => exact Or.inl hc
        | false =>
          have hcc := CreatePlaylist_calls env.api w1 name description
          rcases hcr : CreatePlaylist env.api w1 name description with ⟨cres, w2⟩
          rw [hcr] at hcc
          simp only at hcc
          have hlog : w2.calls = w.calls
              ++ [ApiCall.playlistsList, ApiCall.playlistsInsert name description] := by
            rw [hcc, hc, List.append_assoc]; rfl
          right
          refine ⟨rfl, ?_⟩
          cases cres with
          | none => exact hlog
          | some cres => cases cres <;> exact hlog

/-- With a remote service whose replies are complete, the destination resolution does not
panic. -/
theorem resolveDestination_isSome {σ : Type} (env : Env σ) (hc : Spec.Complete env.api)
    (w : World σ) (name description : List Char) (dryRun : Bool) :
    ∃ dest, (resolveDestination env w name description dryRun).1 = some dest := by
  obtain ⟨r, hr⟩ := GetUserPlaylists_isSome env.api hc w
  rw [resolveDestination_eq]
  rcases hl : youtube.GetUserPlaylists env.api w with ⟨res, w1⟩
  rw [hl] at hr
  simp only at hr
  subst hr
  cases r with
  | error err => exact ⟨_, rfl⟩
  | ok listing =>
    simp only
    cases hf : listing.find? (fun p => strings.EqualFold env.fold p.Title name) with
    | some p => exact ⟨_, rfl⟩
    | none =>
      cases dryRun with
      | true => exact ⟨_, rfl⟩
      | false =>
        obtain ⟨c, hcr⟩ := CreatePlaylist_isSome env.api hc w1 name description
        rcases hcp : CreatePlaylist env.api w1 name description with ⟨cres, w2⟩
        rw [hcp] at hcr
        simp only at hcr
        subst hcr
        cases c with
        | error err => exact ⟨_, rfl⟩
        | ok yp => exact ⟨_, rfl⟩

theorem fetchEmbed_calls {σ : Type} (env : Env σ) (w : World σ) (playlistID what : List Char) :
    (fetchEmbed env w playlistID what).2.calls
      = w.calls ++ [ApiCall.httpGet (embedURL playlistID)] := by
  unfold fetchEmbed
  simp only
  split
  · rfl
  · rfl
  · split
    · rfl
    · split <;> rfl

/-- The method `GetPlaylistTracks` never panics, and it makes one GET, of the embed address of
the playlist. -/
theorem GetPlaylistTracks_spec {σ : Type} (env : Env σ) (w : World σ) (playlistID : List Char) :
    (∃ r, (GetPlaylistTracks env w playlistID).1 = some r)
      ∧ (GetPlaylistTracks env w playlistID).2.calls
        = w.calls ++ [ApiCall.httpGet (embedURL playlistID)] := by
  have hc := fetchEmbed_calls env w playlistID "track".toList
  unfold GetPlaylistTracks
  rcases hf : fetchEmbed env w playlistID "track".toList with ⟨res, w1⟩
  rw [hf] at hc
  simp only at hc
  cases res with
  | error err => exact ⟨⟨_, rfl⟩, hc⟩
  | ok body =>
    obtain ⟨rows, hrows⟩ := extractTracksFromDataTestId_isSome env.lib body
    simp only [parseTracksFromHTML_eq _ _ _ _ rows hrows]
    exact ⟨⟨_, rfl⟩, hc⟩

/-- The method `GetPlaylistInfo` never panics, and it makes GETs only. -/
theorem GetPlaylistInfo_spec {σ : Type} (env : Env σ) (w : World σ)
    (playlistID playlistName : List Char) :
    (∃ r, (GetPlaylistInfo env w playlistID playlistName).1 = some r)
      ∧ ∃ calls, (GetPlaylistInfo env w playlistID playlistName).2.calls = w.calls ++ calls
          ∧ ∀ c ∈ calls, c.isGet = true := by
  have hc := fetchEmbed_calls env w playlistID "playlist".toList
  unfold GetPlaylistInfo
  rcases hf : fetchEmbed env w playlistID "playlist".toList with ⟨res, w1⟩
  rw [hf] at hc
  simp only at hc
  have hone : ∃ calls, w1.calls = w.calls ++ calls ∧ ∀ c ∈ calls, c.isGet = true :=
    ⟨_, hc, by simp [ApiCall.isGet]⟩
  cases res with
  | error err => exact ⟨⟨_, rfl⟩, hone⟩
  | ok body =>
    simp only
    rcases hp : parsePlaylistFromEmbedHTML body playlistID playlistName with ⟨playlist, perr⟩
    cases perr with
    | some e => exact ⟨⟨_, rfl⟩, hone⟩
    | none =>
      obtain ⟨⟨r, hr⟩, hc2⟩ := GetPlaylistTracks_spec env w1 playlistID
      rcases htr : GetPlaylistTracks env w1 playlistID with ⟨g, w2⟩
      rw [htr] at hr hc2
      simp only at hr hc2
      subst hr
      have htwo : ∃ calls, w2.calls = w.calls ++ calls ∧ ∀ c ∈ calls, c.isGet = true :=
        ⟨_, by rw [hc2, hc, List.append_assoc], by simp [ApiCall.isGet]⟩
      cases r with
      | error e => exact ⟨⟨_, rfl⟩, htwo⟩
      | ok tracks => exact ⟨⟨_, rfl⟩, htwo⟩

theorem resolveName_spec {σ : Type} (env : Env σ) (w : World σ)
    (playlistID playlistName : List Char) :
    (∃ r, (resolveName env w playlistID playlistName).1 = some r)
      ∧ ∃ calls, (resolveName env w playlistID playlistName).2.calls = w.calls ++ calls
          ∧ ∀ c ∈ calls, c.isGet = true := by
  unfold resolveName
  by_cases hn : playlistName = []
  · obtain ⟨⟨r, hr⟩, hc⟩ := GetPlaylistInfo_spec env w playlistID "Unknown Playlist".toList
    rcases hg : GetPlaylistInfo env w playlistID "Unknown Playlist".toList with ⟨g, w1⟩
    rw [hg] at hr hc
    simp only at hr hc
    subst hr
    simp only [hn, if_true]
    cases r with
    | error e => exact ⟨⟨_, rfl⟩, hc⟩
    | ok p => exact ⟨⟨_, rfl⟩, hc⟩
  · simp only [hn, if_false]
    exact ⟨⟨_, rfl⟩, [], by simp, by simp⟩

theorem userPlaylistsLoop_spec {σ : Type} (env : Env σ) :
    ∀ (links : List (List Char)) (result : List Playlist) (w : World σ),
      (∃ res, (userPlaylistsLoop env links result w).1 = some res)
        ∧ ∃ calls, (userPlaylistsLoop env links result w).2.calls = w.calls ++ calls
            ∧ ∀ c ∈ calls, c.isGet = true := by
  intro links
  induction links with
  | nil => intro result w; exact ⟨⟨_, rfl⟩, [], by simp [userPlaylistsLoop], by simp⟩
  | cons link links ih =>
    intro result w
    unfold userPlaylistsLoop
    simp only
    by_cases hl : strings.TrimSpace link = []
    · simp only [hl, if_true]
      exact ih result w
    · simp only [hl, if_false]
      rcases he : extractPlaylistID (strings.TrimSpace link) with ⟨playlistID, eerr⟩
      cases eerr with
      | some e => exact ih result w
      | none =>
        simp only
        obtain ⟨⟨r, hr⟩, calls1, hc1, hall1⟩ :=
          GetPlaylistInfo_spec env w playlistID playlistID
        rcases hg : GetPlaylistInfo env w playlistID playlistID with ⟨g, w1⟩
        rw [hg] at hr hc1
        simp only at hr hc1
        subst hr
        have hstep : ∀ result2,
            (∃ res, (userPlaylistsLoop env links result2 w1).1 = some res)
              ∧ ∃ calls, (userPlaylistsLoop env links result2 w1).2.calls = w.calls ++ calls
                  ∧ ∀ c ∈ calls, c.isGet = true := by
          intro result2
          obtain ⟨hres, calls2, hc2, hall2⟩ := ih result2 w1
          refine ⟨hres, calls1 ++ calls2, by rw [hc2, hc1, List.append_assoc], ?_⟩
          intro c hc
          rcases List.mem_append.mp hc with h | h
          · exact hall1 c h
          · exact hall2 c h
        cases r with
        | error e => exact hstep result
        | ok p => exact hstep (result ++ [p])

/-- The method `spotify.GetUserPlaylists` never panics, and it makes GETs only. -/
theorem spotifyGetUserPlaylists_spec {σ : Type} (env : Env σ) (w : World σ) :
    (∃ r, (spotify.GetUserPlaylists env w).1 = some r)
      ∧ ∃ calls, (spotify.GetUserPlaylists env w).2.calls = w.calls ++ calls
          ∧ ∀ c ∈ calls, c.isGet = true := by
  unfold spotify.GetUserPlaylists
  simp only
  split
  · exact ⟨⟨_, rfl⟩, [], by simp, by simp⟩
  · obtain ⟨⟨res, hres⟩, hc⟩ :=
      userPlaylistsLoop_spec env (strings.Split (env.playlistLinks w.state) ",".toList) [] w
    rcases hloop : userPlaylistsLoop env
      (strings.Split (env.playlistLinks w.state) ",".toList) [] w with ⟨l, w1⟩
    rw [hloop] at hres hc
    simp only at hres hc
    subst hres
    exact ⟨⟨_, rfl⟩, hc⟩

theorem initializeClients_calls {σ : Type} (env : Env σ) (s : Service) (w : World σ) :
    (initializeClients env s w).2.2.calls = w.calls := by
  rcases s with ⟨a, b⟩
  unfold initializeClients
  rcases env.newYouTubeClient w.state with ⟨e, st⟩
  cases a <;> cases b <;> cases e <;> rfl

/-- The calls of `transferTracks`: no GET and no playlist creation; in a dry run nothing that
changes the remote service; every insertion goes into the given playlist. -/
theorem transferTracks_calls {σ : Type} (api : Api σ) (tbl : Char → Char)
    (tracks : List Track) (pl : YouTubePlaylist) (dryRun : Bool) (w : World σ) :
    ∃ calls, (transferTracks api tbl tracks pl dryRun w).2.calls = w.calls ++ calls
      ∧ calls.filter ApiCall.isGet = []
      ∧ calls.filter ApiCall.isCreate = []
      ∧ (dryRun = true → ∀ c ∈ calls, c.isMutation = false)
      ∧ ∀ c ∈ calls, c.isAdd = true → ∃ v, c = ApiCall.playlistItemsInsert pl.ID v := by
  obtain ⟨-, ⟨calls, hc, -, hall⟩, -⟩ := transferLoop_spec api tbl pl dryRun tracks
    { PlaylistName := pl.Title, TotalTracks := tracks.length, YouTubePlaylist := pl } w
  refine ⟨calls, hc, ?_, ?_, ?_, ?_⟩
  · rw [List.filter_eq_nil_iff]
    intro c hmem
    rcases hall c hmem with h | ⟨_, v, h⟩
    · rw [isSearch_not_get c h]; simp
    · rw [h]; simp [ApiCall.isGet]
  · rw [List.filter_eq_nil_iff]
    intro c hmem
    rcases hall c hmem with h | ⟨_, v, h⟩
    · cases c <;> simp_all [ApiCall.isSearch, ApiCall.isCreate]
    · rw [h]; simp [ApiCall.isCreate]
  · intro hd c hmem
    rcases hall c hmem with h | ⟨hf, _⟩
    · exact isSearch_not_mutation c h
    · rw [hd] at hf; cases hf
  · intro c hmem hadd
    rcases hall c hmem with h | ⟨_, v, h⟩
    · cases c <;> simp_all [ApiCall.isSearch, ApiCall.isAdd]
    · exact ⟨v, h⟩

/-- The calls of the destination resolution: no GET and no insertion of a video; in a dry run
nothing that changes the remote service. -/
theorem resolveDestination_footprint {σ : Type} (env : Env σ) (w : World σ)
    (name description : List Char) (dryRun : Bool) :
    ∃ calls, (resolveDestination env w name description dryRun).2.calls = w.calls ++ calls
      ∧ calls.filter ApiCall.isGet = []
      ∧ (dryRun = true → ∀ c ∈ calls, c.isMutation = false)
      ∧ ∀ c ∈ calls, c.isAdd = false := by
  rcases resolveDestination_calls env w name description dryRun with hc | ⟨hd, hc⟩
  · exact ⟨_, hc, rfl, fun _ c hmem => by rw [List.mem_singleton.mp hmem]; rfl,
      fun c hmem => by rw [List.mem_singleton.mp hmem]; rfl⟩
  · refine ⟨_, hc, rfl, ?_, ?_⟩
    · intro h; rw [hd] at h; cases h
    intro c hmem
    rcases List.mem_cons.mp hmem with h | h
    · rw [h]; rfl
    · rw [List.mem_singleton.mp h]; rfl

/-- Two extensions of a call log, each by calls with a property, make one. -/
theorem calls_trans (P : ApiCall → Prop) (a b c : List ApiCall)
    (h1 : ∃ x, b = a ++ x ∧ ∀ y ∈ x, P y) (h2 : ∃ x, c = b ++ x ∧ ∀ y ∈ x, P y) :
    ∃ x, c = a ++ x ∧ ∀ y ∈ x, P y := by
  obtain ⟨x1, e1, p1⟩ := h1
  obtain ⟨x2, e2, p2⟩ := h2
  refine ⟨x1 ++ x2, by rw [e2, e1, List.append_assoc], ?_⟩
  intro y hy
  rcases List.mem_append.mp hy with h | h
  · exact p1 y h
  · exact p2 y h

/-- The steps of a batch replay the loop of `TransferAllPlaylists`: the playlists of the steps
are a prefix of the list, the whole list when no step ends in a panic; the loop ends in a
panic exactly when a step does, and otherwise returns the results it was given followed by
the outcomes of the steps, in order; one GET is made per step, of the embed address of its
playlist, in order; and in a dry run no call changes the remote service. -/
theorem transferAllLoop_spec {σ : Type} (env : Env σ) (dryRun : Bool) :
    ∀ (playlists : List Playlist) (results : List TransferResult) (w : World σ),
      (Spec.batchSteps env dryRun playlists w).map (fun step => step.playlist) <+: playlists
      ∧ ((Spec.batchSteps env dryRun playlists w).any (fun step => step.panicked) = false →
          (Spec.batchSteps env dryRun playlists w).map (fun step => step.playlist) = playlists)
      ∧ (transferAllLoop env dryRun playlists results w).1
          = (if (Spec.batchSteps env dryRun playlists w).any (fun step => step.panicked) then none
             else some (results
              ++ (Spec.batchSteps env dryRun playlists w).filterMap (fun step => step.outcome)))
      ∧ ∃ calls, (transferAllLoop env dryRun playlists results w).2.calls = w.calls ++ calls
          ∧ calls.filter ApiCall.isGet
            = (Spec.batchSteps env dryRun playlists w).map
                (fun step => ApiCall.httpGet (embedURL step.playlist.ID))
          ∧ (dryRun = true → ∀ c ∈ calls, c.isMutation = false) := by
  intro playlists
  induction playlists with
  | nil =>
    intro results w
    refine ⟨?_, ?_, ?_, [], ?_, rfl, ?_⟩
    · simp [Spec.batchSteps]
    · intro _; rfl
    · simp [Spec.batchSteps, transferAllLoop]
    · simp [transferAllLoop]
    · intro _ c hmem; cases hmem
  | cons p rest ih =>
    intro results w
    obtain ⟨⟨g, hgs⟩, hc1⟩ := GetPlaylistTracks_spec env w p.ID
    rcases hg : GetPlaylistTracks env w p.ID with ⟨g0, w1⟩
    rw [hg] at hgs hc1
    simp only at hgs hc1
    subst hgs
    have hcons : ∀ (st : Spec.PlaylistStep σ) (results2 : List TransferResult) (w2 : World σ)
        (mid : List ApiCall),
        st.playlist = p → st.panicked = false → results2 = results ++ st.outcome.toList →
        w2.calls = w1.calls ++ mid → mid.filter ApiCall.isGet = [] →
        (dryRun = true → ∀ c ∈ mid, c.isMutation = false) →
        (st :: Spec.batchSteps env dryRun rest w2).map (fun step => step.playlist) <+: p :: rest
        ∧ ((st :: Spec.batchSteps env dryRun rest w2).any (fun step => step.panicked) = false →
            (st :: Spec.batchSteps env dryRun rest w2).map (fun step => step.playlist)
              = p :: rest)
        ∧ (transferAllLoop env dryRun rest results2 w2).1
            = (if (st :: Spec.batchSteps env dryRun rest w2).any (fun step => step.panicked)
               then none
               else some (results
                ++ (st :: Spec.batchSteps env dryRun rest w2).filterMap
                    (fun step => step.outcome)))
        ∧ ∃ calls, (transferAllLoop env dryRun rest results2 w2).2.calls = w.calls ++ calls
            ∧ calls.filter ApiCall.isGet
              = (st :: Spec.batchSteps env dryRun rest w2).map
                  (fun step => ApiCall.httpGet (embedURL step.playlist.ID))
            ∧ (dryRun = true → ∀ c ∈ calls, c.isMutation = false) := by
      intro st results2 w2 mid hp hpan hres2 hmid hfil hmut
      obtain ⟨hpre, hfull, hres, calls, hc, hf, hm⟩ := ih results2 w2
      refine ⟨?_, ?_, ?_, [ApiCall.httpGet (embedURL p.ID)] ++ mid ++ calls, ?_, ?_, ?_⟩
      · rw [List.map_cons, hp, List.cons_prefix_cons]
        exact ⟨rfl, hpre⟩
      · intro hany
        rw [List.any_cons, hpan, Bool.false_or] at hany
        rw [List.map_cons, hp, hfull hany]
      · rw [hres, List.any_cons, hpan, Bool.false_or, hres2]
        cases ho : st.outcome with
        | none => simp [List.filterMap_cons, ho]
        | some r => simp [List.filterMap_cons, ho]
      · rw [hc, hmid, hc1]; simp
      · rw [List.filter_append, List.filter_append, hfil, hf, List.map_cons, hp]
        rfl
      · intro hd c hmem
        rcases List.mem_append.mp hmem with h | h
        · rcases List.mem_append.mp h with h | h
          · rw [List.mem_singleton.mp h]; rfl
          · exact hmut hd c h
        · exact hm hd c h
    have hend : ∀ (st : Spec.PlaylistStep σ) (w2 : World σ) (mid : List ApiCall),
        st.playlist = p → st.panicked = true →
        w2.calls = w1.calls ++ mid → mid.filter ApiCall.isGet = [] →
        (dryRun = true → ∀ c ∈ mid, c.isMutation = false) →
        [st].map (fun step => step.playlist) <+: p :: rest
        ∧ ([st].any (fun step => step.panicked) = false →
            [st].map (fun step => step.playlist) = p :: rest)
        ∧ (none : Option (List TransferResult))
            = (if [st].any (fun step => step.panicked) then none
               else some (results ++ [st].filterMap (fun step => step.outcome)))
        ∧ ∃ calls, w2.calls = w.calls ++ calls
            ∧ calls.filter ApiCall.isGet
              = [st].map (fun step => ApiCall.httpGet (embedURL step.playlist.ID))
            ∧ (dryRun = true → ∀ c ∈ calls, c.isMutation = false) := by
      intro st w2 mid hp hpan hmid hfil hmut
      refine ⟨?_, ?_, ?_, [ApiCall.httpGet (embedURL p.ID)] ++ mid, ?_, ?_, ?_⟩
      · rw [List.map_cons, hp, List.map_nil, List.cons_prefix_cons]
        exact ⟨rfl, List.nil_prefix⟩
      · intro hany
        simp [hpan] at hany
      · simp [hpan]
      · rw [hmid, hc1]; simp
      · rw [List.filter_append, hfil, List.map_cons, hp]
        rfl
      · intro hd c hmem
        rcases List.mem_append.mp hmem with h | h
        · rw [List.mem_singleton.mp h]; rfl
        · exact hmut hd c h
    cases g with
    | error err =>
      simp only [Spec.batchSteps, transferAllLoop, hg]
      exact hcons { playlist := p } results w1 [] rfl rfl (by simp) (by simp) rfl (by simp)
    | ok tracks =>
      obtain ⟨mid, hmid, hfil, hmut, -⟩ :=
        resolveDestination_footprint env w1 p.Name p.Description dryRun
      rcases hd : resolveDestination env w1 p.Name p.Description dryRun with ⟨dest, w2⟩
      rw [hd] at hmid
      simp only at hmid
      cases dest with
      | none =>
        simp only [Spec.batchSteps, transferAllLoop, hg, hd]
        exact hend { playlist := p, panicked := true } w2 mid rfl rfl hmid hfil hmut
      | some dest =>
        cases dest with
        | lookupFailed e =>
          simp only [Spec.batchSteps, transferAllLoop, hg, hd]
          exact hcons { playlist := p } results w2 mid rfl rfl (by simp) hmid hfil hmut
        | createFailed e =>
          simp only [Spec.batchSteps, transferAllLoop, hg, hd]
          exact hcons { playlist := p } results w2 mid rfl rfl (by simp) hmid hfil hmut
        | ready yp =>
          obtain ⟨tcalls, htc, htget, -, htmut, -⟩ :=
            transferTracks_calls env.api env.tbl tracks yp dryRun w2
          rcases ht : transferTracks env.api env.tbl tracks yp dryRun w2 with ⟨tr, w3⟩
          rw [ht] at htc
          simp only at htc
          have hmid3 : w3.calls = w1.calls ++ (mid ++ tcalls) := by
            rw [htc, hmid, List.append_assoc]
          have hfil3 : (mid ++ tcalls).filter ApiCall.isGet = [] := by
            rw [List.filter_append, hfil, htget]; rfl
          have hmut3 : dryRun = true → ∀ c ∈ mid ++ tcalls, c.isMutation = false := by
            intro hdry c hmem
            rcases List.mem_append.mp hmem with h | h
            · exact hmut hdry c h
            · exact htmut hdry c h
          cases tr with
          | none =>
            simp only [Spec.batchSteps, transferAllLoop, hg, hd, ht]
            exact hend { playlist := p, transfer := some (tracks, yp, w2), panicked := true }
              w3 (mid ++ tcalls) rfl rfl hmid3 hfil3 hmut3
          | some result =>
            simp only [Spec.batchSteps, transferAllLoop, hg, hd, ht]
            exact hcons { playlist := p, transfer := some (tracks, yp, w2)
                          outcome := some result }
              (results ++ [result]) w3 (mid ++ tcalls) rfl rfl rfl hmid3 hfil3 hmut3

/-- What the steps of a batch record: a step with an outcome made a transfer, and its outcome
is the result of `transferTracks` on the tracks, the destination and the world recorded for
it; a step that made a transfer ended in a panic exactly when `transferTracks` did. -/
theorem batchSteps_outcome {σ : Type} (env : Env σ) (dryRun : Bool) :
    ∀ (playlists : List Playlist) (w : World σ),
      ∀ step ∈ Spec.batchSteps env dryRun playlists w,
        (step.transfer = none → step.outcome = none)
        ∧ ∀ tracks pl w1, step.transfer = some (tracks, pl, w1) →
            step.outcome = (transferTracks env.api env.tbl tracks pl dryRun w1).1
            ∧ step.panicked = (transferTracks env.api env.tbl tracks pl dryRun w1).1.isNone := by
  intro playlists
  induction playlists with
  | nil => intro w step hmem; simp [Spec.batchSteps] at hmem
  | cons p rest ih =>
    intro w step hmem
    have hplain : ∀ st : Spec.PlaylistStep σ, st.transfer = none → st.outcome = none →
        (st.transfer = none → st.outcome = none)
        ∧ ∀ tracks pl w1, st.transfer = some (tracks, pl, w1) →
            st.outcome = (transferTracks env.api env.tbl tracks pl dryRun w1).1
            ∧ st.panicked = (transferTracks env.api env.tbl tracks pl dryRun w1).1.isNone := by
      intro st ht ho
      refine ⟨fun _ => ho, ?_⟩
      intro tracks pl w1 h
      rw [ht] at h
      cases h
    rcases hg : GetPlaylistTracks env w p.ID with ⟨g, w1⟩
    cases g with
    | none =>
      simp only [Spec.batchSteps, hg, List.mem_singleton] at hmem
      rw [hmem]
      exact hplain _ rfl rfl
    | some g =>
      cases g with
      | error err =>
        simp only [Spec.batchSteps, hg, List.mem_cons] at hmem
        rcases hmem with h | h
        · rw [h]; exact hplain _ rfl rfl
        · exact ih w1 step h
      | ok tracks =>
        rcases hd : resolveDestination env w1 p.Name p.Description dryRun with ⟨dest, w2⟩
        cases dest with
        | none =>
          simp only [Spec.batchSteps, hg, hd, List.mem_singleton] at hmem
          rw [hmem]
          exact hplain _ rfl rfl
        | some dest =>
          cases dest with
          | lookupFailed e =>
            simp only [Spec.batchSteps, hg, hd, List.mem_cons] at hmem
            rcases hmem with h | h
            · rw [h]; exact hplain _ rfl rfl
            · exact ih w2 step h
          | createFailed e =>
            simp only [Spec.batchSteps, hg, hd, List.mem_cons] at hmem
            rcases hmem with h | h
            · rw [h]; exact hplain _ rfl rfl
            · exact ih w2 step h
          | ready yp =>
            rcases ht : transferTracks env.api env.tbl tracks yp dryRun w2 with ⟨tr, w3⟩
            cases tr with
            | none =>
              simp only [Spec.batchSteps, hg, hd, ht, List.mem_singleton] at hmem
              rw [hmem]
              refine ⟨?_, ?_⟩
              · intro h; cases h
              intro tracks1 pl1 w4 h
              simp only [Option.some.injEq, Prod.mk.injEq] at h
              obtain ⟨h1, h2, h3⟩ := h
              subst h1 h2 h3
              rw [ht]
              exact ⟨rfl, rfl⟩
            | some result =>
              simp only [Spec.batchSteps, hg, hd, ht, List.mem_cons] at hmem
              rcases hmem with h | h
              · rw [h]
                refine ⟨?_, ?_⟩
                · intro h; cases h
                intro tracks1 pl1 w4 h
                simp only [Option.some.injEq, Prod.mk.injEq] at h
                obtain ⟨h1, h2, h3⟩ := h
                subst h1 h2 h3
                rw [ht]
                exact ⟨rfl, rfl⟩
              · exact ih w3 step h

/-- With a remote service whose replies are complete, no step of a batch ends in a panic. -/
theorem batchSteps_not_panicked {σ : Type} (env : Env σ) (hc : Spec.Complete env.api)
    (dryRun : Bool) :
    ∀ (playlists : List Playlist) (w : World σ),
      (Spec.batchSteps env dryRun playlists w).any (fun step => step.panicked) = false := by
  intro playlists
  induction playlists with
  | nil => intro w; rfl
  | cons p rest ih =>
    intro w
    obtain ⟨⟨g, hgs⟩, -⟩ := GetPlaylistTracks_spec env w p.ID
    rcases hg : GetPlaylistTracks env w p.ID with ⟨g0, w1⟩
    rw [hg] at hgs
    simp only at hgs
    subst hgs
    cases g with
    | error err =>
      simp only [Spec.batchSteps, hg, List.any_cons, ih]
      rfl
    | ok tracks =>
      obtain ⟨dest, hds⟩ := resolveDestination_isSome env hc w1 p.Name p.Description dryRun
      rcases hd : resolveDestination env w1 p.Name p.Description dryRun with ⟨d0, w2⟩
      rw [hd] at hds
      simp only at hds
      subst hds
      cases dest with
      | lookupFailed e =>
        simp only [Spec.batchSteps, hg, hd, List.any_cons, ih]
        rfl
      | createFailed e =>
        simp only [Spec.batchSteps, hg, hd, List.any_cons, ih]
        rfl
      | ready yp =>
        obtain ⟨result, hts⟩ := (transferTracks_isSome_iff env.api env.tbl tracks yp dryRun w2).mpr
          (attempts_not_panicked env.api hc env.tbl yp dryRun tracks w2)
        rcases ht : transferTracks env.api env.tbl tracks yp dryRun w2 with ⟨t0, w3⟩
        rw [ht] at hts
        simp only at hts
        subst hts
        simp only [Spec.batchSteps, hg, hd, ht, List.any_cons, ih]
        rfl

/-- In a dry run a matched attempt is one for which a candidate was selected. -/
theorem matched_dryRun (a : Spec.Attempt) : a.matched true = a.selected := by
  unfold Spec.Attempt.matched Spec.Attempt.selected
  rcases a.search with _ | (_ | videos) <;> simp

/-- A candidate is selected for an attempt exactly when its search succeeds and
`findBestMatch` returns a video. -/
theorem selected_iff (tbl : Char → Char) (a : Spec.Attempt) :
    a.selected = true
      ↔ ∃ videos best, a.search = some (Except.ok videos)
          ∧ findBestMatch tbl a.track videos = some best := by
  unfold Spec.Attempt.selected
  rcases hs : a.search with _ | (e | videos)
  · simp
  · simp
  · cases videos with
    | nil => simp [findBestMatch]
    | cons v vs =>
      obtain ⟨best, hb⟩ := findBestMatch_isSome tbl a.track v vs
      simp only [List.isEmpty_cons, Bool.not_false, Option.some.injEq, Except.ok.injEq,
        exists_and_left, exists_eq_left', true_iff]
      exact ⟨best, hb⟩

/-- In a dry run every result of `transferTracks` counts as matched the tracks for which a
candidate was selected. -/
theorem transferTracks_dryRun_matched {σ : Type} (api : Api σ) (tbl : Char → Char)
    (tracks : List Track) (pl : YouTubePlaylist) (w : World σ) (result : TransferResult)
    (hres : (transferTracks api tbl tracks pl true w).1 = some result) :
    result.TotalTracks = tracks.length
      ∧ result.MatchedTracks
        = ((Spec.attempts api tbl pl true tracks w).filter Spec.Attempt.selected).length := by
  obtain ⟨-, -, -, h⟩ := transferLoop_spec api tbl pl true tracks
    { PlaylistName := pl.Title, TotalTracks := tracks.length, YouTubePlaylist := pl } w
  obtain ⟨-, -, -, hT, hM, -⟩ := h result hres
  simp only [Nat.zero_add] at hM
  have hfun : Spec.Attempt.matched true = Spec.Attempt.selected := funext matched_dryRun
  rw [hfun] at hM
  exact ⟨hT, hM⟩

/-- The calls of `TransferPlaylist`: in a dry run none of them changes the remote service,
whether the run returns or ends in a panic. -/
theorem TransferPlaylist_footprint {σ : Type} (env : Env σ) (s : Service)
    (playlistID playlistName : List Char) (dryRun : Bool) (w : World σ) :
    ∃ calls, (TransferPlaylist env s playlistID playlistName dryRun w).world.calls
        = w.calls ++ calls
      ∧ ∀ c ∈ calls, dryRun = true → c.isMutation = false := by
  have hic := initializeClients_calls env s w
  rcases hi : initializeClients env s w with ⟨e, s1, w0⟩
  rw [hi] at hic
  simp only at hic
  have h0 : ∃ x, w0.calls = w.calls ++ x ∧ ∀ c ∈ x, dryRun = true → c.isMutation = false :=
    ⟨[], by simp [hic], by simp⟩
  cases e with
  | some e =>
    simp only [TransferPlaylist, hi]
    exact h0
  | none =>
    obtain ⟨-, cn, hcn, hgn⟩ := resolveName_spec env w0 playlistID playlistName
    rcases hn : resolveName env w0 playlistID playlistName with ⟨n, w1⟩
    rw [hn] at hcn
    simp only at hcn
    have h1 := calls_trans _ _ _ _ h0
      ⟨cn, hcn, fun c hc _ => isGet_not_mutation c (hgn c hc)⟩
    rcases n with _ | (e | name)
    · simp only [TransferPlaylist, hi, hn]
      exact h1
    · simp only [TransferPlaylist, hi, hn]
      exact h1
    · obtain ⟨-, hcg⟩ := GetPlaylistTracks_spec env w1 playlistID
      rcases hg : GetPlaylistTracks env w1 playlistID with ⟨g, w2⟩
      rw [hg] at hcg
      simp only at hcg
      have h2 := calls_trans _ _ _ _ h1
        ⟨_, hcg, fun c hc _ => by rw [List.mem_singleton.mp hc]; rfl⟩
      rcases g with _ | (e | tracks)
      · simp only [TransferPlaylist, hi, hn, hg]
        exact h2
      · simp only [TransferPlaylist, hi, hn, hg]
        exact h2
      · obtain ⟨cd, hcd, -, hmd, -⟩ := resolveDestination_footprint env w2 name
          ("Transferred from Spotify playlist: ".toList ++ playlistID) dryRun
        rcases hd : resolveDestination env w2 name
          ("Transferred from Spotify playlist: ".toList ++ playlistID) dryRun with ⟨dest, w3⟩
        rw [hd] at hcd
        simp only at hcd
        have h3 := calls_trans _ _ _ _ h2 ⟨cd, hcd, fun c hc hdry => hmd hdry c hc⟩
        rcases dest with _ | (e | e | yp)
        · simp only [TransferPlaylist, hi, hn, hg, hd]
          exact h3
        · simp only [TransferPlaylist, hi, hn, hg, hd]
          exact h3
        · simp only [TransferPlaylist, hi, hn, hg, hd]
          exact h3
        · obtain ⟨ct, hct, -, -, hmt, -⟩ :=
            transferTracks_calls env.api env.tbl tracks yp dryRun w3
          rcases ht : transferTracks env.api env.tbl tracks yp dryRun w3 with ⟨tr, w4⟩
          rw [ht] at hct
          simp only at hct
          have h4 := calls_trans _ _ _ _ h3 ⟨ct, hct, fun c hc hdry => hmt hdry c hc⟩
          cases tr with
          | none =>
            simp only [TransferPlaylist, hi, hn, hg, hd, ht]
            exact h4
          | some result =>
            simp only [TransferPlaylist, hi, hn, hg, hd, ht]
            exact h4

/-- The calls of `TransferAllPlaylists`: in a dry run none of them changes the remote service,
whether the run returns or ends in a panic. -/
theorem TransferAllPlaylists_footprint {σ : Type} (env : Env σ) (s : Service) (dryRun : Bool)
    (w : World σ) :
    ∃ calls, (TransferAllPlaylists env s dryRun w).world.calls = w.calls ++ calls
      ∧ ∀ c ∈ calls, dryRun = true → c.isMutation = false := by
  have hic := initializeClients_calls env s w
  rcases hi : initializeClients env s w with ⟨e, s1, w0⟩
  rw [hi] at hic
  simp only at hic
  have h0 : ∃ x, w0.calls = w.calls ++ x ∧ ∀ c ∈ x, dryRun = true → c.isMutation = false :=
    ⟨[], by simp [hic], by simp⟩
  cases e with
  | some e =>
    simp only [TransferAllPlaylists, hi]
    exact h0
  | none =>
    obtain ⟨-, cl, hcl, hgl⟩ := spotifyGetUserPlaylists_spec env w0
    rcases hl : spotify.GetUserPlaylists env w0 with ⟨l, w1⟩
    rw [hl] at hcl
    simp only at hcl
    have h1 := calls_trans _ _ _ _ h0
      ⟨cl, hcl, fun c hc _ => isGet_not_mutation c (hgl c hc)⟩
    rcases l with _ | (e | playlists)
    · simp only [TransferAllPlaylists, hi, hl]
      exact h1
    · simp only [TransferAllPlaylists, hi, hl]
      exact h1
    · obtain ⟨-, -, -, ca, hca, -, hma⟩ := transferAllLoop_spec env dryRun playlists [] w1
      rcases hloop : transferAllLoop env dryRun playlists [] w1 with ⟨res, w2⟩
      rw [hloop] at hca
      simp only at hca
      have h2 := calls_trans _ _ _ _ h1 ⟨ca, hca, fun c hc hdry => hma hdry c hc⟩
      cases res with
      | none =>
        simp only [TransferAllPlaylists, hi, hl, hloop]
        exact h2
      | some res =>
        simp only [TransferAllPlaylists, hi, hl, hloop]
        exact h2

/-- What `TransferAllPlaylists` hands to `printSummary` once the clients are initialised and
the playlists are listed: nothing when a step of the batch ends in a panic, and otherwise the
outcomes of the steps, in order. -/
theorem TransferAllPlaylists_results {σ : Type} (env : Env σ) (s s1 : Service)
    (dryRun : Bool) (w w0 w1 : World σ) (playlists : List Playlist)
    (hinit : initializeClients env s w = (none, s1, w0))
    (hlist : spotify.GetUserPlaylists env w0 = (some (Except.ok playlists), w1)) :
    (TransferAllPlaylists env s dryRun w).err = none
      ∧ (TransferAllPlaylists env s dryRun w).panicked
        = (Spec.batchSteps env dryRun playlists w1).any (fun step => step.panicked)
      ∧ (TransferAllPlaylists env s dryRun w).results
        = (if (Spec.batchSteps env dryRun playlists w1).any (fun step => step.panicked)
           then none
           else some ((Spec.batchSteps env dryRun playlists w1).filterMap
              (fun step => step.outcome)))
      ∧ (TransferAllPlaylists env s dryRun w).summary
        = (TransferAllPlaylists env s dryRun w).results.map printSummary
      ∧ (TransferAllPlaylists env s dryRun w).world
        = (transferAllLoop env dryRun playlists [] w1).2 := by
  obtain ⟨-, -, hres, -⟩ := transferAllLoop_spec env dryRun playlists [] w1
  rw [List.nil_append] at hres
  rcases hloop : transferAllLoop env dryRun playlists [] w1 with ⟨res, w2⟩
  rw [hloop] at hres
  simp only at hres
  cases hany : (Spec.batchSteps env dryRun playlists w1).any (fun step => step.panicked) with
  | true =>
    rw [hany] at hres
    simp only [if_true] at hres
    subst hres
    have hrun : TransferAllPlaylists env s dryRun w
        = { panicked := true, service := s1, world := w2 } := by
      simp only [TransferAllPlaylists, hinit, hlist, hloop]
    rw [hrun]
    exact ⟨rfl, rfl, rfl, rfl, rfl⟩
  | false =>
    rw [hany] at hres
    simp only [Bool.false_eq_true, if_false] at hres
    subst hres
    have hrun : TransferAllPlaylists env s dryRun w
        = { results := some ((Spec.batchSteps env dryRun playlists w1).filterMap
              (fun step => step.outcome))
            summary := some (printSummary ((Spec.batchSteps env dryRun playlists w1).filterMap
              (fun step => step.outcome)))
            service := s1, world := w2 } := by
      simp only [TransferAllPlaylists, hinit, hlist, hloop]
    rw [hrun]
    exact ⟨rfl, rfl, rfl, rfl, rfl⟩

/-! ## Simulation mode: theorems -/

/-- C21: simulation mode performs no external mutation.  With `dryRun` true, none of the calls
made by `transferTracks`, by `TransferPlaylist` or by `TransferAllPlaylists` creates a
playlist or inserts a video, for all inputs and every behaviour of the collaborators, whether
the run returns or ends in a run-time panic.  The method `transferTracks` returns a result
exactly when no search reply lacks a field read through a pointer, and the result counts as
matched exactly the tracks for which a candidate was selected: those whose search succeeded
and for which `findBestMatch` returned a video.  A run of `TransferPlaylist`
that reaches the transfer of the tracks reports the result of `transferTracks` on the fetched
tracks and the resolved destination.  A run of `TransferAllPlaylists` that has listed the
playlists hands over the outcomes of its steps, each of which is the result of
`transferTracks` on the tracks fetched and the destination resolved for that playlist. -/
theorem dryRun_no_mutation {σ : Type} (env : Env σ) (s : Service)
    (playlistID playlistName : List Char) (tracks : List Track) (pl : YouTubePlaylist)
    (w : World σ) :
    ((∃ calls, (transferTracks env.api env.tbl tracks pl true w).2.calls = w.calls ++ calls
          ∧ ∀ c ∈ calls, c.isMutation = false)
        ∧ (∃ calls, (TransferPlaylist env s playlistID playlistName true w).world.calls
              = w.calls ++ calls
            ∧ ∀ c ∈ calls, c.isMutation = false)
        ∧ ∃ calls, (TransferAllPlaylists env s true w).world.calls = w.calls ++ calls
            ∧ ∀ c ∈ calls, c.isMutation = false)
      ∧ (((∃ result, (transferTracks env.api env.tbl tracks pl true w).1 = some result)
            ↔ (Spec.attempts env.api env.tbl pl true tracks w).any Spec.Attempt.panicked
                = false)
          ∧ (∀ a : Spec.Attempt,
              a.selected = true
                ↔ ∃ videos best, a.search = some (Except.ok videos)
                    ∧ findBestMatch env.tbl a.track videos = some best)
          ∧ ∀ result, (transferTracks env.api env.tbl tracks pl true w).1 = some result →
              result.TotalTracks = tracks.length
              ∧ result.MatchedTracks
                = ((Spec.attempts env.api env.tbl pl true tracks w).filter
                    Spec.Attempt.selected).length)
      ∧ (∀ s1 w0 name w1 tracks1 w2 pl1 w3,
          initializeClients env s w = (none, s1, w0) →
          resolveName env w0 playlistID playlistName = (some (Except.ok name), w1) →
          GetPlaylistTracks env w1 playlistID = (some (Except.ok tracks1), w2) →
          resolveDestination env w2 name
              ("Transferred from Spotify playlist: ".toList ++ playlistID) true
            = (some (Destination.ready pl1), w3) →
          (TransferPlaylist env s playlistID playlistName true w).result
              = (transferTracks env.api env.tbl tracks1 pl1 true w3).1
            ∧ ∀ result,
                (TransferPlaylist env s playlistID playlistName true w).result = some result →
                result.TotalTracks = tracks1.length
                ∧ result.MatchedTracks
                  = ((Spec.attempts env.api env.tbl pl1 true tracks1 w3).filter
                      Spec.Attempt.selected).length)
      ∧ ∀ s1 w0 playlists w1,
          initializeClients env s w = (none, s1, w0) →
          spotify.GetUserPlaylists env w0 = (some (Except.ok playlists), w1) →
          (TransferAllPlaylists env s true w).results
              = (if (Spec.batchSteps env true playlists w1).any (fun step => step.panicked)
                 then none
                 else some ((Spec.batchSteps env true playlists w1).filterMap
                    (fun step => step.outcome)))
            ∧ ∀ step ∈ Spec.batchSteps env true playlists w1,
                (step.transfer = none → step.outcome = none)
                ∧ ∀ tracks1 pl1 w2, step.transfer = some (tracks1, pl1, w2) →
                    step.outcome = (transferTracks env.api env.tbl tracks1 pl1 true w2).1
                    ∧ ∀ result, step.outcome = some result →
                        result.TotalTracks = tracks1.length
                        ∧ result.MatchedTracks
                          = ((Spec.attempts env.api env.tbl pl1 true tracks1 w2).filter
                              Spec.Attempt.selected).length := by
  refine ⟨⟨?_, ?_, ?_⟩, ⟨transferTracks_isSome_iff env.api env.tbl tracks pl true w,
    fun a => selected_iff env.tbl a,
    fun result hres => transferTracks_dryRun_matched env.api env.tbl tracks pl w result hres⟩,
    ?_, ?_⟩
  · obtain ⟨calls, hc, -, -, hm, -⟩ := transferTracks_calls env.api env.tbl tracks pl true w
    exact ⟨calls, hc, hm rfl⟩
  · obtain ⟨calls, hc, hm⟩ := TransferPlaylist_footprint env s playlistID playlistName true w
    exact ⟨calls, hc, fun c hmem => hm c hmem rfl⟩
  · obtain ⟨calls, hc, hm⟩ := TransferAllPlaylists_footprint env s true w
    exact ⟨calls, hc, fun c hmem => hm c hmem rfl⟩
  · intro s1 w0 name w1 tracks1 w2 pl1 w3 hinit hname htracks hdest
    have hrun : (TransferPlaylist env s playlistID playlistName true w).result
        = (transferTracks env.api env.tbl tracks1 pl1 true w3).1 := by
      simp only [TransferPlaylist, hinit, hname, htracks, hdest]
      rcases transferTracks env.api env.tbl tracks1 pl1 true w3 with ⟨tr, w4⟩
      cases tr <;> rfl
    refine ⟨hrun, ?_⟩
    intro result hres
    rw [hrun] at hres
    exact transferTracks_dryRun_matched env.api env.tbl tracks1 pl1 w3 result hres
  · intro s1 w0 playlists w1 hinit hlist
    refine ⟨(TransferAllPlaylists_results env s s1 true w w0 w1 playlists hinit hlist).2.2.1,
      ?_⟩
    intro step hmem
    obtain ⟨hnone, hsome⟩ := batchSteps_outcome env true playlists w1 step hmem
    refine ⟨hnone, ?_⟩
    intro tracks1 pl1 w2 htr
    obtain ⟨ho, -⟩ := hsome tracks1 pl1 w2 htr
    refine ⟨ho, ?_⟩
    intro result hout
    rw [ho] at hout
    exact transferTracks_dryRun_matched env.api env.tbl tracks1 pl1 w2 result hout

/-- C21, on dry runs with collaborators that all work and no destination playlist: the
transfer of the playlist `abc` under the name `Mix` makes one GET, one listing and one search
and nothing else, and reports its one track as matched; the batch over the one playlist `a`
hands over one result, with one matched track. -/
theorem dryRun_no_mutation_witness :
    (∀ c ∈ (TransferPlaylist (workingEnv [] []) {} "abc".toList "Mix".toList true
        { state := 0 }).world.calls, c.isMutation = false)
      ∧ (TransferPlaylist (workingEnv [] []) {} "abc".toList "Mix".toList true
          { state := 0 }).world.calls
        = [ApiCall.httpGet (embedURL "abc".toList), ApiCall.playlistsList,
           ApiCall.searchList "Daft Punk One More Time".toList]
      ∧ (TransferPlaylist (workingEnv [] []) {} "abc".toList "Mix".toList true
          { state := 0 }).result.map (fun r => (r.TotalTracks, r.MatchedTracks))
        = some (1, 1)
      ∧ (TransferAllPlaylists (workingEnv "spotify:playlist:a".toList []) {} true
          { state := 0 }).results.map (fun rs => rs.map fun r => r.MatchedTracks)
        = some [1] := by
  have h := dryRun_no_mutation (workingEnv [] []) {} "abc".toList "Mix".toList [] {}
    { state := 0 }
  refine ⟨?_, by decide, ?_, by decide⟩
  · obtain ⟨calls, hc, hm⟩ := h.1.2.1
    intro c hmem
    rw [hc] at hmem
    exact hm c (by simpa using hmem)
  · rw [(h.2.2.1 { spotifyClient := true, youtubeClient := true } { state := 0 } "Mix".toList
      { state := 0 } [{ Name := "One More Time".toList, Artist := "Daft Punk".toList }]
      { state := 1, calls := [ApiCall.httpGet (embedURL "abc".toList)] }
      { Title := "Mix".toList
        Description := "Transferred from Spotify playlist: abc".toList }
      { state := 1, calls := [ApiCall.httpGet (embedURL "abc".toList), ApiCall.playlistsList] }
      rfl rfl rfl rfl).1]
    decide

/-! ## Batch transfer: theorems -/

/-- The summary loop, started from any intermediate summary: one row is added per result,
in order, the totals grow by the sums over the results, and the number of playlists is
untouched. -/
theorem printSummary_fold (results : List TransferResult) :
    ∀ init : Summary,
      results.foldl
        (fun summary result =>
          { summary with
            rows := summary.rows ++ [(result.PlaylistName, result.MatchedTracks,
              result.TotalTracks, result.FailedTracks)]
            totalTracks := summary.totalTracks + result.TotalTracks
            totalMatched := summary.totalMatched + result.MatchedTracks
            totalFailed := summary.totalFailed + result.FailedTracks })
        init
      = { rows := init.rows ++ results.map (fun r =>
            (r.PlaylistName, r.MatchedTracks, r.TotalTracks, r.FailedTracks))
          totalPlaylists := init.totalPlaylists
          totalTracks := init.totalTracks + (results.map (fun r => r.TotalTracks)).sum
          totalMatched := init.totalMatched + (results.map (fun r => r.MatchedTracks)).sum
          totalFailed := init.totalFailed + (results.map (fun r => r.FailedTracks)).sum } := by
  induction results with
  | nil => intro init; simp
  | cons r rest ih =>
    intro init
    rw [List.foldl_cons, ih]
    simp [Nat.add_assoc]

/-- What `printSummary` reports: the number of results, the sums of their counters, and one
row per result in order. -/
theorem printSummary_eq (results : List TransferResult) :
    printSummary results
      = { rows := results.map (fun r =>
            (r.PlaylistName, r.MatchedTracks, r.TotalTracks, r.FailedTracks))
          totalPlaylists := results.length
          totalTracks := (results.map (fun r => r.TotalTracks)).sum
          totalMatched := (results.map (fun r => r.MatchedTracks)).sum
          totalFailed := (results.map (fun r => r.FailedTracks)).sum } := by
  unfold printSummary
  rw [printSummary_fold]
  simp

/-- The replies of the remote service `steadyApi` are complete when the playlists it lists
carry their snippet and their content details. -/
theorem steadyApi_complete (listing : Except ApiError (List PlaylistResource))
    (insertAnswer : Option ApiError)
    (h : ∀ items, listing = Except.ok items →
      ∀ item ∈ items, item.Snippet.isSome = true ∧ item.ContentDetails.isSome = true) :
    Spec.Complete (steadyApi listing insertAnswer) := by
  refine ⟨?_, ?_, ?_⟩
  · intro st query items st1 heq item hmem
    simp only [steadyApi, Prod.mk.injEq, Except.ok.injEq] at heq
    rw [← heq.1, List.mem_singleton] at hmem
    rw [hmem]
    exact ⟨rfl, rfl⟩
  · intro st page st1 heq item hmem
    cases listing with
    | error err =>
      simp only [steadyApi, Prod.mk.injEq] at heq
      cases heq.1
    | ok items =>
      simp only [steadyApi, Prod.mk.injEq, Except.ok.injEq] at heq
      rw [← heq.1] at hmem
      exact h items rfl item hmem
  · intro st title description result st1 heq
    simp only [steadyApi, Prod.mk.injEq, Except.ok.injEq] at heq
    rw [← heq.1]
    rfl

/-- C25: on a batch of two playlists with a remote service whose search replies lack the id
of the hit, the clients are initialised and the two playlists are listed, yet
`TransferAllPlaylists` ends in a run-time panic on the first search of the first playlist:
no summary is printed, and the tracks of the second playlist are never fetched by the loop
(the first four GETs are those of the listing). -/
theorem TransferAllPlaylists_never_aborts_counterexample :
    (initializeClients (malformedSearchEnv "spotify:playlist:a,spotify:playlist:b".toList) {}
        { state := 0 }).1 = none
      ∧ (spotify.GetUserPlaylists
          (malformedSearchEnv "spotify:playlist:a,spotify:playlist:b".toList)
          { state := 0 }).1.map
          (fun r => match r with
            | Except.ok playlists => some (playlists.map fun p => p.ID)
            | Except.error _ => none)
        = some (some ["a".toList, "b".toList])
      ∧ (TransferAllPlaylists
          (malformedSearchEnv "spotify:playlist:a,spotify:playlist:b".toList) {} false
          { state := 0 }).panicked = true
      ∧ (TransferAllPlaylists
          (malformedSearchEnv "spotify:playlist:a,spotify:playlist:b".toList) {} false
          { state := 0 }).summary = none
      ∧ (TransferAllPlaylists
          (malformedSearchEnv "spotify:playlist:a,spotify:playlist:b".toList) {} false
          { state := 0 }).world.calls
        = [ApiCall.httpGet (embedURL "a".toList), ApiCall.httpGet (embedURL "a".toList),
           ApiCall.httpGet (embedURL "b".toList), ApiCall.httpGet (embedURL "b".toList),
           ApiCall.httpGet (embedURL "a".toList), ApiCall.playlistsList,
           ApiCall.playlistsInsert "a".toList [],
           ApiCall.searchList "Daft Punk One More Time".toList] := by
  decide

/-- C25 (amended): in all-playlists mode a failure that a collaborator reports for one
playlist never aborts the batch; only a reply of the remote service that lacks a field read
through a pointer does, by a run-time panic.  When the clients are initialised and the
playlists are listed, `TransferAllPlaylists` returns a nil error; the playlists attempted are
a first part of the list, in order, with one GET for the tracks of each; the run ends in a
panic exactly when a step does; when none does, every playlist of the list is attempted and
a summary is printed; and no step panics when the replies of the remote service are
complete.  The three methods that read a reply through a pointer end in a panic exactly when
the call succeeds with a reply that lacks the field: an item of a search response its id or
its snippet, an item of the first page of a listing its snippet or its content details, a
created playlist its snippet. -/
theorem TransferAllPlaylists_never_aborts {σ : Type} (env : Env σ) (s s1 : Service)
    (dryRun : Bool) (w w0 w1 : World σ) (playlists : List Playlist)
    (hinit : initializeClients env s w = (none, s1, w0))
    (hlist : spotify.GetUserPlaylists env w0 = (some (Except.ok playlists), w1)) :
    (TransferAllPlaylists env s dryRun w).err = none
      ∧ (Spec.batchSteps env dryRun playlists w1).map (fun step => step.playlist) <+: playlists
      ∧ (∃ calls, (TransferAllPlaylists env s dryRun w).world.calls = w1.calls ++ calls
          ∧ calls.filter ApiCall.isGet
            = (Spec.batchSteps env dryRun playlists w1).map
                (fun step => ApiCall.httpGet (embedURL step.playlist.ID)))
      ∧ (TransferAllPlaylists env s dryRun w).panicked
        = (Spec.batchSteps env dryRun playlists w1).any (fun step => step.panicked)
      ∧ ((TransferAllPlaylists env s dryRun w).panicked = false →
          (TransferAllPlaylists env s dryRun w).summary.isSome = true
          ∧ (Spec.batchSteps env dryRun playlists w1).map (fun step => step.playlist)
            = playlists)
      ∧ (Spec.Complete env.api → (TransferAllPlaylists env s dryRun w).panicked = false)
      ∧ (∀ (w2 : World σ) (query : List Char),
          (SearchVideo env.api w2 query).1 = none
            ↔ ∃ items, (env.api.searchList w2.state query).1 = Except.ok items
                ∧ ∃ item ∈ items, item.Id = none ∨ item.Snippet = none)
      ∧ (∀ w2 : World σ,
          (youtube.GetUserPlaylists env.api w2).1 = none
            ↔ ∃ page, (env.api.playlistsList w2.state []).1 = Except.ok page
                ∧ ∃ item ∈ page.Items, item.Snippet = none ∨ item.ContentDetails = none)
      ∧ ∀ (w2 : World σ) (title description : List Char),
          (CreatePlaylist env.api w2 title description).1 = none
            ↔ ∃ result,
                (env.api.playlistsInsert w2.state title description).1 = Except.ok result
                ∧ result.Snippet = none := by
  obtain ⟨herr, hpan, hres, hsum, hworld⟩ :=
    TransferAllPlaylists_results env s s1 dryRun w w0 w1 playlists hinit hlist
  obtain ⟨hpre, hfull, -, calls, hc, hget, -⟩ := transferAllLoop_spec env dryRun playlists [] w1
  refine ⟨herr, hpre, ⟨calls, by rw [hworld]; exact hc, hget⟩, hpan, ?_, ?_,
    fun w2 query => SearchVideo_panics_iff env.api w2 query,
    fun w2 => GetUserPlaylists_panics_iff env.api w2,
    fun w2 title description => CreatePlaylist_panics_iff env.api w2 title description⟩
  · intro hnp
    rw [hpan] at hnp
    refine ⟨?_, hfull hnp⟩
    rw [hsum, hres, hnp]
    rfl
  · intro hcomp
    rw [hpan]
    exact batchSteps_not_panicked env hcomp dryRun playlists w1

/-- C25, on a batch of two playlists for which everything fails after the listing: the
existence check fails for the first playlist and the track fetch for the second; no step
panics, the run returns a nil error and prints a summary, and the loop fetches the tracks of
both playlists, in order. -/
theorem TransferAllPlaylists_never_aborts_witness :
    (TransferAllPlaylists (failingEnv "spotify:playlist:a,spotify:playlist:b".toList) {} false
        { state := 0 }).err = none
      ∧ (TransferAllPlaylists (failingEnv "spotify:playlist:a,spotify:playlist:b".toList) {}
          false { state := 0 }).panicked = false
      ∧ (TransferAllPlaylists (failingEnv "spotify:playlist:a,spotify:playlist:b".toList) {}
          false { state := 0 }).summary.isSome = true
      ∧ (TransferAllPlaylists (failingEnv "spotify:playlist:a,spotify:playlist:b".toList) {}
          false { state := 0 }).world.calls.drop 4
        = [ApiCall.httpGet (embedURL "a".toList), ApiCall.playlistsList,
           ApiCall.httpGet (embedURL "b".toList)] := by
  have h := TransferAllPlaylists_never_aborts
    (failingEnv "spotify:playlist:a,spotify:playlist:b".toList) {}
    { spotifyClient := true, youtubeClient := true } false { state := 0 } { state := 0 }
    { state := 4
      calls := [ApiCall.httpGet (embedURL "a".toList), ApiCall.httpGet (embedURL "a".toList),
        ApiCall.httpGet (embedURL "b".toList), ApiCall.httpGet (embedURL "b".toList)] }
    [{ ID := "a".toList, Name := "a".toList, TrackCount := 1, Public := true
       Owner := "Unknown".toList },
     { ID := "b".toList, Name := "b".toList, TrackCount := 1, Public := true
       Owner := "Unknown".toList }]
    rfl rfl
  have hcomp : Spec.Complete
      (failingEnv "spotify:playlist:a,spotify:playlist:b".toList).api :=
    steadyApi_complete (Except.error { message := "backend error".toList }) none
      (fun items hitems => by cases hitems)
  have hnp := h.2.2.2.2.2.1 hcomp
  exact ⟨h.1, hnp, (h.2.2.2.2.1 hnp).1, by decide⟩

/-- C24: on a batch of one source playlist whose existence check fails, the playlist is
listed and no step panics, but `TransferAllPlaylists` hands `printSummary` no result for it:
the reported total of playlists is 0, not the number of source playlists. -/
theorem TransferAllPlaylists_summary_counterexample :
    (spotify.GetUserPlaylists (lookupFailsEnv "spotify:playlist:a".toList)
        { state := 0 }).1.map
        (fun r => match r with
          | Except.ok playlists => some (playlists.map fun p => p.ID)
          | Except.error _ => none)
        = some (some ["a".toList])
      ∧ (TransferAllPlaylists (lookupFailsEnv "spotify:playlist:a".toList) {} false
          { state := 0 }).panicked = false
      ∧ (TransferAllPlaylists (lookupFailsEnv "spotify:playlist:a".toList) {} false
          { state := 0 }).err = none
      ∧ (TransferAllPlaylists (lookupFailsEnv "spotify:playlist:a".toList) {} false
          { state := 0 }).results = some []
      ∧ (TransferAllPlaylists (lookupFailsEnv "spotify:playlist:a".toList) {} false
          { state := 0 }).summary = some { totalPlaylists := 0 } := by
  decide

/-- C24 (amended): once the clients are initialised and the playlists are listed,
`TransferAllPlaylists` hands `printSummary` one result for each source playlist whose track
fetch, existence check and creation succeeded, and none for a playlist for which one of them
failed, in the order the playlists were encountered, unless a reply of the remote service
lacks a field read through a pointer: then a step ends in a run-time panic and nothing is
handed over.  The result of a step is the result of `transferTracks` on the tracks fetched
and the destination resolved for its playlist.  The reported total of playlists is the number
of results handed over, which is at most the number of source playlists; the reported totals
of tracks, matched and failed tracks are the sums of `TotalTracks`, `MatchedTracks` and
`FailedTracks` over these results; one row is printed per result, in order. -/
theorem TransferAllPlaylists_summary {σ : Type} (env : Env σ) (s s1 : Service)
    (dryRun : Bool) (w w0 w1 : World σ) (playlists : List Playlist)
    (hinit : initializeClients env s w = (none, s1, w0))
    (hlist : spotify.GetUserPlaylists env w0 = (some (Except.ok playlists), w1)) :
    (TransferAllPlaylists env s dryRun w).results
        = (if (Spec.batchSteps env dryRun playlists w1).any (fun step => step.panicked)
           then none
           else some ((Spec.batchSteps env dryRun playlists w1).filterMap
              (fun step => step.outcome)))
      ∧ (TransferAllPlaylists env s dryRun w).summary
        = (TransferAllPlaylists env s dryRun w).results.map printSummary
      ∧ (Spec.Complete env.api →
          (Spec.batchSteps env dryRun playlists w1).any (fun step => step.panicked) = false)
      ∧ (∀ step ∈ Spec.batchSteps env dryRun playlists w1,
          (step.transfer = none → step.outcome = none)
          ∧ ∀ tracks pl w2, step.transfer = some (tracks, pl, w2) →
              step.outcome = (transferTracks env.api env.tbl tracks pl dryRun w2).1)
      ∧ ∀ results, (TransferAllPlaylists env s dryRun w).results = some results →
          (Spec.batchSteps env dryRun playlists w1).map (fun step => step.playlist) = playlists
          ∧ results
            = (Spec.batchSteps env dryRun playlists w1).filterMap (fun step => step.outcome)
          ∧ results.length ≤ playlists.length
          ∧ (printSummary results).totalPlaylists = results.length
          ∧ (printSummary results).totalTracks = (results.map (fun r => r.TotalTracks)).sum
          ∧ (printSummary results).totalMatched = (results.map (fun r => r.MatchedTracks)).sum
          ∧ (printSummary results).totalFailed = (results.map (fun r => r.FailedTracks)).sum
          ∧ (printSummary results).rows
            = results.map (fun r =>
                (r.PlaylistName, r.MatchedTracks, r.TotalTracks, r.FailedTracks)) := by
  obtain ⟨-, -, hres, hsum, -⟩ :=
    TransferAllPlaylists_results env s s1 dryRun w w0 w1 playlists hinit hlist
  obtain ⟨-, hfull, -⟩ := transferAllLoop_spec env dryRun playlists [] w1
  refine ⟨hres, hsum, fun hc => batchSteps_not_panicked env hc dryRun playlists w1, ?_, ?_⟩
  · intro step hmem
    obtain ⟨hnone, hsome⟩ := batchSteps_outcome env dryRun playlists w1 step hmem
    exact ⟨hnone, fun tracks pl w2 h => (hsome tracks pl w2 h).1⟩
  · intro results hr
    rw [hres] at hr
    cases hany : (Spec.batchSteps env dryRun playlists w1).any (fun step => step.panicked) with
    | true =>
      rw [hany] at hr
      simp only [if_true] at hr
      cases hr
    | false =>
      rw [hany] at hr
      simp only [Bool.false_eq_true, if_false, Option.some.injEq] at hr
      have hmap := hfull hany
      have hlen : results.length ≤ playlists.length := by
        have h1 := List.length_filterMap_le (fun step : Spec.PlaylistStep σ => step.outcome)
          (Spec.batchSteps env dryRun playlists w1)
        have h2 := congrArg List.length hmap
        rw [List.length_map] at h2
        rw [← hr]
        omega
      refine ⟨hmap, hr.symm, hlen, ?_, ?_, ?_, ?_, ?_⟩ <;> rw [printSummary_eq]

/-- C24, on a batch of two source playlists of one track each, for which everything
succeeds: two results are handed over, and the summary reports 2 playlists, 2 tracks, 2
matched and 0 failed. -/
theorem TransferAllPlaylists_summary_witness :
    (TransferAllPlaylists
        (workingEnv "spotify:playlist:a,spotify:playlist:b".toList []) {} false
        { state := 0 }).summary
      = some { rows := [("a".toList, 1, 1, 0), ("b".toList, 1, 1, 0)]
               totalPlaylists := 2, totalTracks := 2, totalMatched := 2, totalFailed := 0 } := by
  have h := TransferAllPlaylists_summary
    (workingEnv "spotify:playlist:a,spotify:playlist:b".toList []) {}
    { spotifyClient := true, youtubeClient := true } false { state := 0 } { state := 0 }
    { state := 4
      calls := [ApiCall.httpGet (embedURL "a".toList), ApiCall.httpGet (embedURL "a".toList),
        ApiCall.httpGet (embedURL "b".toList), ApiCall.httpGet (embedURL "b".toList)] }
    [{ ID := "a".toList, Name := "a".toList, TrackCount := 1, Public := true
       Owner := "Unknown".toList },
     { ID := "b".toList, Name := "b".toList, TrackCount := 1, Public := true
       Owner := "Unknown".toList }]
    rfl rfl
  rw [h.2.1, h.1]
  decide

/-- The calls made by `TransferPlaylist` up to and including the track fetch are GETs. -/
theorem fetched_calls {σ : Type} (env : Env σ) (s s1 : Service)
    (playlistID playlistName name : List Char) (w0 wi wn w : World σ) (tracks : List Track)
    (hinit : initializeClients env s w0 = (none, s1, wi))
    (hname : resolveName env wi playlistID playlistName = (some (Except.ok name), wn))
    (htracks : GetPlaylistTracks env wn playlistID = (some (Except.ok tracks), w)) :
    ∃ pre, w.calls = w0.calls ++ pre ∧ ∀ c ∈ pre, c.isGet = true := by
  have h0 := initializeClients_calls env s w0
  rw [hinit] at h0
  simp only at h0
  obtain ⟨-, cn, hcn, hgn⟩ := resolveName_spec env wi playlistID playlistName
  rw [hname] at hcn
  simp only at hcn
  obtain ⟨-, hcg⟩ := GetPlaylistTracks_spec env wn playlistID
  rw [htracks] at hcg
  simp only at hcg
  refine ⟨cn ++ [ApiCall.httpGet (embedURL playlistID)], ?_, ?_⟩
  · rw [hcg, hcn, h0, List.append_assoc]
  · intro c hc
    rcases List.mem_append.mp hc with h | h
    · exact hgn c h
    · rw [List.mem_singleton.mp h]; rfl

theorem filter_isCreate_of_gets (calls : List ApiCall) (h : ∀ c ∈ calls, c.isGet = true) :
    calls.filter ApiCall.isCreate = [] := by
  rw [List.filter_eq_nil_iff]
  intro c hc
  have := h c hc
  cases c <;> simp_all [ApiCall.isGet, ApiCall.isCreate]

theorem not_isAdd_of_isGet (c : ApiCall) (h : c.isGet = true) : ¬ c.isAdd = true := by
  cases c <;> simp_all [ApiCall.isGet, ApiCall.isAdd]

/-- A run of `TransferPlaylist` whose destination is resolved ends as the transfer of the
tracks does. -/
theorem TransferPlaylist_ready {σ : Type} (env : Env σ) (s s1 : Service)
    (playlistID playlistName name : List Char) (dryRun : Bool) (w w0 w1 w2 w3 : World σ)
    (tracks : List Track) (yp : YouTubePlaylist)
    (hinit : initializeClients env s w = (none, s1, w0))
    (hname : resolveName env w0 playlistID playlistName = (some (Except.ok name), w1))
    (htracks : GetPlaylistTracks env w1 playlistID = (some (Except.ok tracks), w2))
    (hdest : resolveDestination env w2 name
        ("Transferred from Spotify playlist: ".toList ++ playlistID) dryRun
      = (some (Destination.ready yp), w3)) :
    (TransferPlaylist env s playlistID playlistName dryRun w).err = none
      ∧ (TransferPlaylist env s playlistID playlistName dryRun w).result
        = (transferTracks env.api env.tbl tracks yp dryRun w3).1
      ∧ (TransferPlaylist env s playlistID playlistName dryRun w).panicked
        = (transferTracks env.api env.tbl tracks yp dryRun w3).1.isNone
      ∧ (TransferPlaylist env s playlistID playlistName dryRun w).world
        = (transferTracks env.api env.tbl tracks yp dryRun w3).2 := by
  rcases ht : transferTracks env.api env.tbl tracks yp dryRun w3 with ⟨tr, w4⟩
  cases tr with
  | none =>
    have hrun : TransferPlaylist env s playlistID playlistName dryRun w
        = { panicked := true, service := s1, world := w4 } := by
      simp only [TransferPlaylist, hinit, hname, htracks, hdest, ht]
    rw [hrun]
    exact ⟨rfl, rfl, rfl, rfl⟩
  | some r =>
    have hrun : TransferPlaylist env s playlistID playlistName dryRun w
        = { result := some r, service := s1, world := w4 } := by
      simp only [TransferPlaylist, hinit, hname, htracks, hdest, ht]
    rw [hrun]
    exact ⟨rfl, rfl, rfl, rfl⟩

/-- A run of `TransferPlaylist` whose playlist creation fails or panics ends in the world
left by the creation call. -/
theorem TransferPlaylist_not_created {σ : Type} (env : Env σ) (s s1 : Service)
    (playlistID playlistName name : List Char) (dryRun : Bool) (w w0 w1 w2 w3 : World σ)
    (tracks : List Track) (dest : Option Destination)
    (hinit : initializeClients env s w = (none, s1, w0))
    (hname : resolveName env w0 playlistID playlistName = (some (Except.ok name), w1))
    (htracks : GetPlaylistTracks env w1 playlistID = (some (Except.ok tracks), w2))
    (hdest : resolveDestination env w2 name
        ("Transferred from Spotify playlist: ".toList ++ playlistID) dryRun = (dest, w3))
    (hnot : ∀ yp, dest ≠ some (Destination.ready yp)) :
    (TransferPlaylist env s playlistID playlistName dryRun w).world = w3
      ∧ (TransferPlaylist env s playlistID playlistName dryRun w).result = none := by
  rcases dest with _ | (e | e | yp)
  · have hrun : TransferPlaylist env s playlistID playlistName dryRun w
        = { panicked := true, service := s1, world := w3 } := by
      simp only [TransferPlaylist, hinit, hname, htracks, hdest]
    rw [hrun]
    exact ⟨rfl, rfl⟩
  · have hrun : TransferPlaylist env s playlistID playlistName dryRun w
        = { err := some ("playlist existence check failed: ".toList ++ e)
            service := s1, world := w3 } := by
      simp only [TransferPlaylist, hinit, hname, htracks, hdest]
    rw [hrun]
    exact ⟨rfl, rfl⟩
  · have hrun : TransferPlaylist env s playlistID playlistName dryRun w
        = { err := some ("YouTube playlist oluşturulamadı: ".toList ++ e)
            service := s1, world := w3 } := by
      simp only [TransferPlaylist, hinit, hname, htracks, hdest]
    rw [hrun]
    exact ⟨rfl, rfl⟩
  · exact (hnot yp rfl).elim

/-! ## Destination resolution: theorems -/

/-- C22: destination resolution looks at the first page of the listing only.  The method
`GetUserPlaylists` makes one listing call, for the first page, and does not read the token
of the next page.  Relative to the playlists `listing` that it returns, `PlaylistExists(title)`
reports true exactly when one of them has a title equal to `title` under `strings.EqualFold`,
and returns the first such playlist; a run of `TransferPlaylist` that gets as far as the
destination resolution then reports the result of transferring the tracks to that playlist,
creates no playlist and inserts videos under the id of that playlist only; when there is
none, outside a dry run exactly one call creates a playlist, with the title looked for, and
in a dry run none does.  For a user with 51 playlists, of which the playlist `Mix` is on the
second page, `PlaylistExists` reports false for `Mix`, and the transfer creates a second
playlist `Mix` and inserts the track there. -/
theorem PlaylistExists_resolution :
    (∀ (σ : Type) (api : Api σ) (w : World σ) (page : PlaylistListResponse) (st1 : σ),
        api.playlistsList w.state [] = (Except.ok page, st1) →
        youtube.GetUserPlaylists api w
          = ((userPlaylistsOfItems page.Items).map Except.ok,
             { state := st1, calls := w.calls ++ [ApiCall.playlistsList] }))
      ∧ (∀ (σ : Type) (env : Env σ) (w w1 : World σ) (title : List Char)
          (listing : List YouTubePlaylist),
          youtube.GetUserPlaylists env.api w = (some (Except.ok listing), w1) →
          PlaylistExists env.api env.fold w title
              = (some (listing.any (fun p => strings.EqualFold env.fold p.Title title),
                  listing.find? (fun p => strings.EqualFold env.fold p.Title title), none), w1)
            ∧ ((PlaylistExists env.api env.fold w title).1.map (fun r => r.1) = some true
                ↔ ∃ p ∈ listing, strings.EqualFold env.fold p.Title title = true)
            ∧ ∀ (s s1 : Service) (playlistID playlistName : List Char) (dryRun : Bool)
                (w0 wi wn : World σ) (tracks : List Track),
                initializeClients env s w0 = (none, s1, wi) →
                resolveName env wi playlistID playlistName = (some (Except.ok title), wn) →
                GetPlaylistTracks env wn playlistID = (some (Except.ok tracks), w) →
                ∃ calls,
                  (TransferPlaylist env s playlistID playlistName dryRun w0).world.calls
                    = w0.calls ++ calls
                  ∧ (∀ p,
                      listing.find? (fun p => strings.EqualFold env.fold p.Title title)
                        = some p →
                      (TransferPlaylist env s playlistID playlistName dryRun w0).err = none
                      ∧ (TransferPlaylist env s playlistID playlistName dryRun w0).result
                        = (transferTracks env.api env.tbl tracks p dryRun w1).1
                      ∧ calls.filter ApiCall.isCreate = []
                      ∧ ∀ c ∈ calls, c.isAdd = true →
                          ∃ v, c = ApiCall.playlistItemsInsert p.ID v)
                  ∧ (listing.find? (fun p => strings.EqualFold env.fold p.Title title) = none →
                      (dryRun = false →
                        calls.filter ApiCall.isCreate
                          = [ApiCall.playlistsInsert title
                              ("Transferred from Spotify playlist: ".toList ++ playlistID)])
                      ∧ (dryRun = true → calls.filter ApiCall.isCreate = [])))
      ∧ (∃ item ∈ Spec.listedPlaylists pagedApi 2 0 [],
          item.Id = "yt51".toList ∧ item.Snippet.map (fun sn => sn.Title) = some "Mix".toList)
      ∧ (PlaylistExists pagedApi (fun _ _ => false) { state := 0 } "Mix".toList).1
        = some (false, none, none)
      ∧ (TransferPlaylist pagedEnv {} "abc".toList "Mix".toList false
          { state := 0 }).world.calls
        = [ApiCall.httpGet (embedURL "abc".toList), ApiCall.playlistsList,
           ApiCall.playlistsInsert "Mix".toList
             "Transferred from Spotify playlist: abc".toList,
           ApiCall.searchList "Daft Punk One More Time".toList,
           ApiCall.playlistItemsInsert "new".toList "v".toList] := by
  refine ⟨?_, ?_, ⟨playlistItem "yt51".toList "Mix".toList, by decide, rfl, rfl⟩,
    by decide, by decide⟩
  · intro σ api w page st1 hpage
    unfold youtube.GetUserPlaylists
    simp only [hpage]
    cases userPlaylistsOfItems page.Items <;> rfl
  intro σ env w w1 title listing hlist
  have hpe := PlaylistExists_of_listing env.api env.fold w w1 title listing hlist
  refine ⟨hpe, ?_, ?_⟩
  · rw [hpe]
    simp only [Option.map_some', Option.some.injEq, List.any_eq_true]
  · intro s s1 playlistID playlistName dryRun w0 wi wn tracks hinit hname htracks
    obtain ⟨pre, hpre, hgets⟩ :=
      fetched_calls env s s1 playlistID playlistName title w0 wi wn w tracks hinit hname htracks
    have hprec := filter_isCreate_of_gets pre hgets
    have hc1 := GetUserPlaylists_calls env.api w
    rw [hlist] at hc1
    simp only at hc1
    have hd := resolveDestination_eq env w title
      ("Transferred from Spotify playlist: ".toList ++ playlistID) dryRun
    rw [hlist] at hd
    simp only at hd
    cases hf : listing.find? (fun p => strings.EqualFold env.fold p.Title title) with
    | some p =>
      rw [hf] at hd
      simp only at hd
      obtain ⟨ct, hct, -, htc, -, hta⟩ := transferTracks_calls env.api env.tbl tracks p dryRun w1
      obtain ⟨herr, hres, -, hworld⟩ := TransferPlaylist_ready env s s1 playlistID playlistName
        title dryRun w0 wi wn w w1 tracks p hinit hname htracks hd
      refine ⟨pre ++ [ApiCall.playlistsList] ++ ct, ?_, ?_, ?_⟩
      · rw [hworld, hct, hc1, hpre]
        simp
      · intro q hq
        simp only [Option.some.injEq] at hq
        subst hq
        refine ⟨herr, hres, ?_, ?_⟩
        · rw [List.filter_append, List.filter_append, hprec, htc]
          rfl
        · intro c hc hadd
          rcases List.mem_append.mp hc with h | h
          · rcases List.mem_append.mp h with h | h
            · exact (not_isAdd_of_isGet c (hgets c h) hadd).elim
            · rw [List.mem_singleton.mp h] at hadd
              cases hadd
          · exact hta c h hadd
      · intro hnone
        cases hnone
    | none =>
      rw [hf] at hd
      simp only at hd
      cases dryRun with
      | true =>
        simp only [if_true] at hd
        obtain ⟨ct, hct, -, htc, -, -⟩ := transferTracks_calls env.api env.tbl tracks
          { Title := title
            Description := "Transferred from Spotify playlist: ".toList ++ playlistID } true w1
        obtain ⟨-, -, -, hworld⟩ := TransferPlaylist_ready env s s1 playlistID playlistName
          title true w0 wi wn w w1 tracks _ hinit hname htracks hd
        refine ⟨pre ++ [ApiCall.playlistsList] ++ ct, ?_, ?_, ?_⟩
        · rw [hworld, hct, hc1, hpre]
          simp
        · intro q hq
          cases hq
        · intro _
          refine ⟨?_, fun _ => ?_⟩
          · intro h; cases h
          rw [List.filter_append, List.filter_append, hprec, htc]
          rfl
      | false =>
        simp only [Bool.false_eq_true, if_false] at hd
        have hcc := CreatePlaylist_calls env.api w1 title
          ("Transferred from Spotify playlist: ".toList ++ playlistID)
        rcases hcr : CreatePlaylist env.api w1 title
          ("Transferred from Spotify playlist: ".toList ++ playlistID) with ⟨cres, w2⟩
        rw [hcr] at hcc hd
        simp only at hcc
        have hfail : ∀ dest : Option Destination,
            resolveDestination env w title
                ("Transferred from Spotify playlist: ".toList ++ playlistID) false
              = (dest, w2) →
            (∀ yp, dest ≠ some (Destination.ready yp)) →
            ∃ calls,
              (TransferPlaylist env s playlistID playlistName false w0).world.calls
                = w0.calls ++ calls
              ∧ (∀ p, (none : Option YouTubePlaylist) = some p →
                  (TransferPlaylist env s playlistID playlistName false w0).err = none
                  ∧ (TransferPlaylist env s playlistID playlistName false w0).result
                    = (transferTracks env.api env.tbl tracks p false w1).1
                  ∧ calls.filter ApiCall.isCreate = []
                  ∧ ∀ c ∈ calls, c.isAdd = true →
                      ∃ v, c = ApiCall.playlistItemsInsert p.ID v)
              ∧ ((none : Option YouTubePlaylist) = none →
                  (false = false →
                    calls.filter ApiCall.isCreate
                      = [ApiCall.playlistsInsert title
                          ("Transferred from Spotify playlist: ".toList ++ playlistID)])
                  ∧ (false = true → calls.filter ApiCall.isCreate = [])) := by
          intro dest hdest hnot
          obtain ⟨hworld, -⟩ := TransferPlaylist_not_created env s s1 playlistID playlistName
            title false w0 wi wn w w2 tracks dest hinit hname htracks hdest hnot
          refine ⟨pre ++ [ApiCall.playlistsList, ApiCall.playlistsInsert title
            ("Transferred from Spotify playlist: ".toList ++ playlistID)], ?_, ?_, ?_⟩
          · rw [hworld, hcc, hc1, hpre]
            simp
          · intro q hq
            cases hq
          · intro _
            refine ⟨fun _ => ?_, ?_⟩
            · rw [List.filter_append, hprec]
              rfl
            · intro h; cases h
        rcases cres with _ | (e | yp)
        · simp only at hd
          exact hfail none hd (fun yp h => by cases h)
        · simp only at hd
          exact hfail _ hd (fun yp h => by cases h)
        · simp only at hd
          obtain ⟨ct, hct, -, htc, -, -⟩ :=
            transferTracks_calls env.api env.tbl tracks yp false w2
          obtain ⟨-, -, -, hworld⟩ := TransferPlaylist_ready env s s1 playlistID playlistName
            title false w0 wi wn w w2 tracks yp hinit hname htracks hd
          refine ⟨pre ++ [ApiCall.playlistsList, ApiCall.playlistsInsert title
            ("Transferred from Spotify playlist: ".toList ++ playlistID)] ++ ct, ?_, ?_, ?_⟩
          · rw [hworld, hct, hcc, hc1, hpre]
            simp
          · intro q hq
            cases hq
          · intro _
            refine ⟨fun _ => ?_, ?_⟩
            · rw [List.filter_append, List.filter_append, hprec, htc]
              rfl
            · intro h; cases h

/-- C22, with the destination playlists `MIX` (id `yt1`) and `Other`, for the title `Mix`:
`PlaylistExists` reports true and returns the playlist `MIX`; the transfer of the playlist
`abc` under the name `Mix` returns a nil error, creates no playlist, and inserts its one
track under the id `yt1`. -/
theorem PlaylistExists_resolution_witness :
    (PlaylistExists
        (workingEnv [] [playlistItem "yt1".toList "MIX".toList,
          playlistItem "yt2".toList "Other".toList]).api (fun _ _ => false)
        { state := 1, calls := [ApiCall.httpGet (embedURL "abc".toList)] } "Mix".toList).1
      = some (true, some { ID := "yt1".toList, Title := "MIX".toList }, none)
    ∧ (TransferPlaylist
          (workingEnv [] [playlistItem "yt1".toList "MIX".toList,
            playlistItem "yt2".toList "Other".toList])
          {} "abc".toList "Mix".toList false { state := 0 }).err = none
    ∧ (TransferPlaylist
          (workingEnv [] [playlistItem "yt1".toList "MIX".toList,
            playlistItem "yt2".toList "Other".toList])
          {} "abc".toList "Mix".toList false { state := 0 }).world.calls
      = [ApiCall.httpGet (embedURL "abc".toList), ApiCall.playlistsList,
         ApiCall.searchList "Daft Punk One More Time".toList,
         ApiCall.playlistItemsInsert "yt1".toList "v".toList] := by
  have h := PlaylistExists_resolution.2.1 Nat
    (workingEnv [] [playlistItem "yt1".toList "MIX".toList,
      playlistItem "yt2".toList "Other".toList])
    { state := 1, calls := [ApiCall.httpGet (embedURL "abc".toList)] }
    { state := 1, calls := [ApiCall.httpGet (embedURL "abc".toList), ApiCall.playlistsList] }
    "Mix".toList
    [{ ID := "yt1".toList, Title := "MIX".toList },
     { ID := "yt2".toList, Title := "Other".toList }] rfl
  refine ⟨congrArg Prod.fst h.1, ?_, by decide⟩
  obtain ⟨calls, -, hfound, -⟩ :=
    h.2.2 {} { spotifyClient := true, youtubeClient := true } "abc".toList "Mix".toList false
      { state := 0 } { state := 0 } { state := 0 }
      [{ Name := "One More Time".toList, Artist := "Daft Punk".toList }] rfl rfl rfl
  exact (hfound { ID := "yt1".toList, Title := "MIX".toList } rfl).1

end SpoToMusic
